import Mathlib

/-
  Verification development for the file-utility batch engine
  (src/Windows/fileutilitytoolgui.py).

  The Python source is shallowly embedded as executable Lean definitions:
  - the sqlite tables hashvalues / filegroups are lists of records in rowid
    (insertion) order; the sqlite _rowid_ of a record is its list index;
  - the metadata key/value table is an association list; the sqlite TEXT
    encoding of integer values (str(...) on write, int(...) on read) is
    modelled by a typed value (MVal.num);
  - files are given by (path, contents) pairs; the md5 hexdigest of a byte
    stream is an arbitrary function (md5 : String -> String) over contents,
    capturing exactly the determinism the jobs rely on;
  - the cooperative cancellation token (threading.Event) is monotone within
    one run: it is modelled by an optional check index cancelFrom, with
    is_set() observed true from the cancelFrom-th check of the run onward;
  - per-item OS failures that the source converts to log events (unreadable
    file during hashing, sqlite insert failure) are outside the model except
    where a claim depends on them: os.remove failure is modelled (a path
    absent from the filesystem cannot be removed).
-/

/- ---------------------------------------------------------------- -/
/- Characters and strings: models of the Python str operations used  -/
/- ---------------------------------------------------------------- -/

/-- Model of str.upper() for the code points that occur in paths (ASCII). -/
def strUpper (s : String) : String := String.mk (s.data.map Char.toUpper)

/-- Boolean test that one char list is an initial segment of another. -/
def prefOf : List Char → List Char → Bool
  | [], _ => true
  | _ :: _, [] => false
  | a :: as, b :: bs => a == b && prefOf as bs

/-- Boolean test that a (nonempty) needle occurs inside a char list. -/
def hasSub (needle : List Char) : List Char → Bool
  | [] => prefOf needle []
  | c :: rest => prefOf needle (c :: rest) || hasSub needle rest

/-- Model of the Python containment test, needle in haystack. -/
def pyIn (needle hay : String) : Bool := hasSub needle.data hay.data

/-- Model of startswith on str (used by the FileGrouper destination gate). -/
def pyStartsWith (s pre : String) : Bool := prefOf pre.data s.data

/-- Lexicographic code-point comparison of char lists (Python str order). -/
def lexLe : List Char → List Char → Bool
  | [], _ => true
  | _ :: _, [] => false
  | a :: as, b :: bs =>
    if a.toNat < b.toNat then true
    else if b.toNat < a.toNat then false
    else lexLe as bs

/-- Python string comparison s1 <= s2, as a Prop for sorting. -/
def strLe (a b : String) : Prop := lexLe a.data b.data = true

instance : DecidableRel strLe := fun a b => by unfold strLe; infer_instance

/- ---------------------------------------------------------------- -/
/- The metadata table (key TEXT PRIMARY KEY, value TEXT)             -/
/- ---------------------------------------------------------------- -/

/-- A metadata value: the sqlite TEXT column, with the str(int) encoding of
numeric cursors modelled as a typed alternative. -/
inductive MVal where
  | num : Nat → MVal
  | str : String → MVal
deriving DecidableEq, Repr

/-- The metadata table; INSERT OR REPLACE is modelled by prepending, with
lookup returning the most recent binding. -/
abbrev Meta := List (String × MVal)

/-- Model of set_metadata. -/
def metaSet (m : Meta) (k : String) (v : MVal) : Meta := (k, v) :: m

/-- Model of get_metadata (returns none when the key is absent). -/
def metaGet (m : Meta) (k : String) : Option MVal :=
  (m.find? (fun kv => kv.1 == k)).map (fun kv => kv.2)

/-- Model of int(get_metadata(conn, k, default)) for numeric cursor keys. -/
def metaGetN (m : Meta) (k : String) (d : Nat) : Nat :=
  match metaGet m k with
  | some (MVal.num n) => n
  | _ => d

/-- Model of get_metadata for string-valued keys, with a default. -/
def metaGetS (m : Meta) (k : String) (d : String) : String :=
  match metaGet m k with
  | some (MVal.str s) => s
  | _ => d

/- ---------------------------------------------------------------- -/
/- The record store                                                 -/
/- ---------------------------------------------------------------- -/

/-- One row of the hashvalues table: (row INT, path TEXT, hash TEXT,
duplicate INT, deleted INT).  The duplicate column is tri-state
(NULL / 0 / 1), modelled as Option Nat.  The sqlite _rowid_ is the
position of the record in the list. -/
structure HashRow where
  row : Nat
  path : String
  hash : String
  dup : Option Nat
  deleted : Nat
deriving DecidableEq, Repr

/-- One row of the filegroups table.  The created_at and notes columns are
never read by any job and are omitted. -/
structure FGRow where
  originpath : String
  destinationpath : Option String
  filename : String
  extension : String
  hash : Option String
  copied : Nat
  dup : Option Nat
deriving DecidableEq, Repr

/-- The sqlite database: both tables plus the metadata table. -/
structure DB where
  hashvalues : List HashRow
  filegroups : List FGRow
  meta : Meta
deriving DecidableEq, Repr

def DB.setN (db : DB) (k : String) (n : Nat) : DB :=
  { db with meta := metaSet db.meta k (MVal.num n) }

def DB.setS (db : DB) (k : String) (s : String) : DB :=
  { db with meta := metaSet db.meta k (MVal.str s) }

def DB.getN (db : DB) (k : String) (d : Nat) : Nat := metaGetN db.meta k d

def DB.getS (db : DB) (k : String) (d : String) : String := metaGetS db.meta k d

/-- The list of path values present in a hashvalues table (the set the
generate_sql loop loads as existing_paths). -/
def pathsOf (hv : List HashRow) : List String := hv.map (fun r => r.path)

/- ---------------------------------------------------------------- -/
/- Cancellation token                                               -/
/- ---------------------------------------------------------------- -/

/-- The cooperative cancel_event: is_set() observed at the i-th check of a
run returns true exactly when the token was set from check cancelFrom on. -/
def cancelHit (cancelFrom : Option Nat) (i : Nat) : Bool :=
  match cancelFrom with
  | none => false
  | some c => decide (c ≤ i)

/- ---------------------------------------------------------------- -/
/- generate_sql: the HashIndexer job (source lines 220-381)          -/
/- ---------------------------------------------------------------- -/

/-- The per-file loop of generate_sql (source lines 304-367) followed by its
finalization block (lines 369-375).  Arguments: remaining files, index of
the next cancellation check, processed counter, row_counter, the
existing_paths set, and the database.  Progress/file events carry no state
and are not modelled here. -/
def genLoop (md5 : String → String) (cancelFrom : Option Nat) (total : Nat) :
    List (String × String) → Nat → Nat → Nat → List String → DB → DB
  | [], _i, processed, _rowCounter, _existing, db =>
    ((((db.setS "operation_state" "idle").setS "last_operation"
        "generate_sql").setS "last_file" "").setN "processed_count"
        processed).setN "total_files" total
  | (p, c) :: rest, i, processed, rowCounter, existing, db =>
    if cancelHit cancelFrom i then
      (((db.setS "operation_state" "cancelled").setS "last_operation"
          "generate_sql").setS "last_file" p).setN "processed_count" processed
    else
      let processed := processed + 1
      if p ∈ existing then
        genLoop md5 cancelFrom total rest (i + 1) processed rowCounter existing
          ((db.setS "last_file" p).setN "processed_count" processed)
      else
        let filehash := md5 c
        let db' := { db with
          hashvalues :=
            db.hashvalues ++ [HashRow.mk rowCounter p filehash none 0] }
        genLoop md5 cancelFrom total rest (i + 1) processed (rowCounter + 1)
          (p :: existing)
          (((db'.setN "row_counter" (rowCounter + 1)).setS "last_file"
            p).setN "processed_count" processed)

/-- The fresh-start metadata prologue of generate_sql (lines 279-285). -/
def genPrologueF (db : DB) (n : Nat) : DB :=
  ((((db.setS "operation_state" "generate_sql").setS "last_operation"
    "generate_sql").setS "last_file" "").setN "processed_count" 0).setN
    "total_files" n

/-- The resume metadata prologue of generate_sql (lines 287-297); the
processed counter itself is read from the metadata separately. -/
def genPrologueT (db : DB) (n : Nat) : DB :=
  ((db.setN "total_files" n).setS "operation_state"
    "generate_sql").setS "last_operation" "generate_sql"

/-- Model of generate_sql.  The deterministic walk output of the tree
(os.walk with sorted dirs/files and the GIT exclusion, then joined paths) is
passed in as fileList together with each file's contents; the empty-tree
early error return and the metadata prologue (lines 227-301) are embedded.
The row_counter read of line 301 happens after the prologue, which never
writes that key.  Files are modelled as readable and the store as reliable,
so the two exception branches that only emit log events are not taken. -/
def generateSql (md5 : String → String) (cancelFrom : Option Nat)
    (fileList : List (String × String)) (resume : Bool) (db : DB) : DB :=
  if fileList.isEmpty then db
  else
    let existing := pathsOf db.hashvalues
    let processed :=
      if resume then min (db.getN "processed_count" 0) fileList.length else 0
    let db' :=
      if resume then genPrologueT db fileList.length
      else genPrologueF db fileList.length
    genLoop md5 cancelFrom fileList.length fileList 0 processed
      (db'.getN "row_counter" 0) existing db'

/- ---------------------------------------------------------------- -/
/- Record-level summary of the generate_sql loop                     -/
/- ---------------------------------------------------------------- -/

/-- The record-level state of the indexing loop: existing_paths, the
row_counter, and the hashvalues table. -/
structure RecSt where
  ex : List String
  rc : Nat
  hv : List HashRow
deriving Repr

/-- One file of the indexing loop, at the record level: skip a path already
recorded, otherwise insert a freshly hashed record. -/
def recStep (md5 : String → String) (s : RecSt) (pc : String × String) :
    RecSt :=
  if pc.1 ∈ s.ex then s
  else
    { ex := pc.1 :: s.ex, rc := s.rc + 1,
      hv := s.hv ++ [HashRow.mk s.rc pc.1 (md5 pc.2) none 0] }

/-- The record-level run of the indexing loop over a file list. -/
def recRun (md5 : String → String) (l : List (String × String)) (s : RecSt) :
    RecSt :=
  l.foldl (recStep md5) s

/-- The summary state generate_sql starts its loop from. -/
def recStart (db : DB) : RecSt :=
  ⟨pathsOf db.hashvalues, db.getN "row_counter" 0, db.hashvalues⟩

/- ---------------------------------------------------------------- -/
/- The filesystem walk of generate_sql (source lines 236-242)        -/
/- ---------------------------------------------------------------- -/

/- A directory tree for the walk model: subdirectory (name, subtree) pairs
and file names, both in on-disk enumeration order.  The subdirectory list
is a dedicated mutual inductive so the walk can recurse structurally. -/
mutual
/-- A directory: its subdirectories and its file names. -/
inductive DirTree where
  | node : SubList → List String → DirTree
deriving Repr
/-- A list of (name, subtree) subdirectory entries. -/
inductive SubList where
  | nil : SubList
  | cons : String → DirTree → SubList → SubList
deriving Repr
end

/-- Convenience constructor for subdirectory lists. -/
def subsOf : List (String × DirTree) → SubList
  | [] => SubList.nil
  | (n, t) :: rest => SubList.cons n t (subsOf rest)

/-- The walk exclusion test of line 240: a directory name is dropped from
dirs[:] exactly when its upper-case form equals GIT or it equals .git. -/
def exclDir (d : String) : Bool := strUpper d == "GIT" || d == ".git"

/-- Order on (name, walked-subtree) pairs, modelling dirs.sort(). -/
def keyLe (a b : String × List (List String)) : Prop := strLe a.1 b.1

instance : DecidableRel keyLe := fun a b => by unfold keyLe; infer_instance

mutual
/-- Model of the file-list pass of generate_sql (lines 236-242): os.walk
topdown with dirs.sort() and files.sort(), and the dirs[:] filter of line
240 pruning directories from the traversal.  Paths are modelled as
component lists (each os.path.join of the walk appends one component).
Each subtree is walked with its name, and the sort and filter of dirs[:]
act on the (name, walked subtree) pairs; as the sort compares names only
and is stable, this is the enumeration order of the source. -/
def walkT : List String → DirTree → List (List String)
  | pfx, DirTree.node subs files =>
    (List.insertionSort strLe files).map (fun f => pfx ++ [f]) ++
      (((walkSubs pfx subs).insertionSort keyLe).filter
        (fun d => !(exclDir d.1))).flatMap (fun d => d.2)

/-- The walks of each subdirectory, paired with its name, in on-disk
order (the sort and filter are applied by walkT). -/
def walkSubs : List String → SubList → List (String × List (List String))
  | _, SubList.nil => []
  | pfx, SubList.cons n t rest =>
    (n, walkT (pfx ++ [n]) t) :: walkSubs pfx rest
end

mutual
/-- Size of a tree, for induction over the walk. -/
def sizeT : DirTree → Nat
  | DirTree.node subs _ => 1 + sizeSubs subs

/-- Size of a subdirectory list, for induction over the walk. -/
def sizeSubs : SubList → Nat
  | SubList.nil => 0
  | SubList.cons _ t rest => 1 + sizeT t + sizeSubs rest
end

/-- A one-directory tree whose subdirectory is named .GIT. -/
def treeDotGitUpper : DirTree :=
  DirTree.node (subsOf [(".GIT", DirTree.node (subsOf []) ["f.txt"])]) []

/- ---------------------------------------------------------------- -/
/- generate_and_mark_duplicates: the DuplicateGrouper job            -/
/- (source lines 387-535)                                            -/
/- ---------------------------------------------------------------- -/

/-- Rows paired with their sqlite rowid, starting from n. -/
def idxFrom (n : Nat) : List HashRow → List (Nat × HashRow)
  | [] => []
  | r :: rest => (n, r) :: idxFrom (n + 1) rest

/-- Rows paired with their sqlite rowid (list position). -/
def idxList (hv : List HashRow) : List (Nat × HashRow) := idxFrom 0 hv

/-- The visibility filter applied to fetched group members (lines 491 and
654): a row is kept when /GIT/ does not occur in the upper-cased path and
.git does not occur in the path. -/
def visiblePath (p : String) : Bool :=
  !(pyIn "/GIT/" (strUpper p)) && !(pyIn ".git" p)

/-- The distinct hash values of the table in first-occurrence (rowid)
order, modelling the deterministic order in which the GROUP BY hash query
returns its groups. -/
def distinctHashes : List HashRow → List String → List String
  | [], _ => []
  | r :: rest, seen =>
    if r.hash ∈ seen then distinctHashes rest seen
    else r.hash :: distinctHashes rest (r.hash :: seen)

/-- The candidate-group query of lines 415-421: hashes whose row count
exceeds one and whose duplicate-equal-one count is below the row count. -/
def dupCandidates (hv : List HashRow) : List String :=
  (distinctHashes hv []).filter (fun h =>
    decide (1 < (hv.filter (fun r => r.hash == h)).length) &&
      decide ((hv.filter (fun r => r.hash == h && r.dup == some 1)).length <
        (hv.filter (fun r => r.hash == h)).length))

/-- The ORDER BY row ASC, _rowid_ ASC of line 487, on (rowid, record)
pairs. -/
def rowOrd (a b : Nat × HashRow) : Prop :=
  a.2.row < b.2.row ∨ (a.2.row = b.2.row ∧ a.1 ≤ b.1)

instance : DecidableRel rowOrd := fun a b => by unfold rowOrd; infer_instance

instance : IsTotal (Nat × HashRow) rowOrd :=
  ⟨fun a b => by unfold rowOrd; omega⟩

instance : IsTrans (Nat × HashRow) rowOrd :=
  ⟨fun a b c => by unfold rowOrd; omega⟩

/-- The rows of one hash group with their rowids, in rowid order (the
fetch of line 487 before its ORDER BY). -/
def grpOf (hv : List HashRow) (h : String) : List (Nat × HashRow) :=
  (idxList hv).filter (fun ir => ir.2.hash == h)

/-- The visible members of one hash group in (row, rowid) order: the ORDER
BY of line 487 followed by the excluded-path filter of line 491. -/
def visOf (hv : List HashRow) (h : String) : List (Nat × HashRow) :=
  ((grpOf hv h).insertionSort rowOrd).filter (fun ir => visiblePath ir.2.path)

/-- The rowids collected for the batched duplicate update (lines 503-507):
every visible row after the first whose duplicate flag is NULL or 0. -/
def dupIdxsOf (hv : List HashRow) (h : String) : List Nat :=
  ((visOf hv h).tail.filter (fun ir =>
    ir.2.dup == none || ir.2.dup == some 0)).map (fun ir => ir.1)

/-- The duplicate flags written for one candidate group (lines 487-516):
the first visible row is the base and is never marked; every later visible
row whose duplicate flag is NULL or 0 is set to 1 in one batched update;
a group with no visible rows writes nothing. -/
def markGroupHV (hv : List HashRow) (h : String) : List HashRow :=
  if (visOf hv h).isEmpty then hv
  else
    (idxList hv).map (fun ir =>
      if ir.1 ∈ dupIdxsOf hv h then { ir.2 with dup := some 1 } else ir.2)

/-- The candidate loop of generate_and_mark_duplicates (lines 459-529) with
its finalization block (lines 523-529).  Arguments: remaining candidate
hashes, cancellation check index, processed counter, total group count, the
resume skip flag, the checkpointed hash, and the database. -/
def markLoop (cancelFrom : Option Nat) :
    List String → Nat → Nat → Nat → Bool → String → DB → DB
  | [], _i, processed, total, _skipping, _lastHash, db =>
    ((((db.setS "operation_state" "idle").setS "last_operation"
      "calculate_duplicates").setS "dup_last_hash" "").setN
      "dup_processed_count" processed).setN "dup_total_groups" total
  | h :: rest, i, processed, total, skipping, lastHash, db =>
    if cancelHit cancelFrom i then
      (((db.setS "operation_state" "cancelled").setS "last_operation"
        "calculate_duplicates").setS "dup_last_hash" h).setN
        "dup_processed_count" processed
    else if skipping then
      markLoop cancelFrom rest (i + 1) (processed + 1) total
        (!(h == lastHash)) lastHash db
    else
      markLoop cancelFrom rest (i + 1) (processed + 1) total false lastHash
        (({ db with hashvalues := markGroupHV db.hashvalues h }.setS
          "dup_last_hash" h).setN "dup_processed_count" (processed + 1))

/-- Model of generate_and_mark_duplicates (the DuplicateGrouper job).  The
database-existence check, index creation and baseline duplicate count write
no state and are elided; the body from the candidate query of line 415 on
is embedded.  Event emission carries no state for this job and is not
modelled. -/
def generateAndMarkDuplicates (cancelFrom : Option Nat) (resume : Bool)
    (db : DB) : DB :=
  let cands := dupCandidates db.hashvalues
  if cands.isEmpty then db
  else
    let lastHash := if resume then db.getS "dup_last_hash" "" else ""
    let processed :=
      if resume then min (db.getN "dup_processed_count" 0) cands.length
      else 0
    let db' :=
      if resume then db
      else
        ((((db.setS "operation_state" "calculating_duplicates").setS
          "last_operation" "calculate_duplicates").setS "dup_last_hash"
          "").setN "dup_processed_count" 0).setN "dup_total_groups"
          cands.length
    markLoop cancelFrom cands 0 processed cands.length
      (resume && !(lastHash == "")) lastHash db'

/-- The suffix of the candidate list that remains after the resume skip:
everything strictly after the first occurrence of the checkpointed hash,
and nothing when the checkpointed hash does not occur. -/
def skipPast (lastHash : String) : List String → List String
  | [] => []
  | h :: rest => if h == lastHash then rest else skipPast lastHash rest

/-- A table whose one duplicate group was already fully marked (as the
FileGrouper's mark_hashvalues_duplicate does, base included). -/
def dbPremarked : DB :=
  ⟨[⟨0, "a", "h", some 1, 0⟩, ⟨1, "b", "h", some 1, 0⟩], [], []⟩

/-- A clean two-record duplicate group for the C2 witness. -/
def dbTwoSame : DB :=
  ⟨[⟨0, "a", "k", none, 0⟩, ⟨1, "b", "k", none, 0⟩], [], []⟩

/-- Two clean duplicate groups (h1 and h2), none marked yet. -/
def dbTwoGroups : DB :=
  ⟨[⟨0, "a", "h1", none, 0⟩, ⟨1, "b", "h1", none, 0⟩,
    ⟨2, "c", "h2", none, 0⟩, ⟨3, "d", "h2", none, 0⟩], [], []⟩

/-- A table with a checkpointed hash in its metadata, for the C5 witness. -/
def dbCheckpointed : DB :=
  ⟨[⟨0, "a", "h1", none, 0⟩, ⟨1, "b", "h1", none, 0⟩,
    ⟨2, "c", "h2", none, 0⟩, ⟨3, "d", "h2", none, 0⟩], [],
    [("dup_last_hash", MVal.str "h1")]⟩

/- ---------------------------------------------------------------- -/
/- delete_duplicates_generator: the DuplicateDeleter job             -/
/- (source lines 563-699)                                            -/
/- ---------------------------------------------------------------- -/

/-- The tagged events a job yields (section 6 event contract). -/
inductive Ev where
  | status (s : String)
  | log (s : String)
  | progress (q : ℚ)
  | file (p : String)
  | groupStart (p : String)
  | groupDup (p : String)
  | dupCount (n : Nat)
  | deleted (p : String)
  | copied (p : String)
  | skippedDup (p : String)
  | done
  | error (s : String)
deriving DecidableEq, Repr

/-- The deleted events of a stream. -/
def deletedEvs (evs : List Ev) : List Ev :=
  evs.filter (fun e => match e with | Ev.deleted _ => true | _ => false)

/-- State threaded through the delete job: the database, the set of paths
present on disk, the events yielded so far, and deleted_count. -/
structure DelSt where
  db : DB
  fs : List String
  evs : List Ev
  cnt : Nat
deriving Repr

/-- The candidate query of lines 587-592: hashes having at least one row
with duplicate=1 and deleted=0; first-occurrence order models the
deterministic order the GROUP BY returns. -/
def delCandidates (hv : List HashRow) : List String :=
  (distinctHashes hv []).filter (fun h =>
    decide (0 < (hv.filter (fun r =>
      r.hash == h && r.dup == some 1 && r.deleted == 0)).length))

/-- The UPDATE hashvalues SET deleted = 1 WHERE _rowid_ = rid of line
676. -/
def setDeletedAt (hv : List HashRow) (rid : Nat) : List HashRow :=
  (idxList hv).map (fun ir =>
    if ir.1 = rid then { ir.2 with deleted := 1 } else ir.2)

/-- The visible members of one hash group in rowid order: the fetch of line
652 (ORDER BY _rowid_) followed by the excluded-path filter of line 654. -/
def delVisOf (hv : List HashRow) (h : String) : List (Nat × HashRow) :=
  ((idxList hv).filter (fun ir => ir.2.hash == h)).filter
    (fun ir => visiblePath ir.2.path)

/-- The per-candidate delete loop of lines 670-682: os.remove followed, on
success only, by the deleted-flag update and a deleted event; a remove of
an absent path fails and yields a log event; dry runs only report. -/
def delFiles (dryRun : Bool) : List (Nat × String) → DelSt → DelSt
  | [], st => st
  | (rid, p) :: rest, st =>
    if dryRun then
      delFiles dryRun rest
        { st with evs := st.evs ++ [Ev.deleted p], cnt := st.cnt + 1 }
    else if p ∈ st.fs then
      delFiles dryRun rest
        { db := { st.db with
            hashvalues := setDeletedAt st.db.hashvalues rid },
          fs := st.fs.erase p,
          evs := st.evs ++ [Ev.deleted p], cnt := st.cnt + 1 }
    else
      delFiles dryRun rest
        { st with evs := st.evs ++ [Ev.log ("Failed to delete " ++ p)] }

/-- One candidate group of the delete loop (lines 651-682): fetch in rowid
order, filter excluded paths, keep the first visible row, and delete the
later visible rows flagged duplicate=1 and deleted=0. -/
def delGroupSt (dryRun : Bool) (st : DelSt) (h : String) : DelSt :=
  let vis := delVisOf st.db.hashvalues h
  if vis.isEmpty then st
  else
    delFiles dryRun ((vis.tail.filter (fun ir =>
      ir.2.dup == some 1 && ir.2.deleted == 0)).map
        (fun ir => (ir.1, ir.2.path))) st

/-- The candidate loop of delete_duplicates_generator (lines 626-699) with
its finalization block (lines 689-699). -/
def delLoop (cancelFrom : Option Nat) (dryRun : Bool) :
    List String → Nat → Nat → Nat → Bool → String → DelSt → DelSt
  | [], _i, processed, total, _skipping, _lastHash, st =>
    { st with
      db := ((((st.db.setS "operation_state" "idle").setS "last_operation"
        "delete_duplicates").setS "del_last_hash" "").setN
        "del_processed_count" processed).setN "del_total_groups" total,
      evs := st.evs ++ [Ev.status "done",
        Ev.log ("Delete operation complete. Deleted " ++ toString st.cnt ++
          " files."), Ev.done] }
  | h :: rest, i, processed, total, skipping, lastHash, st =>
    if cancelHit cancelFrom i then
      { st with
        db := (((st.db.setS "operation_state" "cancelled").setS
          "last_operation" "delete_duplicates").setS "del_last_hash"
          h).setN "del_processed_count" processed,
        evs := st.evs ++ [Ev.log "Delete operation cancelled by user",
          Ev.status "cancelled"] }
    else if skipping then
      delLoop cancelFrom dryRun rest (i + 1) (processed + 1) total
        (!(h == lastHash)) lastHash st
    else
      let st1 := { st with evs := st.evs ++
        [Ev.progress (min 100 (((processed : ℚ) + 1) / (total : ℚ) *
          100))] }
      let st2 := delGroupSt dryRun st1 h
      delLoop cancelFrom dryRun rest (i + 1) (processed + 1) total false
        lastHash
        { st2 with db := ((st2.db.setS "del_last_hash" h).setN
            "del_processed_count" (processed + 1)) }

/-- Model of delete_duplicates_generator.  The database file existence
check is the dbExists flag; the filesystem is the list of present paths;
the index creation of line 583 writes no modelled state. -/
def deleteDuplicates (dbPath : String) (dbExists : Bool)
    (cancelFrom : Option Nat) (resume dryRun : Bool) (db : DB)
    (fs : List String) : DelSt :=
  if !dbExists then
    ⟨db, fs, [Ev.error ("Database not found: " ++ dbPath),
      Ev.status "error"], 0⟩
  else
    let evs0 := [Ev.status "Preparing delete operation",
      Ev.log ("Opening DB: " ++ dbPath)]
    let cands := delCandidates db.hashvalues
    if cands.isEmpty then
      ⟨db, fs, evs0 ++ [Ev.log "No duplicate groups pending deletion.",
        Ev.status "done", Ev.done], 0⟩
    else
      let lastHash := if resume then db.getS "del_last_hash" "" else ""
      let processed :=
        if resume then min (db.getN "del_processed_count" 0) cands.length
        else 0
      let db' :=
        if resume then db
        else
          ((((db.setS "operation_state" "delete_duplicates").setS
            "last_operation" "delete_duplicates").setS "del_last_hash"
            "").setN "del_processed_count" 0).setN "del_total_groups"
            cands.length
      let evs1 := evs0 ++
        (if resume then
          [Ev.log (if lastHash == "" then "Resuming delete"
            else "Resuming delete at hash: " ++ lastHash)]
         else []) ++ [Ev.status "Deleting duplicates"]
      delLoop cancelFrom dryRun cands 0 processed cands.length
        (resume && !(lastHash == "")) lastHash ⟨db', fs, evs1, 0⟩

/-- A table whose insertion (rowid) order disagrees with its sequence (row)
order: the record with row 0 was inserted second. -/
def dbRowidMismatch : DB :=
  ⟨[⟨1, "b", "h", some 1, 0⟩, ⟨0, "a", "h", some 1, 0⟩], [], []⟩

/-- A deletion candidate row: flagged duplicate, not yet deleted, visible,
and preceded in rowid order by a visible row of the same hash (so it is
not the first fetched record of its group). -/
def delCriteria (hv : List HashRow) (j : Nat) (r : HashRow) : Prop :=
  hv.get? j = some r ∧ r.dup = some 1 ∧ r.deleted = 0 ∧
    visiblePath r.path = true ∧
    ∃ j' r', j' < j ∧ hv.get? j' = some r' ∧ r'.hash = r.hash ∧
      visiblePath r'.path = true

/-- A two-record group whose first-fetched (lowest _rowid_) record is
flagged duplicate like the rest: the deleter still never touches it. -/
def dbDelFirst : DB :=
  ⟨[HashRow.mk 0 "a" "h" (some 1) 0, HashRow.mk 1 "b" "h" (some 1) 0],
    [], []⟩

/- ---------------------------------------------------------------- -/
/- delete_empty_folders_generator: the EmptyFolderPruner job         -/
/- (source lines 936-1020)                                           -/
/- ---------------------------------------------------------------- -/

/-- The number of done events in a stream. -/
def doneCt (evs : List Ev) : Nat :=
  evs.countP (fun e => match e with | Ev.done => true | _ => false)

/-- The number of error events in a stream. -/
def errCt (evs : List Ev) : Nat :=
  evs.countP (fun e => match e with | Ev.error _ => true | _ => false)

/-- Path rendering for event texts: components joined by the separator. -/
def pathStr (p : List String) : String := String.intercalate "/" p

/-- State threaded through the pruner walk: the set of directories removed
so far, the events yielded, deleted_count, processed, the tuple counter
used for cancellation checks, and whether the generator has returned. -/
structure PrSt where
  deleted : List (List String)
  evs : List Ev
  cnt : Nat
  processed : Nat
  i : Nat
  stopped : Bool
deriving Repr

/-- Whether every listed subdirectory of a directory has been removed. -/
def prSubsDel (deleted : List (List String)) (cpath : List String) :
    SubList → Bool
  | SubList.nil => true
  | SubList.cons n _ rest =>
    decide ((cpath ++ [n]) ∈ deleted) && prSubsDel deleted cpath rest

/-- The live emptiness test of line 997 (any(folder_path.iterdir())): a
directory is empty now exactly when it has no files and each of its
originally listed subdirectories has already been removed (the walk is
bottom-up, so they were all visited first). -/
def prEmptyNow (deleted : List (List String)) (cpath : List String) :
    DirTree → Bool
  | DirTree.node subs files => files.isEmpty && prSubsDel deleted cpath subs

/-- Lines 991-1016: the body of the inner for d in dirs loop for one
subdirectory: the emptiness check, the dry-run/rmdir/not-empty branches
(a failed rmdir yields an error event and removes nothing), and the
progress event. -/
def pruneDir (dryRun : Bool) (rmFail : List String → Bool) (total : Nat)
    (cpath : List String) (t : DirTree) (st : PrSt) : PrSt :=
  let st0 := { st with processed := st.processed + 1 }
  let st1 :=
    if prEmptyNow st.deleted cpath t then
      if dryRun then
        { st0 with
          evs := (st0.evs ++
            [Ev.log ("[DRY RUN] Would delete: " ++ pathStr cpath)]),
          cnt := st0.cnt + 1 }
      else if rmFail cpath then
        { st0 with evs := (st0.evs ++
            [Ev.error ("Failed to delete " ++ pathStr cpath)]) }
      else
        { st0 with
          deleted := cpath :: st0.deleted,
          cnt := st0.cnt + 1,
          evs := (st0.evs ++
            [Ev.log ("Deleted empty folder: " ++ pathStr cpath)]) }
    else
      { st0 with evs := (st0.evs ++ [Ev.log ("Not empty: " ++
          pathStr cpath)]) }
  { st1 with evs := (st1.evs ++
      [Ev.progress (((st.processed : ℚ) + 1) / (total : ℚ) * 100)]) }

/-- The inner loop over the dirs list of one walk tuple. -/
def pruneDirsList (dryRun : Bool) (rmFail : List String → Bool)
    (total : Nat) (p : List String) : SubList → PrSt → PrSt
  | SubList.nil, st => st
  | SubList.cons n t rest, st =>
    pruneDirsList dryRun rmFail total p rest
      (pruneDir dryRun rmFail total (p ++ [n]) t st)

/-- One iteration of the for root, dirs, files in os.walk loop (lines
985-1016): the cancellation check of line 987 (which yields the
cancellation status and then done before returning), then the inner dirs
loop. -/
def pruneTuple (cancelFrom : Option Nat) (dryRun : Bool)
    (rmFail : List String → Bool) (total : Nat) (p : List String)
    (subs : SubList) (st : PrSt) : PrSt :=
  if st.stopped then st
  else if cancelHit cancelFrom st.i then
    { st with
      evs := (st.evs ++ [Ev.status "Cancelled by user.", Ev.done]),
      stopped := true }
  else
    { pruneDirsList dryRun rmFail total p subs st with i := st.i + 1 }

mutual
/-- The tuple sequence of os.walk(start, topdown=False): every
subdirectory subtree's tuples come first, then the tuple of this root
(its path and its listed subdirectories). -/
def tuplesT (p : List String) : DirTree → List (List String × SubList)
  | DirTree.node subs _files => tuplesSubs p subs ++ [(p, subs)]
/-- The walk tuples of the subtrees of one directory, in listed order. -/
def tuplesSubs (p : List String) : SubList → List (List String × SubList)
  | SubList.nil => []
  | SubList.cons n t rest =>
    tuplesT (p ++ [n]) t ++ tuplesSubs p rest
end

/-- The phase-2 loop (lines 985-1016) over the walk tuples in order. -/
def pruneRun (cancelFrom : Option Nat) (dryRun : Bool)
    (rmFail : List String → Bool) (total : Nat) :
    List (List String × SubList) → PrSt → PrSt
  | [], st => st
  | (p, subs) :: rest, st =>
    pruneRun cancelFrom dryRun rmFail total rest
      (pruneTuple cancelFrom dryRun rmFail total p subs st)

mutual
/-- Phase 1 of the pruner (lines 961-966): the total number of listed
subdirectories over the whole walk. -/
def cntT : DirTree → Nat
  | DirTree.node subs _ => cntSubs subs
/-- Directory count of a subtree list. -/
def cntSubs : SubList → Nat
  | SubList.nil => 0
  | SubList.cons _ t rest => 1 + cntT t + cntSubs rest
end

/-- Model of delete_empty_folders_generator.  The existence check of line
952 is the dirExists flag; rmFail tells which rmdir calls raise. -/
def deleteEmptyFolders (dirExists : Bool) (startdir : String)
    (cancelFrom : Option Nat) (dryRun : Bool)
    (rmFail : List String → Bool) (t : DirTree) : List Ev :=
  if !dirExists then [Ev.error ("Directory does not exist: " ++ startdir)]
  else
    let evs0 := [Ev.status ("Scanning for empty folders under: " ++
      startdir)]
    let total := cntT t
    if total == 0 then
      evs0 ++ [Ev.status "No subdirectories found.", Ev.done]
    else
      let stF := pruneRun cancelFrom dryRun rmFail total
        (tuplesT [startdir] t)
        ⟨[], evs0 ++ [Ev.log ("Found " ++ toString total ++
            " directories to evaluate."),
          Ev.status "Evaluating directories..."], 0, 0, 0, false⟩
      if stF.stopped then stF.evs
      else stF.evs ++ [Ev.status ("Deletion complete. Removed " ++
        toString stF.cnt ++ " empty folders."), Ev.done]

/-- A root directory holding one empty subdirectory named a. -/
def tPrune : DirTree :=
  DirTree.node (subsOf [("a", DirTree.node SubList.nil [])]) []

/- ---------------------------------------------------------------- -/
/- group_files_generator: the GroupingCopier job (source lines       -/
/- 700-930) and its helpers (lines 109-212)                          -/
/- ---------------------------------------------------------------- -/

/-- Python str.lower on ASCII names. -/
def strLower (s : String) : String := String.mk (s.data.map Char.toLower)

/-- os.path.basename: the part after the last path separator. -/
def basename (p : String) : String :=
  String.mk (p.data.foldl (fun acc c => if c = '/' then [] else
    acc ++ [c]) [])

/-- The index of the last dot of a name (str.rfind of pathlib). -/
def lastDotIdx (cs : List Char) : Option Nat :=
  (List.range cs.length).foldl (fun acc i =>
    if cs.get? i = some '.' then some i else acc) none

/-- pathlib Path.suffix of a file name: from the last dot on, provided
that dot is neither the first nor the last character. -/
def pySuffix (name : String) : String :=
  match lastDotIdx name.data with
  | some i =>
    if 0 < i ∧ i < name.data.length - 1 then String.mk (name.data.drop i)
    else ""
  | none => ""

/-- pathlib Path.stem of a file name. -/
def pyStem (name : String) : String :=
  match lastDotIdx name.data with
  | some i =>
    if 0 < i ∧ i < name.data.length - 1 then String.mk (name.data.take i)
    else name
  | none => name

/-- str.lstrip of dots. -/
def lstripDot (s : String) : String :=
  String.mk (s.data.dropWhile (fun c => c = '.'))

/-- get_extension_variant (lines 123-139). -/
def getExtensionVariant (path : String) (mode : String) : String :=
  let name := basename path
  if mode == "filename" then
    if pyStem name == "" then "Miscellaneous" else pyStem name
  else
    let ext := strLower (pySuffix name)
    if ext == "" then "Miscellaneous"
    else if mode == "ext" then lstripDot ext
    else "dot " ++ lstripDot ext

/-- The safe_ext sanitisation of line 881: path separators and colons
become underscores. -/
def safeExt (e : String) : String :=
  String.mk (e.data.map (fun c =>
    if c = '/' then '_' else if c = ':' then '_' else c))

/-- The filesystem of the copier: present paths with their contents. -/
def fsLookup (fs : List (String × String)) (p : String) : Option String :=
  (fs.find? (fun pc => pc.1 == p)).map Prod.snd

/-- The paths present on the copier filesystem. -/
def fsPaths (fs : List (String × String)) : List String := fs.map Prod.fst

/-- Python truthiness of an optional string: None and the empty string
are falsy. -/
def pyFalsy (o : Option String) : Bool :=
  match o with
  | none => true
  | some s => s == ""

/-- compute_md5 (lines 93-104): the digest of the file contents, None
when the file cannot be read. -/
def computeMd5 (md5 : String → String) (fs : List (String × String))
    (p : String) : Option String :=
  (fsLookup fs p).map md5

/-- safe_copy with overwrite=False (lines 109-120): skipped when the
destination exists, failed when the source cannot be read, else the
contents appear at the destination. -/
def safeCopy (fs : List (String × String)) (src dst : String) :
    Bool × List (String × String) :=
  if (fsLookup fs dst).isSome then (false, fs)
  else
    match fsLookup fs src with
    | none => (false, fs)
    | some c => (true, fs ++ [(dst, c)])

/-- get_hash_for_path (lines 177-181): the hash of the first hashvalues
row with the given path. -/
def getHashForPath (hv : List HashRow) (p : String) : Option String :=
  (hv.find? (fun r => r.path == p)).map (fun r => r.hash)

/-- SELECT MAX(row) FROM hashvalues (line 193). -/
def maxRowHV (hv : List HashRow) : Option Nat :=
  hv.foldl (fun acc r =>
    match acc with
    | none => some r.row
    | some m => some (max m r.row)) none

/-- The UPDATE branch of insert_or_update_hashvalue: the first row with
the path gets the new hash. -/
def iouUpd (p h : String) : List HashRow → List HashRow
  | [] => []
  | r :: rest =>
    if r.path == p then { r with hash := h } :: rest
    else r :: iouUpd p h rest

/-- insert_or_update_hashvalue (lines 184-201). -/
def iouHashvalue (hv : List HashRow) (p h : String) : List HashRow :=
  if (hv.find? (fun r => r.path == p)).isSome then iouUpd p h hv
  else hv ++ [⟨(match maxRowHV hv with
    | none => 0
    | some m => m + 1), p, h, none, 0⟩]

/-- mark_hashvalues_duplicate (lines 204-208): duplicate=1 on all rows of
the hash whose duplicate is NULL or 0. -/
def markHVDup (hv : List HashRow) (h : String) : List HashRow :=
  hv.map (fun r =>
    if r.hash == h && (r.dup == none || r.dup == some 0) then
      { r with dup := some 1 }
    else r)

/-- SELECT COUNT(*) FROM hashvalues WHERE hash = ? (line 857). -/
def countHash (hv : List HashRow) (h : String) : Nat :=
  (hv.filter (fun r => r.hash == h)).length

/-- insert_filegroup_entry (lines 147-157): no-op when the originpath is
present, else a fresh uncopied row. -/
def insertFilegroupEntry (fg : List FGRow) (p fn ext : String)
    (h : Option String) : List FGRow :=
  if (fg.find? (fun r => r.originpath == p)).isSome then fg
  else fg ++ [⟨p, none, fn, ext, h, 0, none⟩]

/-- update_filegroup_copied (lines 160-163). -/
def updateFilegroupCopied (fg : List FGRow) (p d : String) : List FGRow :=
  fg.map (fun r =>
    if r.originpath == p then
      { r with copied := 1, destinationpath := some d }
    else r)

/-- set_filegroup_duplicate (lines 166-169). -/
def setFilegroupDuplicate (fg : List FGRow) (p : String) : List FGRow :=
  fg.map (fun r =>
    if r.originpath == p then { r with dup := some 1 } else r)

/-- State threaded through the copier: database, filesystem, events, and
the loop counters, plus a flag recording an early return. -/
structure FgSt where
  db : DB
  fs : List (String × String)
  evs : List Ev
  newProcessed : Nat
  copiedCnt : Nat
  skippedCnt : Nat
  stopped : Bool
deriving Repr

/-- The scan-phase insert loop of lines 763-786 (resume=False): per file
one cancellation check, the extension computation, the stored-hash reuse
and the conditional insert.  Returns the database, the number of
cancellation checks performed, and whether the run was cancelled. -/
def fgScan (cancelFrom : Option Nat) (mode : String) :
    List String → Nat → DB → DB × Nat × Bool
  | [], i, db => (db, i, false)
  | p :: rest, i, db =>
    if cancelHit cancelFrom i then
      (db.setS "fg_operation_state" "cancelled", i, true)
    else
      fgScan cancelFrom mode rest (i + 1)
        { db with
          filegroups := (insertFilegroupEntry db.filegroups p
            (basename p) (getExtensionVariant p mode)
            (if pyFalsy (getHashForPath db.hashvalues p) then none
              else getHashForPath db.hashvalues p)) }

/-- The lazy hash resolution of lines 847-853: reuse the entry hash,
else the stored hash for the path, else compute the digest and upsert
it into hashvalues. -/
def fgResolve (md5 : String → String) (fs : List (String × String))
    (hv : List HashRow) (origin : String) (h0 : Option String) :
    Option String × List HashRow :=
  if pyFalsy h0 then
    let g := getHashForPath hv origin
    if pyFalsy g then
      match computeMd5 md5 fs origin with
      | some h =>
        if (h == "") = true then (some h, hv)
        else (some h, iouHashvalue hv origin h)
      | none => (none, hv)
    else (g, hv)
  else (h0, hv)

/-- The skip-duplicate branch of lines 865-880 with its metadata
writes. -/
def fgSkip (origin : String) (fh : Option String) (procTotal : Nat)
    (db1 : DB) (st0 : FgSt) : FgSt :=
  { st0 with
    db := (({ db1 with
        filegroups := setFilegroupDuplicate db1.filegroups origin,
        hashvalues := markHVDup db1.hashvalues (fh.getD "") }.setS
      "fg_last_path" origin).setN "fg_processed_count" procTotal),
    evs := (st0.evs ++ [Ev.skippedDup origin]),
    skippedCnt := st0.skippedCnt + 1 }

/-- The copy attempt of lines 885-911 with the destination-exists
adoption fallback, followed by the per-iteration metadata writes. -/
def fgCopy (dryRun : Bool) (origin destpath : String) (fh : Option String)
    (procTotal : Nat) (db1 : DB) (st0 : FgSt) : FgSt :=
  let cpres := if dryRun then (false, st0.fs)
    else safeCopy st0.fs origin destpath
  if cpres.1 then
    { st0 with
      db := (({ db1 with
          filegroups := updateFilegroupCopied db1.filegroups origin
            destpath,
          hashvalues := (if pyFalsy fh then db1.hashvalues
            else iouHashvalue db1.hashvalues origin
              (fh.getD "")) }.setS "fg_last_path" origin).setN
        "fg_processed_count" procTotal),
      fs := cpres.2,
      evs := (st0.evs ++ [Ev.copied origin]),
      copiedCnt := st0.copiedCnt + 1 }
  else if (fsLookup cpres.2 destpath).isSome then
    { st0 with
      db := (({ db1 with
          filegroups := updateFilegroupCopied db1.filegroups origin
            destpath }.setS "fg_last_path" origin).setN
        "fg_processed_count" procTotal),
      fs := cpres.2,
      evs := (st0.evs ++ [Ev.copied origin]),
      copiedCnt := st0.copiedCnt + 1 }
  else
    { st0 with
      db := ((db1.setS "fg_last_path" origin).setN
        "fg_processed_count" procTotal),
      fs := cpres.2,
      evs := (st0.evs ++ [Ev.log ("Failed to copy: " ++ origin ++
        " -> " ++ destpath)]) }

/-- One iteration of the workset loop (lines 826-912, everything after
the cancellation check): progress event, lazy hash resolution, the
COUNT(*)-based duplicate decision, then the skip branch or the copy with
its destination-exists adoption fallback. -/
def fgStep (md5 : String → String) (copyDups dryRun : Bool)
    (destDir : String) (processed total : Nat) (r : FGRow) (st : FgSt) :
    FgSt :=
  let pct : ℚ :=
    if 0 < total then
      min 100 (((processed : ℚ) + (st.newProcessed : ℚ) + 1) /
        (total : ℚ) * 100)
    else 100
  let st0 := { st with
    newProcessed := st.newProcessed + 1,
    evs := st.evs ++ [Ev.progress pct] }
  let procTotal := processed + st.newProcessed + 1
  let resolved := fgResolve md5 st0.fs st0.db.hashvalues r.originpath
    r.hash
  let db1 := { st0.db with hashvalues := resolved.2 }
  let isDup := !(pyFalsy resolved.1) &&
    decide (0 < countHash db1.hashvalues (resolved.1.getD ""))
  if isDup && !copyDups then
    fgSkip r.originpath resolved.1 procTotal db1 st0
  else
    fgCopy dryRun r.originpath (destDir ++ "/" ++ safeExt r.extension ++
      "/" ++ r.filename) resolved.1 procTotal db1 st0

/-- The workset loop of lines 826-912 with its per-row cancellation check
of lines 827-835 (which returns early). -/
def fgLoop (cancelFrom : Option Nat) (md5 : String → String)
    (copyDups dryRun : Bool) (destDir : String)
    (processed total : Nat) : List FGRow → Nat → FgSt → FgSt
  | [], _i, st => st
  | r :: rest, i, st =>
    if cancelHit cancelFrom i then
      { st with
        db := (((st.db.setS "fg_operation_state" "cancelled").setS
          "fg_last_path" r.originpath).setN "fg_processed_count"
          (processed + st.newProcessed)),
        evs := (st.evs ++ [Ev.log "FileGrouper cancelled by user",
          Ev.status "cancelled"]),
        stopped := true }
    else
      fgLoop cancelFrom md5 copyDups dryRun destDir processed total rest
        (i + 1) (fgStep md5 copyDups dryRun destDir processed total r st)

/-- The finalization block of lines 915-930: skipped entirely when the
loop returned early, else the idle metadata writes and the closing
events. -/
def fgFinish (processed total : Nat) (stF : FgSt) : FgSt :=
  if stF.stopped then stF
  else
    { stF with
      db := (((((stF.db.setS "fg_operation_state" "idle").setS
        "fg_last_operation" "filegroup_copy").setS "fg_last_path"
        "").setN "fg_processed_count"
        (processed + stF.newProcessed)).setN "fg_total_files"
        total),
      evs := (stF.evs ++ [Ev.status "done",
        Ev.log ("FileGrouper complete. Copied: " ++
          toString stF.copiedCnt ++ ", Skipped: " ++
          toString stF.skippedCnt), Ev.done]) }

/-- The workset phase of group_files_generator (lines 796-930): the
copied=0 count check, the workset fetch in id order, the resume-aware
processed counter, the loop, and the finalization metadata. -/
def fgMain (cancelFrom : Option Nat) (md5 : String → String)
    (copyDups dryRun : Bool) (destDir : String) (resume : Bool)
    (db2 : DB) (evs0' : List Ev) (checkBase : Nat)
    (fs : List (String × String)) : FgSt :=
  let rows := db2.filegroups.filter (fun r => r.copied == 0)
  if rows.length == 0 then
    ⟨db2, fs, evs0' ++ [Ev.log "No files to process (copied=0)",
      Ev.status "done", Ev.done], 0, 0, 0, true⟩
  else
    let total := rows.length
    let processed :=
      if resume then min (db2.getN "fg_processed_count" 0) total
      else 0
    let db3 := (db2.setS "fg_operation_state" "running").setS
      "fg_last_operation" "filegroup_copy"
    let evs1 := evs0' ++ [Ev.log ("Processing " ++ toString total ++
      " filegroup entries (resume=" ++
      (if resume then "True" else "False") ++ ")")]
    fgFinish processed total (fgLoop cancelFrom md5 copyDups dryRun
      destDir processed total rows checkBase ⟨db3, fs, evs1, 0, 0, 0,
        false⟩)

/-- Model of group_files_generator.  originIsDir and destOk are the
validation checks of lines 723-734; fileList is the sorted os.walk file
enumeration of lines 752-757; md5 is the digest function; the check
counter of the cancellation token runs through the scan checks and then
the workset checks. -/
def groupFiles (originIsDir destOk : Bool)
    (originDir destDir : String) (groupingMode : String)
    (copyDups resume dryRun : Bool) (cancelFrom : Option Nat)
    (md5 : String → String) (fileList : List String) (db : DB)
    (fs : List (String × String)) : FgSt :=
  if !originIsDir then
    ⟨db, fs, [Ev.error ("Origin folder does not exist: " ++ originDir),
      Ev.status "error"], 0, 0, 0, true⟩
  else if !destOk then
    ⟨db, fs, [Ev.error "Cannot create destination", Ev.status "error"],
      0, 0, 0, true⟩
  else
    let evs0 := [Ev.status "Preparing filegroup operation",
      Ev.log ("Origin: " ++ originDir ++ " -> Destination: " ++ destDir)]
    if resume then
      fgMain cancelFrom md5 copyDups dryRun destDir true db evs0 0 fs
    else
      let mode := if groupingMode == "Group by filename" then "filename"
        else if groupingMode == "Group by Extension" then "ext"
        else "ext_with_dot"
      let scanned := fgScan cancelFrom mode fileList 0 db
      let evs0' := evs0 ++ [Ev.log ("Files found: " ++
        toString fileList.length)]
      if scanned.2.2 then
        ⟨scanned.1, fs, evs0' ++
          [Ev.log "FileGrouper cancelled during build",
            Ev.status "cancelled"], 0, 0, 0, true⟩
      else
        fgMain cancelFrom md5 copyDups dryRun destDir false
          ((((scanned.1.setN "fg_total_files" fileList.length).setN
            "fg_processed_count" 0).setS "fg_last_path" "").setS
            "fg_operation_state" "ready") evs0' scanned.2.1 fs

/-- Two pending entries whose files share the name x.txt: both map to the
same destination path. -/
def dbFgSeed : DB :=
  ⟨[], [⟨"o/a/x.txt", none, "x.txt", "dot txt", some "A", 0, none⟩,
    ⟨"o/b/x.txt", none, "x.txt", "dot txt", some "B", 0, none⟩], []⟩

/-- The filesystem for dbFgSeed: contents written as their own digests
(the digest function of the run is the identity). -/
def fsFgSeed : List (String × String) :=
  [("o/a/x.txt", "A"), ("o/b/x.txt", "B")]

/-- The invariant of the copier run: every filegroups row flagged copied
either was already copied in the initial table or names a destination
path present on the filesystem. -/
def fgInv (init : List FGRow) (st : FgSt) : Prop :=
  ∀ j r, st.db.filegroups.get? j = some r → r.copied = 1 →
    (∃ r0, init.get? j = some r0 ∧ r0.copied = 1) ∨
    (∃ d, r.destinationpath = some d ∧ d ∈ fsPaths st.fs)

/- ---------------------------------------------------------------- -/
/- App.run_filegroup: the GUI gate of lines 1652-1666                -/
/- ---------------------------------------------------------------- -/

/-- The destination gate of run_filegroup: origin_dir and dest_dir are
plain strings, so dest_dir.is_relative_to raises AttributeError unless
the equality check already short-circuited to a refusal; the fallback of
line 1661 refuses when the destination string starts with the origin
string followed by the path separator. -/
def runFilegroupGate (originDir destDir : String) : Bool :=
  (destDir == originDir) || pyStartsWith destDir (originDir ++ "/")

/-- run_filegroup: when the gate refuses, the error dialog is shown and
the method returns before the worker thread is created, so the generator
never runs and nothing is scanned, copied or written. -/
def runFilegroup (originIsDir destOk : Bool)
    (originDir destDir groupingMode : String)
    (copyDups resume dryRun : Bool) (cancelFrom : Option Nat)
    (md5 : String → String) (fileList : List String) (db : DB)
    (fs : List (String × String)) : Option FgSt :=
  if runFilegroupGate originDir destDir then none
  else some (groupFiles originIsDir destOk originDir destDir groupingMode
    copyDups resume dryRun cancelFrom md5 fileList db fs)

/- ---------------------------------------------------------------- -/
/- Basic lemmas about the store                                      -/
/- ---------------------------------------------------------------- -/

theorem hashvalues_setN (db : DB) (k : String) (n : Nat) :
    (db.setN k n).hashvalues = db.hashvalues := rfl

theorem hashvalues_setS (db : DB) (k : String) (s : String) :
    (db.setS k s).hashvalues = db.hashvalues := rfl

theorem filegroups_setN (db : DB) (k : String) (n : Nat) :
    (db.setN k n).filegroups = db.filegroups := rfl

theorem filegroups_setS (db : DB) (k : String) (s : String) :
    (db.setS k s).filegroups = db.filegroups := rfl

theorem getN_setN_same (db : DB) (k : String) (n d : Nat) :
    (db.setN k n).getN k d = n := by
  simp [DB.getN, DB.setN, metaGetN, metaGet, metaSet, List.find?]

theorem getN_setN_ne (db : DB) (k k' : String) (n d : Nat) (h : k' ≠ k) :
    (db.setN k' n).getN k d = db.getN k d := by
  simp [DB.getN, DB.setN, metaGetN, metaGet, metaSet, List.find?,
    (by simpa using h : (k' == k) = false)]

theorem getN_setS_ne (db : DB) (k k' : String) (s : String) (d : Nat)
    (h : k' ≠ k) : (db.setS k' s).getN k d = db.getN k d := by
  simp [DB.getN, DB.setS, metaGetN, metaGet, metaSet, List.find?,
    (by simpa using h : (k' == k) = false)]

theorem getS_setS_same (db : DB) (k : String) (s d : String) :
    (db.setS k s).getS k d = s := by
  simp [DB.getS, DB.setS, metaGetS, metaGet, metaSet, List.find?]

theorem getS_setS_ne (db : DB) (k k' : String) (s d : String) (h : k' ≠ k) :
    (db.setS k' s).getS k d = db.getS k d := by
  simp [DB.getS, DB.setS, metaGetS, metaGet, metaSet, List.find?,
    (by simpa using h : (k' == k) = false)]

theorem getS_setN_ne (db : DB) (k k' : String) (n : Nat) (d : String)
    (h : k' ≠ k) : (db.setN k' n).getS k d = db.getS k d := by
  simp [DB.getS, DB.setN, metaGetS, metaGet, metaSet, List.find?,
    (by simpa using h : (k' == k) = false)]

/- ---------------------------------------------------------------- -/
/- Lemmas about recRun                                               -/
/- ---------------------------------------------------------------- -/

theorem recRun_append (md5 : String → String) (l₁ l₂ : List (String × String))
    (s : RecSt) : recRun md5 (l₁ ++ l₂) s = recRun md5 l₂ (recRun md5 l₁ s) := by
  simp [recRun, List.foldl_append]

theorem recRun_ex_mono (md5 : String → String) (l : List (String × String))
    (s : RecSt) (p : String) (h : p ∈ s.ex) : p ∈ (recRun md5 l s).ex := by
  induction l generalizing s with
  | nil => simpa [recRun] using h
  | cons pc rest ih =>
    simp only [recRun, List.foldl_cons] at *
    apply ih
    unfold recStep
    by_cases hm : pc.1 ∈ s.ex
    · simpa [hm] using h
    · simp [hm]
      right
      exact h

theorem recRun_processed_in_ex (md5 : String → String)
    (l : List (String × String)) (s : RecSt) (pc : String × String)
    (h : pc ∈ l) : pc.1 ∈ (recRun md5 l s).ex := by
  induction l generalizing s with
  | nil => cases h
  | cons pc' rest ih =>
    simp only [recRun, List.foldl_cons]
    rcases List.mem_cons.mp h with h1 | h2
    · subst h1
      apply recRun_ex_mono
      unfold recStep
      by_cases hm : pc.1 ∈ s.ex
      · simp [hm]
      · simp [hm]
    · exact ih _ h2

theorem recRun_skip_all (md5 : String → String) (l : List (String × String))
    (s : RecSt) (h : ∀ pc ∈ l, pc.1 ∈ s.ex) : recRun md5 l s = s := by
  induction l with
  | nil => rfl
  | cons pc rest ih =>
    simp only [recRun, List.foldl_cons]
    have h1 : pc.1 ∈ s.ex := h pc (List.mem_cons_self pc rest)
    have hs : recStep md5 s pc = s := by unfold recStep; simp [h1]
    rw [hs]
    exact ih (fun pc' hpc' => h pc' (List.mem_cons_of_mem _ hpc'))

theorem recRun_ex_iff (md5 : String → String) (l : List (String × String))
    (s : RecSt) (h : ∀ p, p ∈ pathsOf s.hv ↔ p ∈ s.ex) :
    ∀ p, p ∈ pathsOf (recRun md5 l s).hv ↔ p ∈ (recRun md5 l s).ex := by
  induction l generalizing s with
  | nil => simpa [recRun] using h
  | cons pc rest ih =>
    simp only [recRun, List.foldl_cons]
    apply ih
    intro p
    unfold recStep
    by_cases hm : pc.1 ∈ s.ex
    · simpa [hm] using h p
    · simp only [hm, if_false]
      have : pathsOf (s.hv ++ [HashRow.mk s.rc pc.1 (md5 pc.2) none 0]) =
          pathsOf s.hv ++ [pc.1] := by simp [pathsOf]
      simp only [this, List.mem_append, List.mem_cons, List.mem_singleton]
      rw [h p]
      tauto

theorem recRun_congr_ex (md5 : String → String) (l : List (String × String))
    (ex₁ ex₂ : List String) (rc : Nat) (hv : List HashRow)
    (h : ∀ p, p ∈ ex₁ ↔ p ∈ ex₂) :
    (recRun md5 l ⟨ex₁, rc, hv⟩).hv = (recRun md5 l ⟨ex₂, rc, hv⟩).hv ∧
    (recRun md5 l ⟨ex₁, rc, hv⟩).rc = (recRun md5 l ⟨ex₂, rc, hv⟩).rc := by
  induction l generalizing ex₁ ex₂ rc hv with
  | nil => exact ⟨rfl, rfl⟩
  | cons pc rest ih =>
    simp only [recRun, List.foldl_cons]
    by_cases hm : pc.1 ∈ ex₁
    · have hm2 : pc.1 ∈ ex₂ := (h pc.1).mp hm
      have e1 : recStep md5 ⟨ex₁, rc, hv⟩ pc = ⟨ex₁, rc, hv⟩ := by
        unfold recStep; simp [hm]
      have e2 : recStep md5 ⟨ex₂, rc, hv⟩ pc = ⟨ex₂, rc, hv⟩ := by
        unfold recStep; simp [hm2]
      rw [e1, e2]
      exact ih ex₁ ex₂ rc hv h
    · have hm2 : pc.1 ∉ ex₂ := fun hc => hm ((h pc.1).mpr hc)
      have e1 : recStep md5 ⟨ex₁, rc, hv⟩ pc =
          ⟨pc.1 :: ex₁, rc + 1, hv ++ [⟨rc, pc.1, md5 pc.2, none, 0⟩]⟩ := by
        unfold recStep; simp [hm]
      have e2 : recStep md5 ⟨ex₂, rc, hv⟩ pc =
          ⟨pc.1 :: ex₂, rc + 1, hv ++ [⟨rc, pc.1, md5 pc.2, none, 0⟩]⟩ := by
        unfold recStep; simp [hm2]
      rw [e1, e2]
      apply ih
      intro p
      simp only [List.mem_cons]
      exact or_congr Iff.rfl (h p)

theorem recRun_hv_structure (md5 : String → String)
    (l : List (String × String)) (s : RecSt) :
    ∀ r ∈ (recRun md5 l s).hv,
      r ∈ s.hv ∨ ∃ pc ∈ l, r.path = pc.1 ∧ r.hash = md5 pc.2 := by
  induction l generalizing s with
  | nil => intro r hr; left; simpa [recRun] using hr
  | cons pc rest ih =>
    intro r hr
    simp only [recRun, List.foldl_cons] at hr
    rcases ih (recStep md5 s pc) r hr with hin | ⟨pc', hpc', h1, h2⟩
    · unfold recStep at hin
      by_cases hm : pc.1 ∈ s.ex
      · left; simpa [hm] using hin
      · simp [hm] at hin
        rcases hin with hin | hin
        · left; exact hin
        · right
          exact ⟨pc, List.mem_cons_self pc rest, by simp [hin], by simp [hin]⟩
    · right
      exact ⟨pc', List.mem_cons_of_mem _ hpc', h1, h2⟩

/- ---------------------------------------------------------------- -/
/- genLoop corresponds to recRun                                     -/
/- ---------------------------------------------------------------- -/

theorem genLoop_none_spec (md5 : String → String) (total : Nat) :
    ∀ (l : List (String × String)) (i pr rc : Nat) (ex : List String)
      (db : DB), db.getN "row_counter" 0 = rc →
      (genLoop md5 none total l i pr rc ex db).hashvalues =
          (recRun md5 l ⟨ex, rc, db.hashvalues⟩).hv ∧
        (genLoop md5 none total l i pr rc ex db).getN "row_counter" 0 =
          (recRun md5 l ⟨ex, rc, db.hashvalues⟩).rc := by
  intro l
  induction l with
  | nil =>
    intro i pr rc ex db hrc
    constructor
    · simp [genLoop, recRun, hashvalues_setN, hashvalues_setS]
    · simp only [genLoop, recRun, List.foldl_nil]
      rw [getN_setN_ne _ _ _ _ _ (by decide), getN_setN_ne _ _ _ _ _
        (by decide), getN_setS_ne _ _ _ _ _ (by decide),
        getN_setS_ne _ _ _ _ _ (by decide), getN_setS_ne _ _ _ _ _ (by decide)]
      exact hrc
  | cons pc rest ih =>
    intro i pr rc ex db hrc
    obtain ⟨p, c⟩ := pc
    simp only [genLoop, recRun, List.foldl_cons]
    have hch : cancelHit none i = false := rfl
    rw [hch]
    simp only [Bool.false_eq_true, if_false]
    by_cases hm : p ∈ ex
    · have hstep : recStep md5 ⟨ex, rc, db.hashvalues⟩ (p, c) =
          ⟨ex, rc, db.hashvalues⟩ := by unfold recStep; simp [hm]
      rw [if_pos hm, hstep]
      have := ih (i + 1) (pr + 1) rc ex
        ((db.setS "last_file" p).setN "processed_count" (pr + 1))
        (by rw [getN_setN_ne _ _ _ _ _ (by decide),
          getN_setS_ne _ _ _ _ _ (by decide)]; exact hrc)
      simpa [recRun, hashvalues_setN, hashvalues_setS] using this
    · have hstep : recStep md5 ⟨ex, rc, db.hashvalues⟩ (p, c) =
          ⟨p :: ex, rc + 1,
            db.hashvalues ++ [⟨rc, p, md5 c, none, 0⟩]⟩ := by
        unfold recStep; simp [hm]
      rw [if_neg hm, hstep]
      have := ih (i + 1) (pr + 1) (rc + 1) (p :: ex)
        ((({ db with hashvalues :=
              db.hashvalues ++ [HashRow.mk rc p (md5 c) none 0] }.setN "row_counter"
              (rc + 1)).setS "last_file" p).setN "processed_count" (pr + 1))
        (by rw [getN_setN_ne _ _ _ _ _ (by decide),
          getN_setS_ne _ _ _ _ _ (by decide), getN_setN_same])
      simpa [recRun, hashvalues_setN, hashvalues_setS] using this

theorem genLoop_cancel_ge (md5 : String → String) (total : Nat) :
    ∀ (l : List (String × String)) (i pr rc : Nat) (ex : List String)
      (db : DB) (c : Nat), i + l.length ≤ c →
      genLoop md5 (some c) total l i pr rc ex db =
        genLoop md5 none total l i pr rc ex db := by
  intro l
  induction l with
  | nil => intro i pr rc ex db c _; rfl
  | cons pc rest ih =>
    intro i pr rc ex db c hc
    obtain ⟨p, co⟩ := pc
    simp only [List.length_cons] at hc
    have hi : i < c := by omega
    have hch : cancelHit (some c) i = false := by
      simp [cancelHit]; omega
    simp only [genLoop, hch, Bool.false_eq_true, if_false]
    have hrec : i + 1 + rest.length ≤ c := by omega
    by_cases hm : p ∈ ex
    · rw [if_pos hm, if_pos hm, ih _ _ _ _ _ _ hrec]
      rfl
    · rw [if_neg hm, if_neg hm, ih _ _ _ _ _ _ hrec]
      rfl

theorem genLoop_cancel_spec (md5 : String → String) (total : Nat) :
    ∀ (l : List (String × String)) (i pr rc : Nat) (ex : List String)
      (db : DB) (c : Nat), i ≤ c → c - i < l.length →
      db.getN "row_counter" 0 = rc →
      (genLoop md5 (some c) total l i pr rc ex db).getS "operation_state"
          "" = "cancelled" ∧
        (genLoop md5 (some c) total l i pr rc ex db).hashvalues =
          (recRun md5 (l.take (c - i)) ⟨ex, rc, db.hashvalues⟩).hv ∧
        (genLoop md5 (some c) total l i pr rc ex db).getN "row_counter" 0 =
          (recRun md5 (l.take (c - i)) ⟨ex, rc, db.hashvalues⟩).rc := by
  intro l
  induction l with
  | nil => intro i pr rc ex db c _ hlt; simp at hlt
  | cons pc rest ih =>
    intro i pr rc ex db c hle hlt hrc
    obtain ⟨p, co⟩ := pc
    by_cases hci : c ≤ i
    · have hc : c = i := le_antisymm hci hle
      subst hc
      have hch : cancelHit (some c) c = true := by simp [cancelHit]
      simp only [genLoop, hch, if_true, Nat.sub_self, List.take_zero]
      refine ⟨?_, ?_, ?_⟩
      · rw [getS_setN_ne _ _ _ _ _ (by decide),
          getS_setS_ne _ _ _ _ _ (by decide),
          getS_setS_ne _ _ _ _ _ (by decide), getS_setS_same]
      · simp [recRun, hashvalues_setN, hashvalues_setS]
      · simp only [recRun, List.foldl_nil]
        rw [getN_setN_ne _ _ _ _ _ (by decide),
          getN_setS_ne _ _ _ _ _ (by decide),
          getN_setS_ne _ _ _ _ _ (by decide),
          getN_setS_ne _ _ _ _ _ (by decide)]
        exact hrc
    · have hi : i < c := by omega
      have hch : cancelHit (some c) i = false := by simp [cancelHit]; omega
      simp only [genLoop, hch, Bool.false_eq_true, if_false]
      have htake : (c - i) = (c - (i + 1)) + 1 := by omega
      have hlt' : c - (i + 1) < rest.length := by
        simp only [List.length_cons] at hlt; omega
      by_cases hm : p ∈ ex
      · rw [if_pos hm]
        have hstep : recStep md5 ⟨ex, rc, db.hashvalues⟩ (p, co) =
            ⟨ex, rc, db.hashvalues⟩ := by unfold recStep; simp [hm]
        have := ih (i + 1) (pr + 1) rc ex
          ((db.setS "last_file" p).setN "processed_count" (pr + 1)) c
          (by omega) hlt'
          (by rw [getN_setN_ne _ _ _ _ _ (by decide),
            getN_setS_ne _ _ _ _ _ (by decide)]; exact hrc)
        rw [htake]
        simp only [List.take_succ_cons, recRun, List.foldl_cons, hstep]
        simpa [recRun, hashvalues_setN, hashvalues_setS] using this
      · rw [if_neg hm]
        have hstep : recStep md5 ⟨ex, rc, db.hashvalues⟩ (p, co) =
            ⟨p :: ex, rc + 1,
              db.hashvalues ++ [⟨rc, p, md5 co, none, 0⟩]⟩ := by
          unfold recStep; simp [hm]
        have := ih (i + 1) (pr + 1) (rc + 1) (p :: ex)
          ((({ db with hashvalues :=
                db.hashvalues ++ [HashRow.mk rc p (md5 co) none 0] }.setN
                "row_counter" (rc + 1)).setS "last_file" p).setN
                "processed_count" (pr + 1)) c (by omega) hlt'
          (by rw [getN_setN_ne _ _ _ _ _ (by decide),
            getN_setS_ne _ _ _ _ _ (by decide), getN_setN_same])
        rw [htake]
        simp only [List.take_succ_cons, recRun, List.foldl_cons, hstep]
        simpa [recRun, hashvalues_setN, hashvalues_setS] using this

/- ---------------------------------------------------------------- -/
/- generateSql at the record level                                   -/
/- ---------------------------------------------------------------- -/

theorem genPrologue_hv (db : DB) (n : Nat) (resume : Bool) :
    (if resume then genPrologueT db n else genPrologueF db n).hashvalues =
      db.hashvalues := by
  cases resume <;>
    simp [genPrologueT, genPrologueF, hashvalues_setN, hashvalues_setS]

theorem genPrologue_rc (db : DB) (n : Nat) (resume : Bool) :
    (if resume then genPrologueT db n else genPrologueF db n).getN
        "row_counter" 0 = db.getN "row_counter" 0 := by
  cases resume
  · show (genPrologueF db n).getN "row_counter" 0 = _
    unfold genPrologueF
    rw [getN_setN_ne _ _ _ _ _ (by decide), getN_setN_ne _ _ _ _ _ (by decide),
      getN_setS_ne _ _ _ _ _ (by decide), getN_setS_ne _ _ _ _ _ (by decide),
      getN_setS_ne _ _ _ _ _ (by decide)]
  · show (genPrologueT db n).getN "row_counter" 0 = _
    unfold genPrologueT
    rw [getN_setS_ne _ _ _ _ _ (by decide), getN_setS_ne _ _ _ _ _ (by decide),
      getN_setN_ne _ _ _ _ _ (by decide)]

theorem generateSql_eq (md5 : String → String) (cf : Option Nat)
    (l : List (String × String)) (resume : Bool) (db : DB)
    (hl : l.isEmpty = false) :
    generateSql md5 cf l resume db =
      genLoop md5 cf l.length l 0
        (if resume then min (db.getN "processed_count" 0) l.length else 0)
        ((if resume then genPrologueT db l.length
          else genPrologueF db l.length).getN "row_counter" 0)
        (pathsOf db.hashvalues)
        (if resume then genPrologueT db l.length
         else genPrologueF db l.length) := by
  unfold generateSql
  rw [hl]
  simp only [Bool.false_eq_true, if_false]

theorem generateSql_none_spec (md5 : String → String)
    (l : List (String × String)) (resume : Bool) (db : DB)
    (hl : l.isEmpty = false) :
    (generateSql md5 none l resume db).hashvalues =
        (recRun md5 l (recStart db)).hv ∧
      (generateSql md5 none l resume db).getN "row_counter" 0 =
        (recRun md5 l (recStart db)).rc := by
  rw [generateSql_eq md5 none l resume db hl, genPrologue_rc]
  have h := genLoop_none_spec md5 l.length l 0
    (if resume then min (db.getN "processed_count" 0) l.length else 0)
    (db.getN "row_counter" 0) (pathsOf db.hashvalues)
    (if resume then genPrologueT db l.length else genPrologueF db l.length)
    (by rw [genPrologue_rc])
  rw [genPrologue_hv] at h
  exact h

theorem generateSql_cancel_core (md5 : String → String)
    (l : List (String × String)) (resume : Bool) (db : DB) (k : Nat)
    (hk : k < l.length) :
    (generateSql md5 (some k) l resume db).getS "operation_state" "" =
        "cancelled" ∧
      (generateSql md5 (some k) l resume db).hashvalues =
        (recRun md5 (l.take k) (recStart db)).hv ∧
      (generateSql md5 (some k) l resume db).getN "row_counter" 0 =
        (recRun md5 (l.take k) (recStart db)).rc := by
  have hl : l.isEmpty = false := by
    cases l with
    | nil => simp at hk
    | cons a t => rfl
  rw [generateSql_eq md5 (some k) l resume db hl, genPrologue_rc]
  have h := genLoop_cancel_spec md5 l.length l 0
    (if resume then min (db.getN "processed_count" 0) l.length else 0)
    (db.getN "row_counter" 0) (pathsOf db.hashvalues)
    (if resume then genPrologueT db l.length else genPrologueF db l.length)
    k (Nat.zero_le k) (by simpa using hk) (by rw [genPrologue_rc])
  rw [genPrologue_hv] at h
  simpa using h

theorem generateSql_cancel_ge_full (md5 : String → String)
    (l : List (String × String)) (resume : Bool) (db : DB) (k : Nat)
    (hk : l.length ≤ k) :
    generateSql md5 (some k) l resume db = generateSql md5 none l resume db := by
  by_cases hl : l.isEmpty
  · unfold generateSql
    rw [hl]
    simp
  · rw [generateSql_eq md5 (some k) l resume db (by simpa using hl),
      generateSql_eq md5 none l resume db (by simpa using hl),
      genLoop_cancel_ge md5 l.length l 0 _ _ _ _ k (by simpa using hk)]

theorem generateSql_noop (md5 : String → String)
    (l : List (String × String)) (resume : Bool) (db : DB)
    (hall : ∀ pc ∈ l, pc.1 ∈ pathsOf db.hashvalues) :
    (generateSql md5 none l resume db).hashvalues = db.hashvalues := by
  by_cases hl : l.isEmpty
  · unfold generateSql
    rw [hl]
    simp
  · have h := (generateSql_none_spec md5 l resume db (by simpa using hl)).1
    rw [h, recRun_skip_all md5 l (recStart db) hall]
    rfl

theorem recStart_ex_iff (db : DB) :
    ∀ p, p ∈ pathsOf (recStart db).hv ↔ p ∈ (recStart db).ex := by
  intro p
  rfl

theorem generateSql_complete_covers (md5 : String → String)
    (l : List (String × String)) (db : DB) (hl : l.isEmpty = false) :
    ∀ pc ∈ l, pc.1 ∈ pathsOf (generateSql md5 none l false db).hashvalues := by
  intro pc hpc
  rw [(generateSql_none_spec md5 l false db hl).1]
  have hmem := recRun_processed_in_ex md5 l (recStart db) pc hpc
  exact (recRun_ex_iff md5 l (recStart db) (recStart_ex_iff db) pc.1).mpr hmem

/-- C4: for a fixed tree (a fixed deterministic walk output with per-file
contents), running the indexing job to completion and re-running it with
resume false leaves the set of identity records unchanged (the second run
inserts nothing), and a run cancelled at any point followed by a resumed run
produces exactly the records of a single uninterrupted run. -/
theorem hashIndexer_idempotent_and_resume_correct (md5 : String → String)
    (l : List (String × String)) (db : DB) (k : Nat) :
    (generateSql md5 none l false
        (generateSql md5 none l false db)).hashvalues =
      (generateSql md5 none l false db).hashvalues ∧
    (generateSql md5 none l true
        (generateSql md5 (some k) l false db)).hashvalues =
      (generateSql md5 none l false db).hashvalues := by
  by_cases hl : l.isEmpty
  · have hnil : l = [] := by simpa [List.isEmpty_iff] using hl
    subst hnil
    constructor <;> rfl
  · have hl' : l.isEmpty = false := by simpa using hl
    constructor
    · exact generateSql_noop md5 l false _
        (generateSql_complete_covers md5 l db hl')
    · by_cases hk : k < l.length
      · -- run one was cancelled after exactly k files
        obtain ⟨-, hhv1, hrc1⟩ := generateSql_cancel_core md5 l false db k hk
        have h2 := (generateSql_none_spec md5 l true
          (generateSql md5 (some k) l false db) hl').1
        rw [h2]
        set s1 : RecSt := recRun md5 (l.take k) (recStart db) with hs1
        have hstart : recStart (generateSql md5 (some k) l false db) =
            ⟨pathsOf s1.hv, s1.rc, s1.hv⟩ := by
          unfold recStart
          rw [hhv1, hrc1]
        rw [hstart]
        have hiff : ∀ p, p ∈ pathsOf s1.hv ↔ p ∈ s1.ex := by
          rw [hs1]
          exact recRun_ex_iff md5 (l.take k) (recStart db) (recStart_ex_iff db)
        have hsplit : recRun md5 l (⟨pathsOf s1.hv, s1.rc, s1.hv⟩ : RecSt) =
            recRun md5 (l.drop k)
              (recRun md5 (l.take k) ⟨pathsOf s1.hv, s1.rc, s1.hv⟩) := by
          conv_lhs => rw [← List.take_append_drop k l]
          rw [recRun_append]
        have hskip : recRun md5 (l.take k)
            (⟨pathsOf s1.hv, s1.rc, s1.hv⟩ : RecSt) =
            ⟨pathsOf s1.hv, s1.rc, s1.hv⟩ := by
          apply recRun_skip_all
          intro pc hpc
          apply (hiff pc.1).mpr
          rw [hs1]
          exact recRun_processed_in_ex md5 (l.take k) (recStart db) pc hpc
        rw [hsplit, hskip,
          (recRun_congr_ex md5 (l.drop k) (pathsOf s1.hv) s1.ex s1.rc
            s1.hv hiff).1]
        rw [(generateSql_none_spec md5 l false db hl').1]
        conv_rhs => rw [← List.take_append_drop k l]
        rw [recRun_append]
      · push_neg at hk
        rw [generateSql_cancel_ge_full md5 l false db k hk]
        exact generateSql_noop md5 l true _
          (generateSql_complete_covers md5 l db hl')

/-- C7: when the cancellation token is observed set during an indexing run,
the job writes its checkpoint with operation_state cancelled and stops
before starting the next file (the table is exactly the table obtained by
processing the files before the cancellation check), and every record the
run ever inserted carries the complete hash of the full contents of its
file. -/
theorem hashIndexer_cancel_event_behavior (md5 : String → String)
    (l : List (String × String)) (db : DB) (k : Nat) (hk : k < l.length) :
    (generateSql md5 (some k) l false db).getS "operation_state" "" =
        "cancelled" ∧
      (generateSql md5 (some k) l false db).hashvalues =
        (recRun md5 (l.take k) (recStart db)).hv ∧
      ∀ r ∈ (generateSql md5 (some k) l false db).hashvalues,
        r ∈ db.hashvalues ∨
          ∃ pc ∈ l.take k, r.path = pc.1 ∧ r.hash = md5 pc.2 := by
  obtain ⟨h1, h2, -⟩ := generateSql_cancel_core md5 l false db k hk
  refine ⟨h1, h2, ?_⟩
  intro r hr
  rw [h2] at hr
  exact recRun_hv_structure md5 (l.take k) (recStart db) r hr

/-- Witness for the C7 theorem: a two-file tree, cancellation observed at
the check before the second file. -/
theorem hashIndexer_cancel_event_behavior_witness :
    (1 < ([("a", "A"), ("b", "B")] : List (String × String)).length) ∧
      ((generateSql id (some 1) [("a", "A"), ("b", "B")] false
          ⟨[], [], []⟩).getS "operation_state" "" = "cancelled" ∧
        (generateSql id (some 1) [("a", "A"), ("b", "B")] false
            ⟨[], [], []⟩).hashvalues =
          (recRun id ([("a", "A"), ("b", "B")].take 1)
            (recStart ⟨[], [], []⟩)).hv ∧
        ∀ r ∈ (generateSql id (some 1) [("a", "A"), ("b", "B")] false
            ⟨[], [], []⟩).hashvalues,
          r ∈ ([] : List HashRow) ∨
            ∃ pc ∈ [("a", "A"), ("b", "B")].take 1,
              r.path = pc.1 ∧ r.hash = id pc.2) :=
  ⟨by decide, hashIndexer_cancel_event_behavior id [("a", "A"), ("b", "B")]
    ⟨[], [], []⟩ 1 (by decide)⟩

theorem walkSubs_mem_aux :
    ∀ (n : Nat) (pfx : List String) (subs : SubList)
      (pair : String × List (List String)), sizeSubs subs ≤ n →
      pair ∈ walkSubs pfx subs →
      ∃ nm tr, pair = (nm, walkT (pfx ++ [nm]) tr) ∧
        sizeT tr + 1 ≤ sizeSubs subs := by
  intro n
  induction n with
  | zero =>
    intro pfx subs pair hsz h
    cases subs with
    | nil => simp [walkSubs] at h
    | cons n t rest => simp [sizeSubs] at hsz
  | succ n ih =>
    intro pfx subs pair hsz h
    cases subs with
    | nil => simp [walkSubs] at h
    | cons nm t rest =>
      simp only [walkSubs, List.mem_cons] at h
      rcases h with h | h
      · exact ⟨nm, t, h, by simp [sizeSubs]; omega⟩
      · have hsz' : sizeSubs rest ≤ n := by simp [sizeSubs] at hsz; omega
        obtain ⟨nm', tr, h1, h2⟩ := ih pfx rest pair hsz' h
        exact ⟨nm', tr, h1, by simp [sizeSubs]; omega⟩

theorem walkSubs_mem (pfx : List String) (subs : SubList)
    (pair : String × List (List String)) (h : pair ∈ walkSubs pfx subs) :
    ∃ nm tr, pair = (nm, walkT (pfx ++ [nm]) tr) ∧
      sizeT tr + 1 ≤ sizeSubs subs :=
  walkSubs_mem_aux (sizeSubs subs) pfx subs pair (Nat.le_refl _) h

theorem walkT_components_aux :
    ∀ (n : Nat) (t : DirTree) (pfx q : List String), sizeT t ≤ n →
      q ∈ walkT pfx t →
      ∃ chain f, q = pfx ++ chain ++ [f] ∧ ∀ d ∈ chain, exclDir d = false := by
  intro n
  induction n with
  | zero =>
    intro t pfx q hsz
    cases t with
    | node subs files => simp [sizeT] at hsz
  | succ n ih =>
    intro t pfx q hsz hq
    cases t with
    | node subs files =>
      simp only [walkT] at hq
      rcases List.mem_append.mp hq with hf | hd
      · obtain ⟨f, _hf1, hf2⟩ := List.mem_map.mp hf
        exact ⟨[], f, by simpa using hf2.symm, by simp⟩
      · rcases List.mem_flatMap.mp hd with ⟨pair, hpair, hqin⟩
        have h1 := List.mem_filter.mp hpair
        have h2 := (List.perm_insertionSort keyLe _).mem_iff.mp h1.1
        obtain ⟨nm, tr, hpairdef, hszsub⟩ := walkSubs_mem pfx subs pair h2
        have hqin' : q ∈ walkT (pfx ++ [nm]) tr := by
          rw [hpairdef] at hqin
          exact hqin
        have hle : sizeT tr ≤ n := by
          simp [sizeT] at hsz
          omega
        obtain ⟨chain, f, hq1, hchain⟩ := ih tr (pfx ++ [nm]) q hle hqin'
        refine ⟨nm :: chain, f, ?_, ?_⟩
        · rw [hq1]
          simp
        · intro d hd'
          rcases List.mem_cons.mp hd' with hdn | hdc
          · subst hdn
            have h3 := h1.2
            rw [hpairdef] at h3
            simpa using h3
          · exact hchain d hdc

/-- C9 counterexample: the directory name .GIT case-insensitively equals the
reserved name .git, yet the file underneath it is enumerated by the walk,
because the filter of line 240 tests d.upper() against GIT (no dot) and
otherwise only the exact lower-case .git. -/
theorem walk_enumerates_under_dotGitUpper :
    [".GIT", "f.txt"] ∈ walkT [] treeDotGitUpper ∧
      strUpper ".GIT" = strUpper ".git" := by
  constructor
  · decide
  · rfl

/-- C9 amended: the traversal prunes exactly the directories whose name is
dropped by the filter of line 240 (upper-case form equal to GIT, or exactly
.git): every enumerated file path passes only through kept directory names.
Dot-git spelled in other letter cases (such as .GIT) does not satisfy the
filter and is traversed, per the counterexample. -/
theorem walk_excludes_filtered_dirs (t : DirTree) (q : List String)
    (hq : q ∈ walkT [] t) :
    ∃ chain f, q = chain ++ [f] ∧ ∀ d ∈ chain, exclDir d = false := by
  obtain ⟨chain, f, h1, h2⟩ :=
    walkT_components_aux (sizeT t) t [] q (Nat.le_refl _) hq
  exact ⟨chain, f, by simpa using h1, h2⟩

/-- Witness for the C9 amended theorem on a small tree with one kept
directory. -/
theorem walk_excludes_filtered_dirs_witness :
    ((["sub", "a.txt"] : List String) ∈ walkT []
        (DirTree.node (subsOf [("sub", DirTree.node (subsOf []) ["a.txt"])])
          [])) ∧
      (∃ chain f, (["sub", "a.txt"] : List String) = chain ++ [f] ∧
        ∀ d ∈ chain, exclDir d = false) :=
  ⟨by decide, walk_excludes_filtered_dirs
    (DirTree.node (subsOf [("sub", DirTree.node (subsOf []) ["a.txt"])]) [])
    ["sub", "a.txt"] (by decide)⟩

/- ---------------------------------------------------------------- -/
/- Lemmas about rowids and per-group marking                         -/
/- ---------------------------------------------------------------- -/

theorem idxFrom_mem :
    ∀ (hv : List HashRow) (n i : Nat) (r : HashRow),
      (i, r) ∈ idxFrom n hv ↔ ∃ j, i = n + j ∧ hv.get? j = some r := by
  intro hv
  induction hv with
  | nil => intro n i r; simp [idxFrom]
  | cons x t ih =>
    intro n i r
    simp only [idxFrom, List.mem_cons, ih]
    constructor
    · rintro (heq | ⟨j, h1, h2⟩)
      · obtain ⟨hi, hr⟩ := Prod.mk.injEq .. ▸ heq
        exact ⟨0, by omega, by simp [hr]⟩
      · exact ⟨j + 1, by omega, by simpa using h2⟩
    · rintro ⟨j, h1, h2⟩
      cases j with
      | zero =>
        left
        simp at h2
        simp [h2]
        omega
      | succ j' =>
        right
        exact ⟨j', by omega, by simpa using h2⟩

theorem idxList_mem (hv : List HashRow) (i : Nat) (r : HashRow) :
    (i, r) ∈ idxList hv ↔ hv.get? i = some r := by
  rw [idxList, idxFrom_mem]
  constructor
  · rintro ⟨j, h1, h2⟩
    have hij : i = j := by omega
    rw [hij]
    exact h2
  · intro h
    exact ⟨i, by omega, h⟩

theorem idxFrom_get? :
    ∀ (hv : List HashRow) (n j : Nat),
      (idxFrom n hv).get? j = (hv.get? j).map (fun r => (n + j, r)) := by
  intro hv
  induction hv with
  | nil => intro n j; simp [idxFrom]
  | cons x t ih =>
    intro n j
    cases j with
    | zero => simp [idxFrom]
    | succ j' =>
      simp only [idxFrom, List.get?_cons_succ, ih (n + 1) j']
      have : n + 1 + j' = n + (j' + 1) := by omega
      rw [this]

theorem idxList_get? (hv : List HashRow) (j : Nat) :
    (idxList hv).get? j = (hv.get? j).map (fun r => (j, r)) := by
  have h := idxFrom_get? hv 0 j
  simpa [idxList] using h

theorem idxFrom_length :
    ∀ (hv : List HashRow) (n : Nat), (idxFrom n hv).length = hv.length := by
  intro hv
  induction hv with
  | nil => intro n; rfl
  | cons x t ih => intro n; simp [idxFrom, ih]

theorem idxList_length (hv : List HashRow) :
    (idxList hv).length = hv.length := idxFrom_length hv 0

theorem idxFrom_fst_nodup :
    ∀ (hv : List HashRow) (n : Nat), ((idxFrom n hv).map Prod.fst).Nodup := by
  intro hv
  induction hv with
  | nil => intro n; simp [idxFrom]
  | cons x t ih =>
    intro n
    simp only [idxFrom, List.map_cons, List.nodup_cons]
    constructor
    · intro hmem
      obtain ⟨⟨i, r⟩, hir, hfst⟩ := List.mem_map.mp hmem
      obtain ⟨j, hj1, _⟩ := (idxFrom_mem t (n + 1) i r).mp hir
      simp at hfst
      omega
    · exact ih (n + 1)

theorem idxList_nodup (hv : List HashRow) : (idxList hv).Nodup :=
  (idxFrom_fst_nodup hv 0).of_map

theorem grpOf_mem (hv : List HashRow) (h : String) (i : Nat) (r : HashRow) :
    (i, r) ∈ grpOf hv h ↔ hv.get? i = some r ∧ r.hash = h := by
  simp [grpOf, List.mem_filter, idxList_mem]

theorem grpOf_nodup (hv : List HashRow) (h : String) : (grpOf hv h).Nodup :=
  (idxList_nodup hv).filter _

theorem mem_visOf_grp (hv : List HashRow) (h : String)
    (x : Nat × HashRow) (hx : x ∈ visOf hv h) : x ∈ grpOf hv h := by
  have h1 := (List.mem_filter.mp hx).1
  exact (List.perm_insertionSort rowOrd (grpOf hv h)).mem_iff.mp h1

theorem mem_dupIdxs (hv : List HashRow) (h : String) (j : Nat)
    (hj : j ∈ dupIdxsOf hv h) :
    ∃ r, hv.get? j = some r ∧ r.hash = h ∧
      (r.dup = none ∨ r.dup = some 0) := by
  obtain ⟨⟨i, r⟩, hir, hfst⟩ := List.mem_map.mp hj
  obtain ⟨hmem, hdup⟩ := List.mem_filter.mp hir
  have hvis := List.mem_of_mem_tail hmem
  have hgrp := mem_visOf_grp hv h (i, r) hvis
  obtain ⟨hget, hhash⟩ := (grpOf_mem hv h i r).mp hgrp
  simp at hfst hdup
  subst hfst
  exact ⟨r, hget, hhash, by
    rcases hdup with hd | hd
    · left; exact hd
    · right; exact hd⟩

theorem markGroupHV_other (hv : List HashRow) (h : String) (j : Nat)
    (rj : HashRow) (hj : hv.get? j = some rj) (hne : rj.hash ≠ h) :
    (markGroupHV hv h).get? j = some rj := by
  unfold markGroupHV
  by_cases hvempty : (visOf hv h).isEmpty
  · rw [if_pos hvempty]
    exact hj
  · simp only [hvempty, Bool.false_eq_true, if_false]
    rw [List.get?_map, idxList_get?, hj]
    have hnotin : j ∉ dupIdxsOf hv h := by
      intro hmem
      obtain ⟨r, hr1, hr2, -⟩ := mem_dupIdxs hv h j hmem
      rw [hj] at hr1
      cases hr1
      exact hne hr2
    simp [hnotin]

theorem markGroupHV_length (hv : List HashRow) (h : String) :
    (markGroupHV hv h).length = hv.length := by
  unfold markGroupHV
  by_cases hvempty : (visOf hv h).isEmpty
  · simp [hvempty]
  · simp [hvempty, idxList_length]

theorem markGroupHV_shape (hv : List HashRow) (h : String) (j : Nat)
    (rj : HashRow) (hj : hv.get? j = some rj) :
    ∃ rj', (markGroupHV hv h).get? j = some rj' ∧ rj'.row = rj.row ∧
      rj'.path = rj.path ∧ rj'.hash = rj.hash ∧ rj'.deleted = rj.deleted ∧
      (rj' = rj ∨ rj' = { rj with dup := some 1 }) := by
  unfold markGroupHV
  by_cases hvempty : (visOf hv h).isEmpty
  · exact ⟨rj, by rw [if_pos hvempty]; exact hj, rfl, rfl, rfl, rfl,
      Or.inl rfl⟩
  · simp only [hvempty, Bool.false_eq_true, if_false]
    by_cases hmem : j ∈ dupIdxsOf hv h
    · refine ⟨{ rj with dup := some 1 }, ?_, rfl, rfl, rfl, rfl, Or.inr rfl⟩
      rw [List.get?_map, idxList_get?, hj]
      simp [hmem]
    · refine ⟨rj, ?_, rfl, rfl, rfl, rfl, Or.inl rfl⟩
      rw [List.get?_map, idxList_get?, hj]
      simp [hmem]

theorem markGroupHV_spec (hv : List HashRow) (h : String)
    (Hclean : ∀ r ∈ hv, r.hash = h →
      (r.dup = none ∨ r.dup = some 0) ∧ visiblePath r.path = true)
    (Hrows : ∀ i j ri rj, hv.get? i = some ri → hv.get? j = some rj →
      ri.hash = h → rj.hash = h → ri.row = rj.row → i = j)
    (Hne : ∃ r ∈ hv, r.hash = h) :
    ∃ i0 r0, hv.get? i0 = some r0 ∧ r0.hash = h ∧
      (markGroupHV hv h).get? i0 = some r0 ∧
      ∀ j rj, hv.get? j = some rj → rj.hash = h → j ≠ i0 →
        (markGroupHV hv h).get? j = some { rj with dup := some 1 } ∧
          r0.row < rj.row := by
  obtain ⟨rw0, hrw0, hrw0h⟩ := Hne
  obtain ⟨iw, hiw⟩ := List.get?_of_mem hrw0
  have hgrpmem : (iw, rw0) ∈ grpOf hv h :=
    (grpOf_mem hv h iw rw0).mpr ⟨hiw, hrw0h⟩
  have hperm : List.Perm ((grpOf hv h).insertionSort rowOrd) (grpOf hv h) :=
    List.perm_insertionSort rowOrd _
  have hallvis : ∀ x ∈ (grpOf hv h).insertionSort rowOrd,
      visiblePath x.2.path = true := by
    intro x hx
    obtain ⟨hget, hhash⟩ := (grpOf_mem hv h x.1 x.2).mp (hperm.mem_iff.mp hx)
    exact (Hclean x.2 (List.get?_mem hget) hhash).2
  have hvis_eq : visOf hv h = (grpOf hv h).insertionSort rowOrd := by
    unfold visOf
    exact List.filter_eq_self.mpr hallvis
  have hsorted : List.Sorted rowOrd (visOf hv h) := by
    rw [hvis_eq]
    exact List.sorted_insertionSort rowOrd _
  have hnd : (visOf hv h).Nodup := by
    rw [hvis_eq]
    exact (hperm.nodup_iff).mpr (grpOf_nodup hv h)
  have hmemiff : ∀ x, x ∈ visOf hv h ↔ x ∈ grpOf hv h := by
    intro x
    rw [hvis_eq]
    exact hperm.mem_iff
  obtain ⟨base, tl, hbt⟩ : ∃ b t, visOf hv h = b :: t := by
    cases hvv : visOf hv h with
    | nil =>
      exfalso
      have hm : (iw, rw0) ∈ visOf hv h := (hmemiff _).mpr hgrpmem
      rw [hvv] at hm
      cases hm
    | cons b t => exact ⟨b, t, rfl⟩
  have hvisemp : (visOf hv h).isEmpty = false := by rw [hbt]; rfl
  have hcond : ¬((visOf hv h).isEmpty = true) := by rw [hvisemp]; simp
  have hbase_grp : base ∈ grpOf hv h :=
    (hmemiff base).mp (by rw [hbt]; exact List.mem_cons_self _ _)
  obtain ⟨hbase_get, hbase_hash⟩ := (grpOf_mem hv h base.1 base.2).mp hbase_grp
  have hbase_nin_tl : base ∉ tl := by
    have hnd' := hnd
    rw [hbt] at hnd'
    exact (List.nodup_cons.mp hnd').1
  have htl_ord : ∀ x ∈ tl, rowOrd base x := by
    have hs := hsorted
    rw [hbt] at hs
    exact (List.sorted_cons.mp hs).1
  have hdupidx : ∀ j rj, hv.get? j = some rj → rj.hash = h → j ≠ base.1 →
      j ∈ dupIdxsOf hv h ∧ (j, rj) ∈ tl := by
    intro j rj hj hjh hne'
    have hg : (j, rj) ∈ grpOf hv h := (grpOf_mem hv h j rj).mpr ⟨hj, hjh⟩
    have hvmem : (j, rj) ∈ visOf hv h := (hmemiff _).mpr hg
    have htlmem : (j, rj) ∈ tl := by
      rw [hbt] at hvmem
      rcases List.mem_cons.mp hvmem with heq | htl
      · exact absurd (congrArg Prod.fst heq) hne'
      · exact htl
    have hdup0 := (Hclean rj (List.get?_mem hj) hjh).1
    have hfl : (j, rj) ∈ tl.filter
        (fun ir => ir.2.dup == none || ir.2.dup == some 0) := by
      apply List.mem_filter.mpr
      refine ⟨htlmem, ?_⟩
      rcases hdup0 with hd | hd <;> simp [hd]
    refine ⟨?_, htlmem⟩
    unfold dupIdxsOf
    rw [hbt]
    simp only [List.tail_cons]
    exact List.mem_map.mpr ⟨(j, rj), hfl, rfl⟩
  refine ⟨base.1, base.2, hbase_get, hbase_hash, ?_, ?_⟩
  · unfold markGroupHV
    rw [if_neg hcond, List.get?_map, idxList_get?, hbase_get]
    have hnotin : base.1 ∉ dupIdxsOf hv h := by
      intro hmem
      unfold dupIdxsOf at hmem
      rw [hbt] at hmem
      simp only [List.tail_cons] at hmem
      obtain ⟨x, hx, hxf⟩ := List.mem_map.mp hmem
      have hxtl := (List.mem_filter.mp hx).1
      have hxg := (hmemiff x).mp
        (by rw [hbt]; exact List.mem_cons_of_mem _ hxtl)
      obtain ⟨hxget, -⟩ := (grpOf_mem hv h x.1 x.2).mp hxg
      rw [hxf, hbase_get] at hxget
      have hx2 : x.2 = base.2 := (Option.some.inj hxget).symm
      have hxb : x = base := Prod.ext hxf hx2
      rw [hxb] at hxtl
      exact hbase_nin_tl hxtl
    simp [hnotin]
  · intro j rj hj hjh hne'
    obtain ⟨hjidx, hjtl⟩ := hdupidx j rj hj hjh hne'
    constructor
    · unfold markGroupHV
      rw [if_neg hcond, List.get?_map, idxList_get?, hj]
      simp [hjidx]
    · have hord := htl_ord (j, rj) hjtl
      unfold rowOrd at hord
      rcases hord with hlt | ⟨heq, -⟩
      · exact hlt
      · exact absurd
          (Hrows j base.1 rj base.2 hj hbase_get hjh hbase_hash heq.symm) hne'

theorem get?_some_lt {α : Type} (l : List α) (n : Nat) (a : α)
    (h : l.get? n = some a) : n < l.length := by
  by_contra hn
  push_neg at hn
  rw [List.get?_eq_none.mpr hn] at h
  cases h

theorem lt_get?_some {α : Type} (l : List α) (n : Nat) (h : n < l.length) :
    ∃ a, l.get? n = some a := ⟨l.get ⟨n, h⟩, List.get?_eq_get h⟩

theorem foldMark_spec :
    ∀ (cs : List String) (hv0 hvcur : List HashRow),
      cs.Nodup →
      (∀ h ∈ cs, ∃ r ∈ hv0, r.hash = h) →
      (∀ r ∈ hv0, r.dup = none ∨ r.dup = some 0) →
      (∀ r ∈ hv0, visiblePath r.path = true) →
      (∀ i j ri rj, hv0.get? i = some ri → hv0.get? j = some rj →
        ri.row = rj.row → i = j) →
      hvcur.length = hv0.length →
      (∀ j r0, hv0.get? j = some r0 → r0.hash ∈ cs →
        hvcur.get? j = some r0) →
      (∀ j r0, hv0.get? j = some r0 → ∃ rc, hvcur.get? j = some rc ∧
        rc.row = r0.row ∧ rc.path = r0.path ∧ rc.hash = r0.hash ∧
        rc.deleted = r0.deleted) →
      (cs.foldl markGroupHV hvcur).length = hv0.length ∧
        (∀ j r0, hv0.get? j = some r0 → r0.hash ∉ cs →
          (cs.foldl markGroupHV hvcur).get? j = hvcur.get? j) ∧
        (∀ h ∈ cs, ∃ i0 r0, hv0.get? i0 = some r0 ∧ r0.hash = h ∧
          (cs.foldl markGroupHV hvcur).get? i0 = some r0 ∧
          ∀ j rj, hv0.get? j = some rj → rj.hash = h → j ≠ i0 →
            (cs.foldl markGroupHV hvcur).get? j =
                some { rj with dup := some 1 } ∧
              r0.row < rj.row) := by
  intro cs
  induction cs with
  | nil =>
    intro hv0 hvcur _ _ _ _ _ hlen _ _
    refine ⟨by simpa using hlen, ?_, ?_⟩
    · intro j r0 _ _
      rfl
    · intro h hh
      cases hh
  | cons h cs' ih =>
    intro hv0 hvcur hnodup hpresent H1 H3 H4 hlen htouch hshape
    have hsame : ∀ i r, hvcur.get? i = some r → r.hash = h →
        hv0.get? i = some r := by
      intro i r hi hih
      have hilt : i < hv0.length := by
        have hl := get?_some_lt hvcur i r hi
        omega
      obtain ⟨r0, hr0⟩ := lt_get?_some hv0 i hilt
      obtain ⟨rc, hrc, -, -, hrchash, -⟩ := hshape i r0 hr0
      rw [hi] at hrc
      have hrr : r = rc := Option.some.inj hrc
      have hr0h : r0.hash = h := by rw [← hrchash, ← hrr]; exact hih
      have ht := htouch i r0 hr0 (by rw [hr0h]; exact List.mem_cons_self h cs')
      rw [hi] at ht
      have hrr0 : r = r0 := Option.some.inj ht
      rw [hrr0]
      exact hr0
    have hclean_cur : ∀ r ∈ hvcur, r.hash = h →
        (r.dup = none ∨ r.dup = some 0) ∧ visiblePath r.path = true := by
      intro r hr hrh
      obtain ⟨i, hi⟩ := List.get?_of_mem hr
      have hh0 := hsame i r hi hrh
      exact ⟨H1 r (List.get?_mem hh0), H3 r (List.get?_mem hh0)⟩
    have hrows_cur : ∀ i j ri rj, hvcur.get? i = some ri →
        hvcur.get? j = some rj → ri.hash = h → rj.hash = h →
        ri.row = rj.row → i = j := by
      intro i j ri rj hi hj hih hjh hrr
      exact H4 i j ri rj (hsame i ri hi hih) (hsame j rj hj hjh) hrr
    have hne_cur : ∃ r ∈ hvcur, r.hash = h := by
      obtain ⟨r, hr, hrh⟩ := hpresent h (List.mem_cons_self h cs')
      obtain ⟨i, hi⟩ := List.get?_of_mem hr
      have := htouch i r hi (by rw [hrh]; exact List.mem_cons_self h cs')
      exact ⟨r, List.get?_mem this, hrh⟩
    obtain ⟨i0, r0, hi0cur, hr0h, hi0res, hmarked⟩ :=
      markGroupHV_spec hvcur h hclean_cur hrows_cur hne_cur
    have hlen1 : (markGroupHV hvcur h).length = hv0.length := by
      rw [markGroupHV_length]
      exact hlen
    have htouch' : ∀ j rj, hv0.get? j = some rj → rj.hash ∈ cs' →
        (markGroupHV hvcur h).get? j = some rj := by
      intro j rj hj hjcs
      have hne_h : rj.hash ≠ h := by
        intro heq
        apply (List.nodup_cons.mp hnodup).1
        rw [← heq]
        exact hjcs
      exact markGroupHV_other hvcur h j rj
        (htouch j rj hj (List.mem_cons_of_mem _ hjcs)) hne_h
    have hshape' : ∀ j rj, hv0.get? j = some rj →
        ∃ rc, (markGroupHV hvcur h).get? j = some rc ∧ rc.row = rj.row ∧
          rc.path = rj.path ∧ rc.hash = rj.hash ∧
          rc.deleted = rj.deleted := by
      intro j rj hj
      obtain ⟨rc, hrc, e1, e2, e3, e4⟩ := hshape j rj hj
      obtain ⟨rc', hrc', g1, g2, g3, g4, -⟩ :=
        markGroupHV_shape hvcur h j rc hrc
      exact ⟨rc', hrc', by rw [g1, e1], by rw [g2, e2], by rw [g3, e3],
        by rw [g4, e4]⟩
    obtain ⟨ihlen, ihP1, ihP2⟩ := ih hv0 (markGroupHV hvcur h)
      (List.nodup_cons.mp hnodup).2
      (fun h' hh' => hpresent h' (List.mem_cons_of_mem _ hh'))
      H1 H3 H4 hlen1 htouch' hshape'
    simp only [List.foldl_cons]
    refine ⟨ihlen, ?_, ?_⟩
    · intro j rj hj hnotin
      have hne_h : rj.hash ≠ h := by
        intro heq
        exact hnotin (by rw [heq]; exact List.mem_cons_self h cs')
      have hnotin' : rj.hash ∉ cs' :=
        fun hc => hnotin (List.mem_cons_of_mem _ hc)
      rw [ihP1 j rj hj hnotin']
      obtain ⟨rc, hrc, -, -, hrchash, -⟩ := hshape j rj hj
      rw [markGroupHV_other hvcur h j rc hrc (by rw [hrchash]; exact hne_h)]
      exact hrc.symm
    · intro h' hh'
      rcases List.mem_cons.mp hh' with heq | hcs'
      · subst heq
        have hi0_hv0 : hv0.get? i0 = some r0 := hsame i0 r0 hi0cur hr0h
        have hr0notcs' : r0.hash ∉ cs' := by
          rw [hr0h]
          exact (List.nodup_cons.mp hnodup).1
        refine ⟨i0, r0, hi0_hv0, hr0h, ?_, ?_⟩
        · rw [ihP1 i0 r0 hi0_hv0 hr0notcs']
          exact hi0res
        · intro j rj hj hjh hne'
          have hjcur : hvcur.get? j = some rj :=
            htouch j rj hj (by rw [hjh]; exact List.mem_cons_self h' cs')
          obtain ⟨hres1, hlt⟩ := hmarked j rj hjcur hjh hne'
          have hjnotcs' : rj.hash ∉ cs' := by
            rw [hjh]
            exact (List.nodup_cons.mp hnodup).1
          rw [ihP1 j rj hj hjnotcs']
          exact ⟨hres1, hlt⟩
      · exact ihP2 h' hcs'

theorem markLoop_hv_noskip :
    ∀ (cs : List String) (i pr total : Nat) (lastHash : String) (db : DB),
      (markLoop none cs i pr total false lastHash db).hashvalues =
        cs.foldl markGroupHV db.hashvalues := by
  intro cs
  induction cs with
  | nil =>
    intro i pr total lastHash db
    simp [markLoop, hashvalues_setN, hashvalues_setS]
  | cons h rest ih =>
    intro i pr total lastHash db
    simp only [markLoop, List.foldl_cons]
    have hch : cancelHit none i = false := rfl
    rw [hch]
    simp only [Bool.false_eq_true, if_false]
    rw [ih]
    rfl

theorem markLoop_hv_skip :
    ∀ (cs : List String) (i pr total : Nat) (lastHash : String) (db : DB),
      (markLoop none cs i pr total true lastHash db).hashvalues =
        (skipPast lastHash cs).foldl markGroupHV db.hashvalues := by
  intro cs
  induction cs with
  | nil =>
    intro i pr total lastHash db
    simp [markLoop, skipPast, hashvalues_setN, hashvalues_setS]
  | cons h rest ih =>
    intro i pr total lastHash db
    simp only [markLoop, skipPast]
    have hch : cancelHit none i = false := rfl
    rw [hch]
    simp only [Bool.false_eq_true, if_false, if_true]
    by_cases hb : (h == lastHash) = true
    · rw [hb]
      simp only [Bool.not_true, if_true]
      rw [markLoop_hv_noskip]
    · have hb' : (h == lastHash) = false := by
        cases hx : (h == lastHash)
        · rfl
        · exact absurd hx hb
      rw [hb']
      simp only [Bool.not_false, if_false]
      rw [ih]
      simp

theorem generateAndMark_false_hv (cancelFrom : Option Nat) (db : DB)
    (hcf : cancelFrom = none) :
    (generateAndMarkDuplicates cancelFrom false db).hashvalues =
      (dupCandidates db.hashvalues).foldl markGroupHV db.hashvalues := by
  subst hcf
  unfold generateAndMarkDuplicates
  by_cases hc : (dupCandidates db.hashvalues).isEmpty
  · rw [if_pos hc]
    have hn : dupCandidates db.hashvalues = [] := by
      cases hx : dupCandidates db.hashvalues
      · rfl
      · rw [hx] at hc; cases hc
    rw [hn]
    rfl
  · rw [if_neg hc]
    simp only [Bool.false_and]
    rw [markLoop_hv_noskip]
    simp [hashvalues_setN, hashvalues_setS]

theorem generateAndMark_resume_hv (db : DB) (lastHash : String)
    (hl : db.getS "dup_last_hash" "" = lastHash) (hlne : lastHash ≠ "") :
    (generateAndMarkDuplicates none true db).hashvalues =
      (skipPast lastHash (dupCandidates db.hashvalues)).foldl markGroupHV
        db.hashvalues := by
  unfold generateAndMarkDuplicates
  by_cases hc : (dupCandidates db.hashvalues).isEmpty
  · rw [if_pos hc]
    have hn : dupCandidates db.hashvalues = [] := by
      cases hx : dupCandidates db.hashvalues
      · rfl
      · rw [hx] at hc; cases hc
    rw [hn]
    rfl
  · rw [if_neg hc]
    simp only [if_true, Bool.true_and]
    rw [hl]
    have hb : (lastHash == "") = false := beq_eq_false_iff_ne.mpr hlne
    rw [hb]
    simp only [Bool.not_false]
    rw [markLoop_hv_skip]

theorem distinctHashes_sub :
    ∀ (hv : List HashRow) (seen : List String) (x : String),
      x ∈ distinctHashes hv seen → ∃ r ∈ hv, r.hash = x := by
  intro hv
  induction hv with
  | nil => intro seen x hx; simp [distinctHashes] at hx
  | cons r rest ih =>
    intro seen x hx
    unfold distinctHashes at hx
    by_cases hm : r.hash ∈ seen
    · rw [if_pos hm] at hx
      obtain ⟨r', hr', he⟩ := ih seen x hx
      exact ⟨r', List.mem_cons_of_mem _ hr', he⟩
    · rw [if_neg hm] at hx
      rcases List.mem_cons.mp hx with hx | hx
      · exact ⟨r, List.mem_cons_self _ _, hx.symm⟩
      · obtain ⟨r', hr', he⟩ := ih _ x hx
        exact ⟨r', List.mem_cons_of_mem _ hr', he⟩

theorem distinctHashes_avoid :
    ∀ (hv : List HashRow) (seen : List String),
      (distinctHashes hv seen).Nodup ∧
        ∀ x ∈ distinctHashes hv seen, x ∉ seen := by
  intro hv
  induction hv with
  | nil => intro seen; simp [distinctHashes]
  | cons r rest ih =>
    intro seen
    unfold distinctHashes
    by_cases hm : r.hash ∈ seen
    · rw [if_pos hm]
      exact ih seen
    · rw [if_neg hm]
      obtain ⟨ihn, iha⟩ := ih (r.hash :: seen)
      refine ⟨List.nodup_cons.mpr ⟨?_, ihn⟩, ?_⟩
      · intro hmem
        exact (iha _ hmem) (List.mem_cons_self _ _)
      · intro x hx
        rcases List.mem_cons.mp hx with hx | hx
        · rw [hx]; exact hm
        · intro hxs
          exact (iha x hx) (List.mem_cons_of_mem _ hxs)

theorem distinctHashes_complete :
    ∀ (hv : List HashRow) (seen : List String) (r : HashRow), r ∈ hv →
      r.hash ∉ seen → r.hash ∈ distinctHashes hv seen := by
  intro hv
  induction hv with
  | nil => intro seen r hr; cases hr
  | cons x rest ih =>
    intro seen r hr hns
    unfold distinctHashes
    rcases List.mem_cons.mp hr with hr | hr
    · subst hr
      rw [if_neg hns]
      exact List.mem_cons_self _ _
    · by_cases hm : x.hash ∈ seen
      · rw [if_pos hm]
        exact ih seen r hr hns
      · rw [if_neg hm]
        by_cases he : r.hash = x.hash
        · rw [he]
          exact List.mem_cons_self _ _
        · refine List.mem_cons_of_mem _ (ih _ r hr ?_)
          intro hc
          rcases List.mem_cons.mp hc with hc | hc
          · exact he hc
          · exact hns hc

theorem dupCandidates_nodup (hv : List HashRow) :
    (dupCandidates hv).Nodup := (distinctHashes_avoid hv []).1.filter _

theorem dupCandidates_present (hv : List HashRow) (h : String)
    (hh : h ∈ dupCandidates hv) : ∃ r ∈ hv, r.hash = h :=
  distinctHashes_sub hv [] h (List.mem_filter.mp hh).1

theorem two_le_length_filter {α : Type} :
    ∀ (l : List α) (p : α → Bool) (i j : Nat) (a b : α), i ≠ j →
      l.get? i = some a → l.get? j = some b → p a = true → p b = true →
      2 ≤ (l.filter p).length := by
  intro l
  induction l with
  | nil => intro p i j a b _ ha; cases ha
  | cons x t ih =>
    intro p i j a b hij ha hb hpa hpb
    cases i with
    | zero =>
      cases j with
      | zero => exact absurd rfl hij
      | succ j' =>
        have hax : a = x := by
          have := ha
          simp at this
          exact this.symm
        have hb' : t.get? j' = some b := by simpa using hb
        have hmem : b ∈ t.filter p :=
          List.mem_filter.mpr ⟨List.get?_mem hb', hpb⟩
        have h1 : 0 < (t.filter p).length :=
          List.length_pos.mpr (List.ne_nil_of_mem hmem)
        rw [List.filter_cons]
        rw [← hax, hpa]
        simp only [if_true, List.length_cons]
        omega
    | succ i' =>
      cases j with
      | zero =>
        have hbx : b = x := by
          have := hb
          simp at this
          exact this.symm
        have ha' : t.get? i' = some a := by simpa using ha
        have hmem : a ∈ t.filter p :=
          List.mem_filter.mpr ⟨List.get?_mem ha', hpa⟩
        have h1 : 0 < (t.filter p).length :=
          List.length_pos.mpr (List.ne_nil_of_mem hmem)
        rw [List.filter_cons]
        rw [← hbx, hpb]
        simp only [if_true, List.length_cons]
        omega
      | succ j' =>
        have ha' : t.get? i' = some a := by simpa using ha
        have hb' : t.get? j' = some b := by simpa using hb
        have hij' : i' ≠ j' := by omega
        have h2 := ih p i' j' a b hij' ha' hb' hpa hpb
        rw [List.filter_cons]
        by_cases hx : p x = true
        · rw [hx]
          simp only [if_true, List.length_cons]
          omega
        · have : p x = false := by
            cases hxx : p x
            · rfl
            · exact absurd hxx hx
          rw [this]
          simp only [Bool.false_eq_true, if_false]
          omega

theorem mem_dupCandidates_intro (hv : List HashRow) (h : String)
    (H1 : ∀ r ∈ hv, r.dup = none ∨ r.dup = some 0) (i j : Nat)
    (ri rj : HashRow) (hij : i ≠ j) (hi : hv.get? i = some ri)
    (hj : hv.get? j = some rj) (hih : ri.hash = h) (hjh : rj.hash = h) :
    h ∈ dupCandidates hv := by
  apply List.mem_filter.mpr
  constructor
  · have := distinctHashes_complete hv [] ri (List.get?_mem hi) (by simp)
    rw [hih] at this
    exact this
  · have hcount : 2 ≤ (hv.filter (fun r => r.hash == h)).length := by
      apply two_le_length_filter hv _ i j ri rj hij hi hj
      · simp [hih]
      · simp [hjh]
    have hmarked : (hv.filter (fun r => r.hash == h && r.dup == some 1)) =
        [] := by
      apply List.filter_eq_nil.mpr
      intro r hr
      rcases H1 r hr with hd | hd <;> simp [hd]
    simp only [Bool.and_eq_true, decide_eq_true_eq]
    constructor
    · omega
    · rw [hmarked]
      simp
      omega

theorem foldMark_shape :
    ∀ (cs : List String) (hv : List HashRow),
      (cs.foldl markGroupHV hv).length = hv.length ∧
        ∀ j r, hv.get? j = some r →
          ∃ r', (cs.foldl markGroupHV hv).get? j = some r' ∧
            r'.row = r.row ∧ r'.path = r.path ∧ r'.hash = r.hash ∧
            r'.deleted = r.deleted := by
  intro cs
  induction cs with
  | nil =>
    intro hv
    exact ⟨rfl, fun j r hj => ⟨r, hj, rfl, rfl, rfl, rfl⟩⟩
  | cons h rest ih =>
    intro hv
    simp only [List.foldl_cons]
    obtain ⟨ihlen, ihshape⟩ := ih (markGroupHV hv h)
    refine ⟨by rw [ihlen, markGroupHV_length], ?_⟩
    intro j r hj
    obtain ⟨rc, hrc, e1, e2, e3, e4, -⟩ := markGroupHV_shape hv h j r hj
    obtain ⟨r', hr', g1, g2, g3, g4⟩ := ihshape j rc hrc
    exact ⟨r', hr', by rw [g1, e1], by rw [g2, e2], by rw [g3, e3],
      by rw [g4, e4]⟩

/-- C2 counterexample: after a completed DuplicateGrouper run on a table
whose hash group h has two active records both already flagged duplicate,
the group still has two active records and zero of them have duplicate
different from 1 - the claimed exactly-one-unmarked-record property fails,
because the candidate query of lines 415-421 excludes fully marked groups
and the run never touches them. -/
theorem grouper_premarked_group_counterexample :
    (((generateAndMarkDuplicates none false dbPremarked).hashvalues.filter
        (fun r => r.hash == "h" && r.deleted == 0)).length = 2) ∧
      (((generateAndMarkDuplicates none false dbPremarked).hashvalues.filter
        (fun r => r.hash == "h" && r.deleted == 0 &&
          !(r.dup == some 1))).length = 0) := by
  decide

/-- C2 amended: on a database with no deleted records, no pre-set duplicate
flags, visible paths, and pairwise distinct sequence (row) numbers, a
completed DuplicateGrouper run leaves, in every hash group with at least
two records, exactly one record unmarked - the one with the lowest row -
and flags every other record of the group duplicate equal 1. -/
theorem grouper_marks_all_but_lowest_row (db : DB)
    (H1 : ∀ r ∈ db.hashvalues, r.dup = none ∨ r.dup = some 0)
    (H2 : ∀ r ∈ db.hashvalues, r.deleted = 0)
    (H3 : ∀ r ∈ db.hashvalues, visiblePath r.path = true)
    (H4 : ∀ i j ri rj, db.hashvalues.get? i = some ri →
      db.hashvalues.get? j = some rj → ri.row = rj.row → i = j) :
    ∀ (h : String) (j1 j2 : Nat) (r1 r2 : HashRow), j1 ≠ j2 →
      (generateAndMarkDuplicates none false db).hashvalues.get? j1 =
        some r1 →
      (generateAndMarkDuplicates none false db).hashvalues.get? j2 =
        some r2 →
      r1.hash = h → r2.hash = h →
      ∃ i0 r0,
        (generateAndMarkDuplicates none false db).hashvalues.get? i0 =
          some r0 ∧
        r0.hash = h ∧ r0.deleted = 0 ∧ r0.dup ≠ some 1 ∧
        ∀ j rj,
          (generateAndMarkDuplicates none false db).hashvalues.get? j =
            some rj →
          rj.hash = h → j ≠ i0 → rj.dup = some 1 ∧ r0.row < rj.row := by
  intro h j1 j2 r1 r2 hj12 hg1 hg2 h1h h2h
  have hrun := generateAndMark_false_hv none db rfl
  rw [hrun] at hg1 hg2
  obtain ⟨hslen, hsshape⟩ :=
    foldMark_shape (dupCandidates db.hashvalues) db.hashvalues
  -- recover the table rows underneath the two result rows
  have hlt1 : j1 < db.hashvalues.length := by
    have := get?_some_lt _ _ _ hg1
    omega
  have hlt2 : j2 < db.hashvalues.length := by
    have := get?_some_lt _ _ _ hg2
    omega
  obtain ⟨r1', hr1'⟩ := lt_get?_some db.hashvalues j1 hlt1
  obtain ⟨r2', hr2'⟩ := lt_get?_some db.hashvalues j2 hlt2
  have h1'h : r1'.hash = h := by
    obtain ⟨rr, hrr, -, -, hh, -⟩ := hsshape j1 r1' hr1'
    rw [hg1] at hrr
    rw [← hh, ← Option.some.inj hrr]
    exact h1h
  have h2'h : r2'.hash = h := by
    obtain ⟨rr, hrr, -, -, hh, -⟩ := hsshape j2 r2' hr2'
    rw [hg2] at hrr
    rw [← hh, ← Option.some.inj hrr]
    exact h2h
  have hcand : h ∈ dupCandidates db.hashvalues :=
    mem_dupCandidates_intro db.hashvalues h H1 j1 j2 r1' r2' hj12 hr1' hr2'
      h1'h h2'h
  obtain ⟨-, -, P2⟩ := foldMark_spec (dupCandidates db.hashvalues)
    db.hashvalues db.hashvalues (dupCandidates_nodup db.hashvalues)
    (fun h' hh' => dupCandidates_present db.hashvalues h' hh') H1 H3 H4 rfl
    (fun j r0 hj _ => hj) (fun j r0 hj => ⟨r0, hj, rfl, rfl, rfl, rfl⟩)
  obtain ⟨i0, r0, hi0, hr0h, hi0res, hmarked⟩ := P2 h hcand
  refine ⟨i0, r0, by rw [hrun]; exact hi0res, hr0h,
    H2 r0 (List.get?_mem hi0), ?_, ?_⟩
  · rcases H1 r0 (List.get?_mem hi0) with hd | hd <;> simp [hd]
  · intro j rj hj hjh hji0
    rw [hrun] at hj
    have hltj : j < db.hashvalues.length := by
      have := get?_some_lt _ _ _ hj
      omega
    obtain ⟨rj', hrj'⟩ := lt_get?_some db.hashvalues j hltj
    have hj'h : rj'.hash = h := by
      obtain ⟨rr, hrr, -, -, hh, -⟩ := hsshape j rj' hrj'
      rw [hj] at hrr
      rw [← hh, ← Option.some.inj hrr]
      exact hjh
    obtain ⟨hres, hlt⟩ := hmarked j rj' hrj' hj'h hji0
    rw [hj] at hres
    have hrjeq : rj = { rj' with dup := some 1 } := Option.some.inj hres
    constructor
    · rw [hrjeq]
    · rw [hrjeq]
      exact hlt

/-- Witness for the C2 amended theorem on a clean two-record group. -/
theorem grouper_marks_all_but_lowest_row_witness :
    ∃ i0 r0,
      (generateAndMarkDuplicates none false dbTwoSame).hashvalues.get?
        i0 = some r0 ∧
      r0.hash = "k" ∧ r0.deleted = 0 ∧ r0.dup ≠ some 1 ∧
      ∀ j rj,
        (generateAndMarkDuplicates none false dbTwoSame).hashvalues.get?
          j = some rj →
        rj.hash = "k" → j ≠ i0 → rj.dup = some 1 ∧ r0.row < rj.row :=
  grouper_marks_all_but_lowest_row dbTwoSame (by decide) (by decide)
    (by decide)
    (by
      intro i j ri rj hi hj hrr
      have hi' : i < 2 := by
        have := get?_some_lt _ _ _ hi
        simpa [dbTwoSame] using this
      have hj' : j < 2 := by
        have := get?_some_lt _ _ _ hj
        simpa [dbTwoSame] using this
      interval_cases i <;> interval_cases j <;> simp_all [dbTwoSame] <;>
        (rw [← hi, ← hj] at hrr; simp at hrr))
    "k" 0 1 (HashRow.mk 0 "a" "k" none 0) (HashRow.mk 1 "b" "k" (some 1) 0)
    (by decide) (by decide) (by decide) (by decide) (by decide)

/-- C5 counterexample: cancelling a fresh DuplicateGrouper run at its very
first check stores the first, still unprocessed candidate hash h1 as the
checkpoint (lines 461-470); the resumed run then runs to completion (its
final operation_state is idle) but skips past h1 inclusively (lines
473-477), so the h1 group - which still needs duplicate marks - receives
none, while the h2 group is marked.  The claimed property that no group
still needing marks is silently skipped fails. -/
theorem grouper_resume_skips_needed_group_counterexample :
    ((generateAndMarkDuplicates (some 0) false dbTwoGroups).getS
        "operation_state" "" = "cancelled") ∧
      ((generateAndMarkDuplicates (some 0) false dbTwoGroups).getS
        "dup_last_hash" "" = "h1") ∧
      ((generateAndMarkDuplicates none true
          (generateAndMarkDuplicates (some 0) false dbTwoGroups)).getS
        "operation_state" "" = "idle") ∧
      (((generateAndMarkDuplicates none true
          (generateAndMarkDuplicates (some 0) false
            dbTwoGroups)).hashvalues.filter
        (fun r => r.hash == "h1")).length = 2) ∧
      (((generateAndMarkDuplicates none true
          (generateAndMarkDuplicates (some 0) false
            dbTwoGroups)).hashvalues.filter
        (fun r => r.hash == "h1" && r.dup == some 1)).length = 0) ∧
      (((generateAndMarkDuplicates none true
          (generateAndMarkDuplicates (some 0) false
            dbTwoGroups)).hashvalues.filter
        (fun r => r.hash == "h2" && r.dup == some 1)).length = 1) := by
  decide

/-- C5 amended: a resumed DuplicateGrouper run skips the candidates up to
and including the first occurrence of the checkpointed hash (all of them
if it no longer occurs) and processes exactly the remaining candidates;
since the checkpoint written at cancellation is the first unprocessed
hash, that one group is not marked by the resumed run.  Fully resolved groups
(all records flagged duplicate) are never candidates and are never
reprocessed. -/
theorem grouper_resume_inclusive_skip (db : DB) (lastHash : String)
    (hl : db.getS "dup_last_hash" "" = lastHash) (hlne : lastHash ≠ "") :
    (generateAndMarkDuplicates none true db).hashvalues =
        (skipPast lastHash (dupCandidates db.hashvalues)).foldl markGroupHV
          db.hashvalues ∧
      ∀ h, (∃ r ∈ db.hashvalues, r.hash = h) →
        (∀ r ∈ db.hashvalues, r.hash = h → r.dup = some 1) →
        h ∉ dupCandidates db.hashvalues := by
  constructor
  · exact generateAndMark_resume_hv db lastHash hl hlne
  · intro h _hpres hall
    intro hmem
    have hcond := (List.mem_filter.mp hmem).2
    simp only [Bool.and_eq_true, decide_eq_true_eq] at hcond
    have heq : (db.hashvalues.filter
        (fun r => r.hash == h && r.dup == some 1)) =
        (db.hashvalues.filter (fun r => r.hash == h)) := by
      apply List.filter_congr
      intro r hr
      by_cases hrh : r.hash = h
      · simp [hrh, hall r hr hrh]
      · simp [hrh]
    rw [heq] at hcond
    omega

/-- Witness for the C5 amended theorem at a concrete checkpointed table. -/
theorem grouper_resume_inclusive_skip_witness :
    ((generateAndMarkDuplicates none true dbCheckpointed).hashvalues =
        (skipPast "h1" (dupCandidates dbCheckpointed.hashvalues)).foldl
          markGroupHV dbCheckpointed.hashvalues ∧
      ∀ h, (∃ r ∈ dbCheckpointed.hashvalues, r.hash = h) →
        (∀ r ∈ dbCheckpointed.hashvalues, r.hash = h → r.dup = some 1) →
        h ∉ dupCandidates dbCheckpointed.hashvalues) :=
  grouper_resume_inclusive_skip dbCheckpointed "h1" (by decide) (by decide)

/-- C1 counterexample: the deleter orders each group by rowid (line 652),
not by the row (sequence) column, and keeps only the first fetched record;
on a table whose rowid order disagrees with the sequence order it deletes
the file of the record with the strictly lowest sequence of its hash
group. -/
theorem deleter_removes_lowest_sequence_counterexample :
    ((Ev.deleted "a") ∈ (deleteDuplicates "d" true none false false
        dbRowidMismatch ["b", "a"]).evs) ∧
      (∃ r ∈ dbRowidMismatch.hashvalues,
        r.path = "a" ∧ r.hash = "h" ∧ r.row = 0) ∧
      (∀ r ∈ dbRowidMismatch.hashvalues, r.hash = "h" → r.path ≠ "a" →
        0 < r.row) ∧
      ("a" ∉ (deleteDuplicates "d" true none false false dbRowidMismatch
        ["b", "a"]).fs) := by
  decide

/- ---------------------------------------------------------------- -/
/- Lemmas about the delete loop                                      -/
/- ---------------------------------------------------------------- -/

theorem idxFrom_pairwise :
    ∀ (hv : List HashRow) (n : Nat),
      (idxFrom n hv).Pairwise (fun a b => a.1 < b.1) := by
  intro hv
  induction hv with
  | nil => intro n; simp [idxFrom]
  | cons x t ih =>
    intro n
    simp only [idxFrom, List.pairwise_cons]
    refine ⟨?_, ih (n + 1)⟩
    intro y hy
    obtain ⟨j, hj, -⟩ := (idxFrom_mem t (n + 1) y.1 y.2).mp hy
    omega

theorem delVisOf_pairwise (hv : List HashRow) (h : String) :
    (delVisOf hv h).Pairwise (fun a b => a.1 < b.1) :=
  ((idxFrom_pairwise hv 0).filter _).filter _

theorem delVisOf_mem (hv : List HashRow) (h : String) (j : Nat)
    (r : HashRow) :
    (j, r) ∈ delVisOf hv h ↔
      hv.get? j = some r ∧ r.hash = h ∧ visiblePath r.path = true := by
  simp only [delVisOf, List.mem_filter, idxList_mem]
  constructor
  · rintro ⟨⟨h1, h2⟩, h3⟩
    exact ⟨h1, by simpa using h2, h3⟩
  · rintro ⟨h1, h2, h3⟩
    exact ⟨⟨h1, by simpa using h2⟩, h3⟩

theorem delVisOf_head_tail (hv : List HashRow) (h : String)
    (x : Nat × HashRow) (tl : List (Nat × HashRow))
    (hvis : delVisOf hv h = x :: tl) :
    (∀ y ∈ tl, x.1 < y.1) ∧
      ∀ j r, (j, r) ∈ delVisOf hv h →
        (∃ j' r', j' < j ∧ (j', r') ∈ delVisOf hv h) → (j, r) ∈ tl := by
  have hpw := delVisOf_pairwise hv h
  rw [hvis] at hpw
  have hhead := (List.pairwise_cons.mp hpw).1
  refine ⟨hhead, ?_⟩
  intro j r hjr ⟨j', r', hj'lt, hj'mem⟩
  rw [hvis] at hjr hj'mem
  rcases List.mem_cons.mp hjr with heq | htl
  · exfalso
    have hxj : x.1 = j := by rw [← heq]
    rcases List.mem_cons.mp hj'mem with heq' | htl'
    · have : x.1 = j' := by rw [← heq']
      omega
    · have := hhead _ htl'
      omega
  · exact htl

theorem setDeletedAt_get? (hv : List HashRow) (rid j : Nat) :
    (setDeletedAt hv rid).get? j = (hv.get? j).map
      (fun r => if j = rid then { r with deleted := 1 } else r) := by
  rw [setDeletedAt, List.get?_map, idxList_get?]
  cases hv.get? j <;> simp

theorem setDeletedAt_length (hv : List HashRow) (rid : Nat) :
    (setDeletedAt hv rid).length = hv.length := by
  rw [setDeletedAt, List.length_map, idxList_length]

theorem delFiles_shape (dryRun : Bool) :
    ∀ (toDel : List (Nat × String)) (st : DelSt),
      (delFiles dryRun toDel st).db.hashvalues.length =
          st.db.hashvalues.length ∧
        (∀ p, p ∈ (delFiles dryRun toDel st).fs → p ∈ st.fs) ∧
        ∀ j r, st.db.hashvalues.get? j = some r →
          ∃ r', (delFiles dryRun toDel st).db.hashvalues.get? j = some r' ∧
            r'.row = r.row ∧ r'.path = r.path ∧ r'.hash = r.hash ∧
            r'.dup = r.dup ∧ (r'.deleted = r.deleted ∨ r'.deleted = 1) := by
  intro toDel
  induction toDel with
  | nil =>
    intro st
    exact ⟨rfl, fun p hp => hp, fun j r hj =>
      ⟨r, hj, rfl, rfl, rfl, rfl, Or.inl rfl⟩⟩
  | cons e rest ih =>
    intro st
    obtain ⟨rid, p⟩ := e
    simp only [delFiles]
    by_cases hdry : dryRun = true
    · rw [if_pos hdry]
      exact ih _
    · rw [if_neg hdry]
      by_cases hfs : p ∈ st.fs
      · rw [if_pos hfs]
        obtain ⟨ihlen, ihfs, ihshape⟩ := ih
          { db := { st.db with
              hashvalues := setDeletedAt st.db.hashvalues rid },
            fs := st.fs.erase p,
            evs := st.evs ++ [Ev.deleted p], cnt := st.cnt + 1 }
        refine ⟨by rw [ihlen]; exact setDeletedAt_length _ _, ?_, ?_⟩
        · intro q hq
          exact List.erase_subset _ _ (ihfs q hq)
        · intro j r hj
          have hmid : (setDeletedAt st.db.hashvalues rid).get? j =
              some (if j = rid then { r with deleted := 1 } else r) := by
            rw [setDeletedAt_get?, hj]
            rfl
          by_cases hjr : j = rid
          · rw [if_pos hjr] at hmid
            obtain ⟨r', hr', e1, e2, e3, e4, e5⟩ := ihshape j _ hmid
            exact ⟨r', hr', e1, e2, e3, e4, by
              rcases e5 with e5 | e5
              · right; exact e5
              · right; exact e5⟩
          · rw [if_neg hjr] at hmid
            exact ihshape j r hmid
      · rw [if_neg hfs]
        exact ih _

theorem delFiles_untouched (dryRun : Bool) :
    ∀ (toDel : List (Nat × String)) (st : DelSt) (j : Nat),
      (∀ pr ∈ toDel, pr.1 ≠ j) →
      (delFiles dryRun toDel st).db.hashvalues.get? j =
        st.db.hashvalues.get? j := by
  intro toDel
  induction toDel with
  | nil => intro st j _; rfl
  | cons e rest ih =>
    intro st j hne
    obtain ⟨rid, p⟩ := e
    have hrid : rid ≠ j := hne (rid, p) (List.mem_cons_self _ _)
    have hrest : ∀ pr ∈ rest, pr.1 ≠ j :=
      fun pr hpr => hne pr (List.mem_cons_of_mem _ hpr)
    simp only [delFiles]
    by_cases hdry : dryRun = true
    · rw [if_pos hdry]
      exact ih _ j hrest
    · rw [if_neg hdry]
      by_cases hfs : p ∈ st.fs
      · rw [if_pos hfs]
        rw [ih _ j hrest]
        show (setDeletedAt st.db.hashvalues rid).get? j = _
        rw [setDeletedAt_get?]
        cases hg : st.db.hashvalues.get? j
        · rfl
        · have hjr : j ≠ rid := fun hc => hrid hc.symm
          simp [hjr]
      · rw [if_neg hfs]
        exact ih _ j hrest

theorem delFiles_entry_post :
    ∀ (toDel : List (Nat × String)) (st : DelSt) (rid : Nat) (p : String)
      (r : HashRow), (rid, p) ∈ toDel →
      st.db.hashvalues.get? rid = some r →
      (∃ r', (delFiles false toDel st).db.hashvalues.get? rid = some r' ∧
          r'.deleted = 1) ∨
        p ∉ (delFiles false toDel st).fs := by
  intro toDel
  induction toDel with
  | nil => intro st rid p r hmem; cases hmem
  | cons e rest ih =>
    intro st rid p r hmem hget
    obtain ⟨rid', p'⟩ := e
    simp only [delFiles, Bool.false_eq_true, if_false]
    rcases List.mem_cons.mp hmem with heq | hrest
    · obtain ⟨he1, he2⟩ := Prod.mk.injEq .. ▸ heq
      subst he1
      subst he2
      by_cases hfs : p ∈ st.fs
      · rw [if_pos hfs]
        left
        have hmid : (setDeletedAt st.db.hashvalues rid).get? rid =
            some { r with deleted := 1 } := by
          rw [setDeletedAt_get?, hget]
          simp
        obtain ⟨-, -, hshape⟩ := delFiles_shape false rest
          { db := { st.db with
              hashvalues := setDeletedAt st.db.hashvalues rid },
            fs := st.fs.erase p,
            evs := st.evs ++ [Ev.deleted p], cnt := st.cnt + 1 }
        obtain ⟨r', hr', -, -, -, -, hdel⟩ := hshape rid _ hmid
        refine ⟨r', hr', ?_⟩
        rcases hdel with hd | hd
        · exact hd
        · exact hd
      · rw [if_neg hfs]
        right
        intro hp
        obtain ⟨-, hfs', -⟩ := delFiles_shape false rest
          { st with evs := st.evs ++ [Ev.log ("Failed to delete " ++ p)] }
        exact hfs (hfs' p hp)
    · by_cases hfs : p' ∈ st.fs
      · rw [if_pos hfs]
        have hmid : (setDeletedAt st.db.hashvalues rid').get? rid =
            some (if rid = rid' then { r with deleted := 1 } else r) := by
          rw [setDeletedAt_get?, hget]
          rfl
        exact ih _ rid p _ hrest hmid
      · rw [if_neg hfs]
        exact ih _ rid p r hrest hget

theorem delFiles_noop :
    ∀ (toDel : List (Nat × String)) (st : DelSt),
      (∀ pr ∈ toDel, pr.2 ∉ st.fs) →
      (delFiles false toDel st).db = st.db ∧
        (delFiles false toDel st).fs = st.fs ∧
        deletedEvs (delFiles false toDel st).evs = deletedEvs st.evs := by
  intro toDel
  induction toDel with
  | nil => intro st _; exact ⟨rfl, rfl, rfl⟩
  | cons e rest ih =>
    intro st hfs
    obtain ⟨rid, p⟩ := e
    simp only [delFiles, Bool.false_eq_true, if_false]
    have hp : p ∉ st.fs := hfs (rid, p) (List.mem_cons_self _ _)
    rw [if_neg hp]
    obtain ⟨h1, h2, h3⟩ := ih
      { st with evs := st.evs ++ [Ev.log ("Failed to delete " ++ p)] }
      (fun pr hpr => hfs pr (List.mem_cons_of_mem _ hpr))
    refine ⟨h1, h2, ?_⟩
    rw [h3]
    simp [deletedEvs, List.filter_append]

theorem delGroupSt_shape (dryRun : Bool) (st : DelSt) (h : String) :
    (delGroupSt dryRun st h).db.hashvalues.length =
        st.db.hashvalues.length ∧
      (∀ p, p ∈ (delGroupSt dryRun st h).fs → p ∈ st.fs) ∧
      ∀ j r, st.db.hashvalues.get? j = some r →
        ∃ r', (delGroupSt dryRun st h).db.hashvalues.get? j = some r' ∧
          r'.row = r.row ∧ r'.path = r.path ∧ r'.hash = r.hash ∧
          r'.dup = r.dup ∧ (r'.deleted = r.deleted ∨ r'.deleted = 1) := by
  unfold delGroupSt
  by_cases hvempty : (delVisOf st.db.hashvalues h).isEmpty
  · rw [if_pos hvempty]
    exact ⟨rfl, fun p hp => hp, fun j r hj =>
      ⟨r, hj, rfl, rfl, rfl, rfl, Or.inl rfl⟩⟩
  · rw [if_neg hvempty]
    exact delFiles_shape dryRun _ st

theorem toDel_fst_row (st : DelSt) (h : String) (pr : Nat × String)
    (hpr : pr ∈ ((delVisOf st.db.hashvalues h).tail.filter (fun ir =>
      ir.2.dup == some 1 && ir.2.deleted == 0)).map
        (fun ir => (ir.1, ir.2.path))) :
    ∃ r, st.db.hashvalues.get? pr.1 = some r ∧ r.hash = h ∧
      r.path = pr.2 ∧ visiblePath r.path = true ∧
      (pr.1, r) ∈ (delVisOf st.db.hashvalues h).tail := by
  obtain ⟨ir, hir, hirf⟩ := List.mem_map.mp hpr
  obtain ⟨hirt, -⟩ := List.mem_filter.mp hir
  have hirvis := List.mem_of_mem_tail hirt
  obtain ⟨hget, hhash, hvp⟩ :=
    (delVisOf_mem st.db.hashvalues h ir.1 ir.2).mp hirvis
  obtain ⟨hf1, hf2⟩ := Prod.mk.injEq .. ▸ hirf
  refine ⟨ir.2, ?_, hhash, ?_, hvp, ?_⟩
  · rw [← hf1]
    exact hget
  · exact hf2
  · rw [← hf1]
    exact hirt

theorem delGroupSt_other (dryRun : Bool) (st : DelSt) (h : String) (j : Nat)
    (r : HashRow) (hj : st.db.hashvalues.get? j = some r)
    (hne : r.hash ≠ h) :
    (delGroupSt dryRun st h).db.hashvalues.get? j = some r := by
  unfold delGroupSt
  by_cases hvempty : (delVisOf st.db.hashvalues h).isEmpty
  · rw [if_pos hvempty]
    exact hj
  · rw [if_neg hvempty]
    rw [delFiles_untouched dryRun _ st j ?_]
    · exact hj
    · intro pr hpr
      obtain ⟨r', hr', hhash', -, -, -⟩ := toDel_fst_row st h pr hpr
      intro hprj
      rw [hprj, hj] at hr'
      rw [← Option.some.inj hr'] at hhash'
      exact hne hhash'

theorem delGroupSt_first_visible (dryRun : Bool) (st : DelSt) (h : String)
    (j : Nat) (r : HashRow) (hj : st.db.hashvalues.get? j = some r)
    (hh : r.hash = h) (hvp : visiblePath r.path = true)
    (hfirst : ∀ j' r', j' < j → st.db.hashvalues.get? j' = some r' →
      r'.hash = h → visiblePath r'.path = false) :
    (delGroupSt dryRun st h).db.hashvalues.get? j = some r := by
  have hjvis : (j, r) ∈ delVisOf st.db.hashvalues h :=
    (delVisOf_mem st.db.hashvalues h j r).mpr ⟨hj, hh, hvp⟩
  unfold delGroupSt
  by_cases hvempty : (delVisOf st.db.hashvalues h).isEmpty
  · rw [if_pos hvempty]
    exact hj
  · rw [if_neg hvempty]
    obtain ⟨x, tl, hvv⟩ : ∃ x tl, delVisOf st.db.hashvalues h = x :: tl := by
      cases hx : delVisOf st.db.hashvalues h with
      | nil => rw [hx] at hjvis; cases hjvis
      | cons x tl => exact ⟨x, tl, rfl⟩
    have hht := delVisOf_head_tail st.db.hashvalues h x tl hvv
    have hjx : j = x.1 := by
      have hjvis' := hjvis
      rw [hvv] at hjvis'
      rcases List.mem_cons.mp hjvis' with heq | htl
      · rw [← heq]
      · exfalso
        have hx1 : x.1 < j := by
          have := hht.1 (j, r) htl
          simpa using this
        have hxvis : x ∈ delVisOf st.db.hashvalues h := by
          rw [hvv]
          exact List.mem_cons_self _ _
        obtain ⟨hxg, hxh, hxv⟩ :=
          (delVisOf_mem st.db.hashvalues h x.1 x.2).mp hxvis
        rw [hfirst x.1 x.2 hx1 hxg hxh] at hxv
        cases hxv
    rw [delFiles_untouched dryRun _ st j ?_]
    · exact hj
    · intro pr hpr
      obtain ⟨r', -, -, -, -, hprtl⟩ := toDel_fst_row st h pr hpr
      rw [hvv] at hprtl
      simp only [List.tail_cons] at hprtl
      have := hht.1 (pr.1, r') hprtl
      simp at this
      omega

theorem delGroupSt_post (st : DelSt) (h : String) (j : Nat) (r : HashRow)
    (hj : st.db.hashvalues.get? j = some r) (hh : r.hash = h)
    (hvp : visiblePath r.path = true)
    (hearlier : ∃ j' r', j' < j ∧ st.db.hashvalues.get? j' = some r' ∧
      r'.hash = h ∧ visiblePath r'.path = true)
    (hdup : r.dup = some 1) (hdel : r.deleted = 0) :
    (∃ r', (delGroupSt false st h).db.hashvalues.get? j = some r' ∧
        r'.deleted = 1) ∨
      r.path ∉ (delGroupSt false st h).fs := by
  have hjvis : (j, r) ∈ delVisOf st.db.hashvalues h :=
    (delVisOf_mem st.db.hashvalues h j r).mpr ⟨hj, hh, hvp⟩
  unfold delGroupSt
  by_cases hvempty : (delVisOf st.db.hashvalues h).isEmpty
  · exfalso
    have : delVisOf st.db.hashvalues h = [] := by
      cases hx : delVisOf st.db.hashvalues h
      · rfl
      · rw [hx] at hvempty; cases hvempty
    rw [this] at hjvis
    cases hjvis
  · rw [if_neg hvempty]
    obtain ⟨x, tl, hvv⟩ : ∃ x tl, delVisOf st.db.hashvalues h = x :: tl := by
      cases hx : delVisOf st.db.hashvalues h with
      | nil => rw [hx] at hjvis; cases hjvis
      | cons x tl => exact ⟨x, tl, rfl⟩
    have hht := delVisOf_head_tail st.db.hashvalues h x tl hvv
    obtain ⟨j', r', hj'lt, hj'g, hj'h, hj'v⟩ := hearlier
    have hj'vis : (j', r') ∈ delVisOf st.db.hashvalues h :=
      (delVisOf_mem st.db.hashvalues h j' r').mpr ⟨hj'g, hj'h, hj'v⟩
    have hjtl : (j, r) ∈ tl := hht.2 j r hjvis ⟨j', r', hj'lt, hj'vis⟩
    have hjfl : (j, r) ∈ tl.filter (fun ir =>
        ir.2.dup == some 1 && ir.2.deleted == 0) := by
      apply List.mem_filter.mpr
      refine ⟨hjtl, ?_⟩
      simp [hdup, hdel]
    have hjdel : (j, r.path) ∈ ((delVisOf st.db.hashvalues h).tail.filter
        (fun ir => ir.2.dup == some 1 && ir.2.deleted == 0)).map
          (fun ir => (ir.1, ir.2.path)) := by
      rw [hvv]
      simp only [List.tail_cons]
      exact List.mem_map.mpr ⟨(j, r), hjfl, rfl⟩
    exact delFiles_entry_post _ st j r.path r hjdel hj

theorem deletedEvs_append (a b : List Ev) :
    deletedEvs (a ++ b) = deletedEvs a ++ deletedEvs b := by
  simp [deletedEvs, List.filter_append]

theorem delGroupSt_shape_rev (dryRun : Bool) (st : DelSt) (h : String)
    (j : Nat) (r : HashRow)
    (hj : (delGroupSt dryRun st h).db.hashvalues.get? j = some r) :
    ∃ r1, st.db.hashvalues.get? j = some r1 ∧ r1.row = r.row ∧
      r1.path = r.path ∧ r1.hash = r.hash ∧ r1.dup = r.dup ∧
      (r.deleted = r1.deleted ∨ r.deleted = 1) := by
  obtain ⟨hlen, -, hshape⟩ := delGroupSt_shape dryRun st h
  have hlt := get?_some_lt _ _ _ hj
  obtain ⟨r1, hr1⟩ := lt_get?_some st.db.hashvalues j (by omega)
  obtain ⟨r', hr', e1, e2, e3, e4, e5⟩ := hshape j r1 hr1
  rw [hj] at hr'
  have hrr : r = r' := Option.some.inj hr'
  subst hrr
  exact ⟨r1, hr1, e1.symm, e2.symm, e3.symm, e4.symm, by
    rcases e5 with e | e
    · left; exact e
    · right; exact e⟩

theorem toDel_mem_criteria (st : DelSt) (h : String) (pr : Nat × String)
    (hpr : pr ∈ ((delVisOf st.db.hashvalues h).tail.filter (fun ir =>
      ir.2.dup == some 1 && ir.2.deleted == 0)).map
        (fun ir => (ir.1, ir.2.path))) :
    ∃ r, delCriteria st.db.hashvalues pr.1 r ∧ r.path = pr.2 ∧
      r.hash = h := by
  obtain ⟨ir, hir, hirf⟩ := List.mem_map.mp hpr
  obtain ⟨hirt, hcond⟩ := List.mem_filter.mp hir
  have hirvis := List.mem_of_mem_tail hirt
  obtain ⟨hget, hhash, hvp⟩ :=
    (delVisOf_mem st.db.hashvalues h ir.1 ir.2).mp hirvis
  simp only [Bool.and_eq_true, beq_iff_eq] at hcond
  obtain ⟨x, tl, hvv⟩ : ∃ x tl, delVisOf st.db.hashvalues h = x :: tl := by
    cases hx : delVisOf st.db.hashvalues h with
    | nil =>
      rw [hx] at hirt
      cases hirt
    | cons x tl => exact ⟨x, tl, rfl⟩
  have hht := delVisOf_head_tail st.db.hashvalues h x tl hvv
  have hirtl : ir ∈ tl := by
    rw [hvv] at hirt
    simpa using hirt
  have hxlt : x.1 < ir.1 := hht.1 ir hirtl
  have hxvis : x ∈ delVisOf st.db.hashvalues h := by
    rw [hvv]
    exact List.mem_cons_self _ _
  obtain ⟨hxg, hxh, hxv⟩ := (delVisOf_mem st.db.hashvalues h x.1 x.2).mp hxvis
  obtain ⟨hf1, hf2⟩ := Prod.mk.injEq .. ▸ hirf
  refine ⟨ir.2, ⟨by rw [← hf1]; exact hget, hcond.1, hcond.2, hvp,
    x.1, x.2, by omega, hxg, by rw [hxh, hhash], hxv⟩, hf2, hhash⟩

theorem delGroupSt_noop (st : DelSt) (h : String)
    (hno : ∀ j r, delCriteria st.db.hashvalues j r → r.path ∉ st.fs) :
    (delGroupSt false st h).db = st.db ∧ (delGroupSt false st h).fs = st.fs ∧
      deletedEvs (delGroupSt false st h).evs = deletedEvs st.evs := by
  unfold delGroupSt
  by_cases hvempty : (delVisOf st.db.hashvalues h).isEmpty
  · rw [if_pos hvempty]
    exact ⟨rfl, rfl, rfl⟩
  · rw [if_neg hvempty]
    apply delFiles_noop
    intro pr hpr
    obtain ⟨r, hcrit, hpath, -⟩ := toDel_mem_criteria st h pr hpr
    rw [← hpath]
    exact hno pr.1 r hcrit

theorem delLoop_noop :
    ∀ (cs : List String) (i pr total : Nat) (lastHash : String) (st : DelSt),
      (∀ j r, delCriteria st.db.hashvalues j r → r.path ∉ st.fs) →
      (delLoop none false cs i pr total false lastHash st).db.hashvalues =
          st.db.hashvalues ∧
        (delLoop none false cs i pr total false lastHash st).fs = st.fs ∧
        deletedEvs (delLoop none false cs i pr total false lastHash
          st).evs = deletedEvs st.evs := by
  intro cs
  induction cs with
  | nil =>
    intro i pr total lastHash st hno
    refine ⟨by simp [delLoop, hashvalues_setN, hashvalues_setS], rfl, ?_⟩
    show deletedEvs (st.evs ++ _) = deletedEvs st.evs
    rw [deletedEvs_append]
    simp [deletedEvs]
  | cons h rest ih =>
    intro i pr total lastHash st hno
    simp only [delLoop]
    have hch : cancelHit none i = false := rfl
    rw [hch]
    simp only [Bool.false_eq_true, if_false]
    obtain ⟨g1, g2, g3⟩ := delGroupSt_noop
      { st with evs := st.evs ++ [Ev.progress (min 100
          (((pr : ℚ) + 1) / (total : ℚ) * 100))] } h hno
    obtain ⟨l1, l2, l3⟩ := ih (i + 1) (pr + 1) total lastHash
      { delGroupSt false { st with evs := st.evs ++ [Ev.progress (min 100
          (((pr : ℚ) + 1) / (total : ℚ) * 100))] } h with
        db := (((delGroupSt false { st with evs := st.evs ++
            [Ev.progress (min 100 (((pr : ℚ) + 1) / (total : ℚ) *
              100))] } h).db.setS "del_last_hash" h).setN
          "del_processed_count" (pr + 1)) }
      (by
        intro j r hcrit
        have hhv : (((delGroupSt false { st with evs := st.evs ++
            [Ev.progress (min 100 (((pr : ℚ) + 1) / (total : ℚ) *
              100))] } h).db.setS "del_last_hash" h).setN
          "del_processed_count" (pr + 1)).hashvalues =
            st.db.hashvalues := by
          rw [hashvalues_setN, hashvalues_setS, g1]
        unfold delCriteria at hcrit
        rw [hhv] at hcrit
        rw [g2]
        exact hno j r hcrit)
    refine ⟨?_, ?_, ?_⟩
    · rw [l1, hashvalues_setN, hashvalues_setS, g1]
    · rw [l2, g2]
    · rw [l3]
      show deletedEvs _ = deletedEvs st.evs
      rw [g3, deletedEvs_append]
      simp [deletedEvs]

theorem delGroupSt_criteria_rev (st : DelSt) (h : String) (j : Nat)
    (r : HashRow)
    (hcrit : delCriteria (delGroupSt false st h).db.hashvalues j r) :
    ∃ r1, delCriteria st.db.hashvalues j r1 ∧ r1.path = r.path ∧
      r1.hash = r.hash ∧ r1.dup = r.dup := by
  obtain ⟨hget2, hdup, hdel, hvis, j2, r2, hj2lt, hj2g, hj2h, hj2v⟩ := hcrit
  obtain ⟨r1, hget1, -, hpath1, hhash1, hdup1, hdel1d⟩ :=
    delGroupSt_shape_rev false st h j r hget2
  obtain ⟨r21, hget21, -, hpath21, hhash21, -, -⟩ :=
    delGroupSt_shape_rev false st h j2 r2 hj2g
  have hdel1 : r1.deleted = 0 := by
    rcases hdel1d with e | e
    · rw [← e]; exact hdel
    · rw [e] at hdel; omega
  refine ⟨r1, ⟨hget1, by rw [hdup1]; exact hdup, hdel1,
    by rw [hpath1]; exact hvis, j2, r21, hj2lt, hget21, ?_, ?_⟩,
    hpath1, hhash1, hdup1⟩
  · rw [hhash21, hj2h, ← hhash1]
  · rw [hpath21]; exact hj2v

theorem delGroupSt_cover (st : DelSt) (h : String) (rest : List String)
    (hcov : ∀ j r, delCriteria st.db.hashvalues j r →
      r.hash ∈ h :: rest ∨ r.path ∉ st.fs) :
    ∀ j r, delCriteria (delGroupSt false st h).db.hashvalues j r →
      r.hash ∈ rest ∨ r.path ∉ (delGroupSt false st h).fs := by
  intro j r hcrit
  have hcrit' := hcrit
  obtain ⟨hget2, hdup, hdel, hvis, j2, r2, hj2lt, hj2g, hj2h, hj2v⟩ := hcrit'
  obtain ⟨r1, hcrit1, hpath1, hhash1, hdup1⟩ :=
    delGroupSt_criteria_rev st h j r hcrit
  obtain ⟨hget1, hdup1', hdel1, hvis1, hearl1⟩ := hcrit1
  by_cases hh : r1.hash = h
  · have hearlier1 : ∃ j' r', j' < j ∧ st.db.hashvalues.get? j' = some r' ∧
        r'.hash = h ∧ visiblePath r'.path = true := by
      obtain ⟨j', r', hlt, hg, hhsh, hv⟩ := hearl1
      exact ⟨j', r', hlt, hg, by rw [hhsh, ← hh], hv⟩
    rcases delGroupSt_post st h j r1 hget1 hh hvis1 hearlier1 hdup1' hdel1
      with ⟨r', hr', hr'del⟩ | hout
    · exfalso
      rw [hget2] at hr'
      rw [← Option.some.inj hr'] at hr'del
      omega
    · right
      rw [← hpath1]
      exact hout
  · by_cases hin : r1.hash ∈ rest
    · left
      rw [← hhash1]
      exact hin
    · rcases hcov j r1 ⟨hget1, hdup1', hdel1, hvis1, hearl1⟩ with hmem | hout
      · rcases List.mem_cons.mp hmem with e | e
        · exact absurd e hh
        · exact absurd e hin
      · right
        rw [← hpath1]
        intro hmem2
        exact hout ((delGroupSt_shape false st h).2.1 r1.path hmem2)

theorem delLoop_cons (h : String) (rest : List String)
    (i pr total : Nat) (lastHash : String) (st : DelSt) :
    delLoop none false (h :: rest) i pr total false lastHash st =
      delLoop none false rest (i + 1) (pr + 1) total false lastHash
        { delGroupSt false { st with evs := st.evs ++ [Ev.progress
            (min 100 (((pr : ℚ) + 1) / (total : ℚ) * 100))] } h with
          db := (((delGroupSt false { st with evs := st.evs ++
              [Ev.progress (min 100 (((pr : ℚ) + 1) / (total : ℚ) *
                100))] } h).db.setS "del_last_hash" h).setN
            "del_processed_count" (pr + 1)) } := rfl

theorem delLoop_nil_hv (i pr total : Nat) (lastHash : String) (st : DelSt) :
    (delLoop none false [] i pr total false lastHash st).db.hashvalues =
      st.db.hashvalues := by
  simp [delLoop, hashvalues_setN, hashvalues_setS]

theorem delLoop_nil_fs (i pr total : Nat) (lastHash : String) (st : DelSt) :
    (delLoop none false [] i pr total false lastHash st).fs = st.fs := rfl

theorem delLoop_post :
    ∀ (cs : List String) (i pr total : Nat) (lastHash : String) (st : DelSt),
      (∀ j r, delCriteria st.db.hashvalues j r →
        r.hash ∈ cs ∨ r.path ∉ st.fs) →
      ∀ j r, delCriteria (delLoop none false cs i pr total false lastHash
          st).db.hashvalues j r →
        r.path ∉ (delLoop none false cs i pr total false lastHash st).fs := by
  intro cs
  induction cs with
  | nil =>
    intro i pr total lastHash st hcov j r hcrit
    unfold delCriteria at hcrit
    rw [delLoop_nil_hv] at hcrit
    rw [delLoop_nil_fs]
    rcases hcov j r hcrit with hmem | hout
    · cases hmem
    · exact hout
  | cons h rest ih =>
    intro i pr total lastHash st hcov j r hcrit
    rw [delLoop_cons] at hcrit ⊢
    refine ih (i + 1) (pr + 1) total lastHash _ ?_ j r hcrit
    intro j' r' hcrit'
    have hcrit2 : delCriteria (delGroupSt false { st with evs := st.evs ++
        [Ev.progress (min 100 (((pr : ℚ) + 1) / (total : ℚ) *
          100))] } h).db.hashvalues j' r' := by
      unfold delCriteria at hcrit' ⊢
      rw [hashvalues_setN, hashvalues_setS] at hcrit'
      exact hcrit'
    exact delGroupSt_cover { st with evs := st.evs ++ [Ev.progress
      (min 100 (((pr : ℚ) + 1) / (total : ℚ) * 100))] } h rest hcov
      j' r' hcrit2

theorem delLoop_keeps_first :
    ∀ (cs : List String) (i pr total : Nat) (lastHash : String) (st : DelSt)
      (j : Nat) (r : HashRow),
      st.db.hashvalues.get? j = some r → visiblePath r.path = true →
      (∀ j' r', j' < j → st.db.hashvalues.get? j' = some r' →
        r'.hash = r.hash → visiblePath r'.path = false) →
      (delLoop none false cs i pr total false lastHash
        st).db.hashvalues.get? j = some r := by
  intro cs
  induction cs with
  | nil =>
    intro i pr total lastHash st j r hj _ _
    rw [delLoop_nil_hv]
    exact hj
  | cons h rest ih =>
    intro i pr total lastHash st j r hj hvis hfirst
    rw [delLoop_cons]
    have hget2 : (delGroupSt false { st with evs := st.evs ++ [Ev.progress
        (min 100 (((pr : ℚ) + 1) / (total : ℚ) *
          100))] } h).db.hashvalues.get? j = some r := by
      by_cases hh : r.hash = h
      · exact delGroupSt_first_visible false _ h j r hj hh hvis
          (fun j' r' hlt hg hh' =>
            hfirst j' r' hlt hg (by rw [hh', hh]))
      · exact delGroupSt_other false _ h j r hj hh
    refine ih (i + 1) (pr + 1) total lastHash _ j r ?_ hvis ?_
    · show ((_ : DB).setN "del_processed_count" _).hashvalues.get? j = some r
      rw [hashvalues_setN, hashvalues_setS]
      exact hget2
    · intro j' r' hlt hg3 hh'
      have hg2 : (delGroupSt false { st with evs := st.evs ++ [Ev.progress
          (min 100 (((pr : ℚ) + 1) / (total : ℚ) *
            100))] } h).db.hashvalues.get? j' = some r' := by
        rw [hashvalues_setN, hashvalues_setS] at hg3
        exact hg3
      obtain ⟨r'1, hg'1, -, hpath'1, hhash'1, -, -⟩ :=
        delGroupSt_shape_rev false _ h j' r' hg2
      have := hfirst j' r'1 hlt hg'1 (by rw [hhash'1, hh'])
      rw [hpath'1] at this
      exact this

theorem delFiles_fs_keep (dryRun : Bool) :
    ∀ (prs : List (Nat × String)) (st : DelSt) (p : String),
      p ∈ st.fs → (∀ pr ∈ prs, pr.2 ≠ p) →
      p ∈ (delFiles dryRun prs st).fs := by
  intro prs
  induction prs with
  | nil => intro st p hp _; exact hp
  | cons x rest ih =>
    intro st p hp hne
    unfold delFiles
    by_cases hd : dryRun
    · rw [if_pos hd]
      exact ih _ p hp (fun pr hpr => hne pr (List.mem_cons_of_mem _ hpr))
    · rw [if_neg hd]
      by_cases hx : x.2 ∈ st.fs
      · rw [if_pos hx]
        refine ih _ p ?_ (fun pr hpr => hne pr (List.mem_cons_of_mem _ hpr))
        show p ∈ st.fs.erase x.2
        exact (List.mem_erase_of_ne
          (fun hpe => hne x (List.mem_cons_self _ _) hpe.symm)).mpr hp
      · rw [if_neg hx]
        exact ih _ p hp (fun pr hpr => hne pr (List.mem_cons_of_mem _ hpr))

theorem delGroupSt_fs_keep (st : DelSt) (h : String) (p : String)
    (hp : p ∈ st.fs)
    (hno : ∀ j r, delCriteria st.db.hashvalues j r → r.path ≠ p) :
    p ∈ (delGroupSt false st h).fs := by
  unfold delGroupSt
  by_cases hvempty : (delVisOf st.db.hashvalues h).isEmpty
  · rw [if_pos hvempty]
    exact hp
  · rw [if_neg hvempty]
    apply delFiles_fs_keep
    · exact hp
    · intro pr hpr
      obtain ⟨r, hcrit, hpath, -⟩ := toDel_mem_criteria st h pr hpr
      rw [← hpath]
      exact hno pr.1 r hcrit

theorem delLoop_fs_keep :
    ∀ (cs : List String) (i pr total : Nat) (lastHash : String) (st : DelSt)
      (p : String), p ∈ st.fs →
      (∀ j r, delCriteria st.db.hashvalues j r → r.path ≠ p) →
      p ∈ (delLoop none false cs i pr total false lastHash st).fs := by
  intro cs
  induction cs with
  | nil =>
    intro i pr total lastHash st p hp _
    rw [delLoop_nil_fs]
    exact hp
  | cons h rest ih =>
    intro i pr total lastHash st p hp hno
    rw [delLoop_cons]
    refine ih (i + 1) (pr + 1) total lastHash _ p ?_ ?_
    · show p ∈ (delGroupSt false { st with evs := st.evs ++ [Ev.progress
        (min 100 (((pr : ℚ) + 1) / (total : ℚ) * 100))] } h).fs
      exact delGroupSt_fs_keep _ h p hp hno
    · intro j r hcrit
      have hcrit2 : delCriteria (delGroupSt false { st with evs :=
          st.evs ++ [Ev.progress (min 100 (((pr : ℚ) + 1) / (total : ℚ) *
            100))] } h).db.hashvalues j r := by
        unfold delCriteria at hcrit ⊢
        rw [hashvalues_setN, hashvalues_setS] at hcrit
        exact hcrit
      obtain ⟨r1, hcrit1, hpath1, -, -⟩ :=
        delGroupSt_criteria_rev _ h j r hcrit2
      rw [← hpath1]
      exact hno j r1 hcrit1

theorem mem_delCandidates_intro (hv : List HashRow) (j : Nat) (r : HashRow)
    (hj : hv.get? j = some r) (hdup : r.dup = some 1)
    (hdel : r.deleted = 0) : r.hash ∈ delCandidates hv := by
  have hmem : r ∈ hv := List.get?_mem hj
  apply List.mem_filter.mpr
  constructor
  · by_cases hseen : r.hash ∈ ([] : List String)
    · cases hseen
    · exact distinctHashes_complete hv [] r hmem hseen
  · simp only [decide_eq_true_eq]
    have : r ∈ hv.filter (fun r' =>
        r'.hash == r.hash && r'.dup == some 1 && r'.deleted == 0) := by
      apply List.mem_filter.mpr
      refine ⟨hmem, ?_⟩
      simp [hdup, hdel]
    calc 0 < 1 := by omega
      _ ≤ _ := List.length_pos.mpr (fun he => by rw [he] at this; cases this)

theorem deleteDuplicates_fresh_eq (dbPath : String) (db : DB)
    (fs : List String) :
    deleteDuplicates dbPath true none false false db fs =
      if (delCandidates db.hashvalues).isEmpty then
        ⟨db, fs, [Ev.status "Preparing delete operation",
          Ev.log ("Opening DB: " ++ dbPath)] ++
          [Ev.log "No duplicate groups pending deletion.",
            Ev.status "done", Ev.done], 0⟩
      else
        delLoop none false (delCandidates db.hashvalues) 0 0
          (delCandidates db.hashvalues).length false ""
          ⟨((((db.setS "operation_state" "delete_duplicates").setS
              "last_operation" "delete_duplicates").setS "del_last_hash"
              "").setN "del_processed_count" 0).setN "del_total_groups"
              (delCandidates db.hashvalues).length,
            fs,
            [Ev.status "Preparing delete operation",
              Ev.log ("Opening DB: " ++ dbPath)] ++ [] ++
              [Ev.status "Deleting duplicates"], 0⟩ := rfl

theorem deleteDuplicates_fresh_post (dbPath : String) (db : DB)
    (fs : List String) :
    ∀ j r, delCriteria (deleteDuplicates dbPath true none false false db
        fs).db.hashvalues j r →
      r.path ∉ (deleteDuplicates dbPath true none false false db fs).fs := by
  intro j r hcrit
  rw [deleteDuplicates_fresh_eq] at hcrit ⊢
  by_cases hce : (delCandidates db.hashvalues).isEmpty
  · rw [if_pos hce] at hcrit ⊢
    exfalso
    obtain ⟨hget, hdup, hdel, -, -⟩ := hcrit
    have hmem : r.hash ∈ delCandidates db.hashvalues :=
      mem_delCandidates_intro db.hashvalues j r hget hdup hdel
    have : delCandidates db.hashvalues = [] := by
      cases hx : delCandidates db.hashvalues
      · rfl
      · rw [hx] at hce; cases hce
    rw [this] at hmem
    cases hmem
  · rw [if_neg hce] at hcrit ⊢
    refine delLoop_post (delCandidates db.hashvalues) 0 0
      (delCandidates db.hashvalues).length "" _ ?_ j r hcrit
    intro j' r' hcrit'
    obtain ⟨hget, hdup, hdel, -, -⟩ := hcrit'
    left
    exact mem_delCandidates_intro db.hashvalues j' r' hget hdup hdel

/-- C1.  Corrected form.  A fresh complete run followed by a second fresh
run on the resulting database and filesystem deletes zero files the second
time (no deleted events, filesystem unchanged), and any run preserves
untouched the record that is first in _rowid_ (fetch) order among the
visible records of its hash group; if no other record shares its path, its
file also survives.  (The original claim's "lowest sequence" is refuted by
deleter_removes_lowest_sequence_counterexample: the code orders by _rowid_,
not by the row column.) -/
theorem deleter_idempotent_and_keeps_first_visible (dbPath : String)
    (db : DB) (fs : List String) :
    (deletedEvs (deleteDuplicates dbPath true none false false
        (deleteDuplicates dbPath true none false false db fs).db
        (deleteDuplicates dbPath true none false false db fs).fs).evs =
        [] ∧
      (deleteDuplicates dbPath true none false false
        (deleteDuplicates dbPath true none false false db fs).db
        (deleteDuplicates dbPath true none false false db fs).fs).fs =
        (deleteDuplicates dbPath true none false false db fs).fs) ∧
    ∀ j r, db.hashvalues.get? j = some r → visiblePath r.path = true →
      (∀ j' r', j' < j → db.hashvalues.get? j' = some r' →
        r'.hash = r.hash → visiblePath r'.path = false) →
      (deleteDuplicates dbPath true none false false
          db fs).db.hashvalues.get? j = some r ∧
        (r.path ∈ fs → (∀ j' r', db.hashvalues.get? j' = some r' →
            r'.path = r.path → j' = j) →
          r.path ∈ (deleteDuplicates dbPath true none false false db
            fs).fs) := by
  constructor
  · have hpost := deleteDuplicates_fresh_post dbPath db fs
    rw [deleteDuplicates_fresh_eq dbPath
      (deleteDuplicates dbPath true none false false db fs).db
      (deleteDuplicates dbPath true none false false db fs).fs]
    by_cases hce : (delCandidates (deleteDuplicates dbPath true none false
        false db fs).db.hashvalues).isEmpty
    · rw [if_pos hce]
      constructor
      · simp [deletedEvs, List.filter]
      · rfl
    · rw [if_neg hce]
      obtain ⟨-, hfs, hevs⟩ := delLoop_noop
        (delCandidates (deleteDuplicates dbPath true none false false db
          fs).db.hashvalues) 0 0
        (delCandidates (deleteDuplicates dbPath true none false false db
          fs).db.hashvalues).length ""
        ⟨(((((deleteDuplicates dbPath true none false false db fs).db.setS
            "operation_state" "delete_duplicates").setS
            "last_operation" "delete_duplicates").setS "del_last_hash"
            "").setN "del_processed_count" 0).setN "del_total_groups"
            (delCandidates (deleteDuplicates dbPath true none false false
              db fs).db.hashvalues).length,
          (deleteDuplicates dbPath true none false false db fs).fs,
          [Ev.status "Preparing delete operation",
            Ev.log ("Opening DB: " ++ dbPath)] ++ [] ++
            [Ev.status "Deleting duplicates"], 0⟩
        (by
          intro j r hcrit
          refine hpost j r ?_
          unfold delCriteria at hcrit ⊢
          rw [hashvalues_setN, hashvalues_setN, hashvalues_setS,
            hashvalues_setS, hashvalues_setS] at hcrit
          exact hcrit)
      refine ⟨?_, hfs⟩
      rw [hevs]
      simp [deletedEvs, List.filter]
  · intro j r hj hvis hfirst
    rw [deleteDuplicates_fresh_eq]
    by_cases hce : (delCandidates db.hashvalues).isEmpty
    · rw [if_pos hce]
      exact ⟨hj, fun hp _ => hp⟩
    · rw [if_neg hce]
      constructor
      · refine delLoop_keeps_first (delCandidates db.hashvalues) 0 0
          (delCandidates db.hashvalues).length "" _ j r ?_ hvis ?_
        · show ((_ : DB).setN "del_total_groups" _).hashvalues.get? j =
            some r
          rw [hashvalues_setN, hashvalues_setN, hashvalues_setS,
            hashvalues_setS, hashvalues_setS]
          exact hj
        · intro j' r' hlt hg hh
          refine hfirst j' r' hlt ?_ hh
          rw [hashvalues_setN, hashvalues_setN, hashvalues_setS,
            hashvalues_setS, hashvalues_setS] at hg
          exact hg
      · intro hp huniq
        refine delLoop_fs_keep (delCandidates db.hashvalues) 0 0
          (delCandidates db.hashvalues).length "" _ r.path hp ?_
        intro j2 r2 hcrit
        have hcrit' : delCriteria db.hashvalues j2 r2 := by
          unfold delCriteria at hcrit ⊢
          rw [hashvalues_setN, hashvalues_setN, hashvalues_setS,
            hashvalues_setS, hashvalues_setS] at hcrit
          exact hcrit
        obtain ⟨hget2, -, -, -, j', r', hlt, hg', hh', hv'⟩ := hcrit'
        intro hpath
        have hj2 : j2 = j := huniq j2 r2 hget2 hpath
        rw [hj2, hj] at hget2
        have hr2 : r2 = r := (Option.some.inj hget2).symm
        rw [hj2] at hlt
        rw [hr2] at hh'
        rw [hfirst j' r' hlt hg' hh'] at hv'
        cases hv'

/-- Witness for C1 on a concrete two-record group: the first visible
record and its file survive a fresh run. -/
theorem deleter_idempotent_and_keeps_first_visible_witness :
    (deleteDuplicates "f.db" true none false false dbDelFirst
        ["a", "b"]).db.hashvalues.get? 0 =
      some (HashRow.mk 0 "a" "h" (some 1) 0) ∧
    "a" ∈ (deleteDuplicates "f.db" true none false false dbDelFirst
      ["a", "b"]).fs := by
  obtain ⟨-, hb⟩ :=
    deleter_idempotent_and_keeps_first_visible "f.db" dbDelFirst ["a", "b"]
  obtain ⟨h1, h2⟩ := hb 0 (HashRow.mk 0 "a" "h" (some 1) 0) rfl (by decide)
    (fun j' r' hlt _ _ => absurd hlt (by omega))
  refine ⟨h1, h2 (by decide) ?_⟩
  intro j' r' hg hp
  rcases j' with _ | j'
  · rfl
  rcases j' with _ | j'
  · rw [← Option.some.inj hg] at hp
    exact absurd hp (by decide)
  · exact Option.noConfusion hg

theorem doneCt_append (a b : List Ev) :
    doneCt (a ++ b) = doneCt a + doneCt b := by
  simp [doneCt, List.countP_append]

theorem errCt_append (a b : List Ev) :
    errCt (a ++ b) = errCt a + errCt b := by
  simp [errCt, List.countP_append]

theorem delFiles_evs (dryRun : Bool) :
    ∀ (prs : List (Nat × String)) (st : DelSt),
      ∃ s, (delFiles dryRun prs st).evs = st.evs ++ s ∧
        doneCt s = 0 ∧ errCt s = 0 := by
  intro prs
  induction prs with
  | nil => intro st; exact ⟨[], by simp [delFiles], rfl, rfl⟩
  | cons x rest ih =>
    intro st
    unfold delFiles
    by_cases hd : dryRun
    · rw [if_pos hd]
      obtain ⟨s, hs, hds, hes⟩ := ih _
      refine ⟨[Ev.deleted x.2] ++ s, ?_, ?_, ?_⟩
      · rw [hs]; simp [List.append_assoc]
      · rw [doneCt_append, hds]; rfl
      · rw [errCt_append, hes]; rfl
    · rw [if_neg hd]
      by_cases hx : x.2 ∈ st.fs
      · rw [if_pos hx]
        obtain ⟨s, hs, hds, hes⟩ := ih _
        refine ⟨[Ev.deleted x.2] ++ s, ?_, ?_, ?_⟩
        · rw [hs]; simp [List.append_assoc]
        · rw [doneCt_append, hds]; rfl
        · rw [errCt_append, hes]; rfl
      · rw [if_neg hx]
        obtain ⟨s, hs, hds, hes⟩ := ih _
        refine ⟨[Ev.log ("Failed to delete " ++ x.2)] ++ s, ?_, ?_, ?_⟩
        · rw [hs]; simp [List.append_assoc]
        · rw [doneCt_append, hds]; rfl
        · rw [errCt_append, hes]; rfl

theorem delGroupSt_evs (dryRun : Bool) (st : DelSt) (h : String) :
    ∃ s, (delGroupSt dryRun st h).evs = st.evs ++ s ∧
      doneCt s = 0 ∧ errCt s = 0 := by
  unfold delGroupSt
  by_cases hvempty : (delVisOf st.db.hashvalues h).isEmpty
  · rw [if_pos hvempty]
    exact ⟨[], by simp, rfl, rfl⟩
  · rw [if_neg hvempty]
    exact delFiles_evs dryRun _ st

theorem delLoop_evs_class (cancelFrom : Option Nat) (dryRun : Bool) :
    ∀ (cs : List String) (i pr total : Nat) (skipping : Bool)
      (lastHash : String) (st : DelSt),
      ∃ s, (delLoop cancelFrom dryRun cs i pr total skipping lastHash
          st).evs = st.evs ++ s ∧
        ((∃ mid, s = mid ++ [Ev.done] ∧ doneCt mid = 0 ∧ errCt mid = 0) ∨
          (∃ mid, s = mid ++ [Ev.status "cancelled"] ∧ doneCt mid = 0 ∧
            errCt mid = 0)) := by
  intro cs
  induction cs with
  | nil =>
    intro i pr total skipping lastHash st
    refine ⟨[Ev.status "done", Ev.log ("Delete operation complete. " ++
      "Deleted " ++ toString st.cnt ++ " files."), Ev.done], ?_, ?_⟩
    · show st.evs ++ _ = st.evs ++ _
      simp [delLoop]
    · exact Or.inl ⟨[Ev.status "done", Ev.log ("Delete operation " ++
        "complete. Deleted " ++ toString st.cnt ++ " files.")],
        by simp, rfl, rfl⟩
  | cons h rest ih =>
    intro i pr total skipping lastHash st
    simp only [delLoop]
    cases hc : cancelHit cancelFrom i with
    | true =>
      simp only [if_true]
      refine ⟨[Ev.log "Delete operation cancelled by user",
        Ev.status "cancelled"], rfl, Or.inr
        ⟨[Ev.log "Delete operation cancelled by user"], rfl, rfl, rfl⟩⟩
    | false =>
      simp only [Bool.false_eq_true, if_false]
      cases skipping with
      | true =>
        simp only [if_true]
        exact ih (i + 1) (pr + 1) total (!(h == lastHash)) lastHash st
      | false =>
        simp only [Bool.false_eq_true, if_false]
        obtain ⟨s2, hs2, hd2, he2⟩ := delGroupSt_evs dryRun
          { st with evs := st.evs ++ [Ev.progress (min 100
              (((pr : ℚ) + 1) / (total : ℚ) * 100))] } h
        obtain ⟨s3, hs3, hcls⟩ := ih (i + 1) (pr + 1) total false lastHash
          { delGroupSt dryRun { st with evs := st.evs ++ [Ev.progress
              (min 100 (((pr : ℚ) + 1) / (total : ℚ) * 100))] } h with
            db := (((delGroupSt dryRun { st with evs := st.evs ++
                [Ev.progress (min 100 (((pr : ℚ) + 1) / (total : ℚ) *
                  100))] } h).db.setS "del_last_hash" h).setN
              "del_processed_count" (pr + 1)) }
        refine ⟨[Ev.progress (min 100 (((pr : ℚ) + 1) / (total : ℚ) *
          100))] ++ s2 ++ s3, ?_, ?_⟩
        · rw [hs3]
          show (delGroupSt dryRun _ h).evs ++ s3 = _
          rw [hs2]
          show st.evs ++ _ ++ s2 ++ s3 = _
          simp [List.append_assoc]
        · rcases hcls with ⟨mid, hm, hdm, hem⟩ | ⟨mid, hm, hdm, hem⟩
          · refine Or.inl ⟨[Ev.progress (min 100 (((pr : ℚ) + 1) /
              (total : ℚ) * 100))] ++ s2 ++ mid, ?_, ?_, ?_⟩
            · rw [hm]; simp [List.append_assoc]
            · rw [doneCt_append, doneCt_append, hd2, hdm]; rfl
            · rw [errCt_append, errCt_append, he2, hem]; rfl
          · refine Or.inr ⟨[Ev.progress (min 100 (((pr : ℚ) + 1) /
              (total : ℚ) * 100))] ++ s2 ++ mid, ?_, ?_, ?_⟩
            · rw [hm]; simp [List.append_assoc]
            · rw [doneCt_append, doneCt_append, hd2, hdm]; rfl
            · rw [errCt_append, errCt_append, he2, hem]; rfl

theorem pruneDir_evs (dryRun : Bool) (rmFail : List String → Bool)
    (total : Nat) (cpath : List String) (t : DirTree) (st : PrSt) :
    ∃ s, (pruneDir dryRun rmFail total cpath t st).evs = st.evs ++ s ∧
      doneCt s = 0 ∧
      (pruneDir dryRun rmFail total cpath t st).stopped = st.stopped ∧
      (pruneDir dryRun rmFail total cpath t st).i = st.i := by
  simp only [pruneDir]
  by_cases h1 : prEmptyNow st.deleted cpath t
  · simp only [h1, if_true]
    by_cases h2 : dryRun
    · simp only [h2, if_true]
      exact ⟨[Ev.log ("[DRY RUN] Would delete: " ++ pathStr cpath),
        Ev.progress (((st.processed : ℚ) + 1) / (total : ℚ) * 100)],
        by simp, by trivial, by trivial, by trivial⟩
    · simp only [h2, Bool.false_eq_true, if_false]
      by_cases h3 : rmFail cpath
      · simp only [h3, if_true]
        exact ⟨[Ev.error ("Failed to delete " ++ pathStr cpath),
          Ev.progress (((st.processed : ℚ) + 1) / (total : ℚ) * 100)],
          by simp, by trivial, by trivial, by trivial⟩
      · simp only [h3, Bool.false_eq_true, if_false]
        exact ⟨[Ev.log ("Deleted empty folder: " ++ pathStr cpath),
          Ev.progress (((st.processed : ℚ) + 1) / (total : ℚ) * 100)],
          by simp, by trivial, by trivial, by trivial⟩
  · simp only [h1, Bool.false_eq_true, if_false]
    exact ⟨[Ev.log ("Not empty: " ++ pathStr cpath),
      Ev.progress (((st.processed : ℚ) + 1) / (total : ℚ) * 100)],
      by simp, by trivial, by trivial, by trivial⟩

theorem pruneDirsList_evs (dryRun : Bool) (rmFail : List String → Bool)
    (total : Nat) :
    ∀ (n : Nat) (subs : SubList), sizeSubs subs ≤ n →
      ∀ (p : List String) (st : PrSt),
        ∃ s, (pruneDirsList dryRun rmFail total p subs st).evs =
            st.evs ++ s ∧
          doneCt s = 0 ∧
          (pruneDirsList dryRun rmFail total p subs st).stopped =
            st.stopped ∧
          (pruneDirsList dryRun rmFail total p subs st).i = st.i := by
  intro n
  induction n with
  | zero =>
    intro subs hsz p st
    cases subs with
    | nil => exact ⟨[], by simp [pruneDirsList], rfl, rfl, rfl⟩
    | cons nm t rest => simp [sizeSubs] at hsz
  | succ n ih =>
    intro subs hsz p st
    cases subs with
    | nil => exact ⟨[], by simp [pruneDirsList], rfl, rfl, rfl⟩
    | cons nm t rest =>
      simp only [pruneDirsList]
      obtain ⟨s1, hs1, hd1, hst1, hi1⟩ :=
        pruneDir_evs dryRun rmFail total (p ++ [nm]) t st
      obtain ⟨s2, hs2, hd2, hst2, hi2⟩ := ih rest
        (by simp [sizeSubs] at hsz; omega) p
        (pruneDir dryRun rmFail total (p ++ [nm]) t st)
      refine ⟨s1 ++ s2, ?_, ?_, ?_, ?_⟩
      · rw [hs2, hs1]; simp [List.append_assoc]
      · rw [doneCt_append, hd1, hd2]
      · rw [hst2, hst1]
      · rw [hi2, hi1]

theorem pruneTuple_stopped (cancelFrom : Option Nat) (dryRun : Bool)
    (rmFail : List String → Bool) (total : Nat) (p : List String)
    (subs : SubList) (st : PrSt) (hst : st.stopped = true) :
    pruneTuple cancelFrom dryRun rmFail total p subs st = st := by
  unfold pruneTuple
  rw [if_pos hst]

theorem pruneTuple_class (cancelFrom : Option Nat) (dryRun : Bool)
    (rmFail : List String → Bool) (total : Nat) (p : List String)
    (subs : SubList) (st : PrSt) (hst : st.stopped = false) :
    ∃ s, (pruneTuple cancelFrom dryRun rmFail total p subs st).evs =
        st.evs ++ s ∧
      (((pruneTuple cancelFrom dryRun rmFail total p subs st).stopped =
          false ∧ doneCt s = 0) ∨
        ((pruneTuple cancelFrom dryRun rmFail total p subs st).stopped =
          true ∧ ∃ mid, s = mid ++ [Ev.status "Cancelled by user.",
            Ev.done] ∧ doneCt mid = 0)) := by
  unfold pruneTuple
  rw [if_neg (by rw [hst]; exact Bool.false_ne_true)]
  by_cases hc : cancelHit cancelFrom st.i
  · rw [if_pos hc]
    exact ⟨[Ev.status "Cancelled by user.", Ev.done], rfl,
      Or.inr ⟨rfl, [], rfl, rfl⟩⟩
  · rw [if_neg hc]
    obtain ⟨s, hs, hd, hstp, -⟩ := pruneDirsList_evs dryRun rmFail total
      (sizeSubs subs) subs le_rfl p st
    exact ⟨s, hs, Or.inl ⟨by rw [← hst]; exact hstp, hd⟩⟩

theorem pruneRun_stopped (cancelFrom : Option Nat) (dryRun : Bool)
    (rmFail : List String → Bool) (total : Nat) :
    ∀ (ts : List (List String × SubList)) (st : PrSt),
      st.stopped = true →
      pruneRun cancelFrom dryRun rmFail total ts st = st := by
  intro ts
  induction ts with
  | nil => intro st _; rfl
  | cons x rest ih =>
    intro st hst
    show pruneRun cancelFrom dryRun rmFail total rest
      (pruneTuple cancelFrom dryRun rmFail total x.1 x.2 st) = st
    rw [pruneTuple_stopped cancelFrom dryRun rmFail total x.1 x.2 st hst]
    exact ih st hst

theorem pruneRun_class (cancelFrom : Option Nat) (dryRun : Bool)
    (rmFail : List String → Bool) (total : Nat) :
    ∀ (ts : List (List String × SubList)) (st : PrSt),
      st.stopped = false →
      ∃ s, (pruneRun cancelFrom dryRun rmFail total ts st).evs =
          st.evs ++ s ∧
        (((pruneRun cancelFrom dryRun rmFail total ts st).stopped =
            false ∧ doneCt s = 0) ∨
          ((pruneRun cancelFrom dryRun rmFail total ts st).stopped =
            true ∧ ∃ mid, s = mid ++ [Ev.status "Cancelled by user.",
              Ev.done] ∧ doneCt mid = 0)) := by
  intro ts
  induction ts with
  | nil =>
    intro st hst
    exact ⟨[], by rw [List.append_nil]; rfl, Or.inl ⟨hst, rfl⟩⟩
  | cons x rest ih =>
    intro st hst
    show ∃ s, (pruneRun cancelFrom dryRun rmFail total rest
        (pruneTuple cancelFrom dryRun rmFail total x.1 x.2 st)).evs =
        st.evs ++ s ∧
      (((pruneRun cancelFrom dryRun rmFail total rest
          (pruneTuple cancelFrom dryRun rmFail total x.1 x.2
            st)).stopped = false ∧ doneCt s = 0) ∨
        ((pruneRun cancelFrom dryRun rmFail total rest
          (pruneTuple cancelFrom dryRun rmFail total x.1 x.2
            st)).stopped = true ∧ ∃ mid, s = mid ++
              [Ev.status "Cancelled by user.", Ev.done] ∧
            doneCt mid = 0))
    obtain ⟨s1, hs1, hcls1⟩ :=
      pruneTuple_class cancelFrom dryRun rmFail total x.1 x.2 st hst
    rcases hcls1 with ⟨hstp1, hd1⟩ | ⟨hstp1, mid1, hm1, hdm1⟩
    · obtain ⟨s2, hs2, hcls2⟩ := ih _ hstp1
      rcases hcls2 with ⟨hstp2, hd2⟩ | ⟨hstp2, mid2, hm2, hdm2⟩
      · refine ⟨s1 ++ s2, ?_, Or.inl ⟨hstp2, ?_⟩⟩
        · rw [hs2, hs1, List.append_assoc]
        · rw [doneCt_append, hd1, hd2]
      · refine ⟨s1 ++ s2, ?_, Or.inr ⟨hstp2, s1 ++ mid2, ?_, ?_⟩⟩
        · rw [hs2, hs1, List.append_assoc]
        · rw [hm2, List.append_assoc]
        · rw [doneCt_append, hd1, hdm2]
    · rw [pruneRun_stopped cancelFrom dryRun rmFail total rest _ hstp1]
      exact ⟨s1, hs1, Or.inr ⟨hstp1, mid1, hm1, hdm1⟩⟩

/-- C8 is refuted by the empty-folder pruner: a cancelled run emits done
right after the cancellation status (and never a status cancelled event),
and a failed per-item rmdir is reported as a mid-stream error event in a
run that still terminates with done. -/
theorem pruner_stream_taxonomy_counterexample :
    ((deleteEmptyFolders true "r" (some 0) false (fun _ => false)
        tPrune).getLast? = some Ev.done ∧
      Ev.status "Cancelled by user." ∈ deleteEmptyFolders true "r"
        (some 0) false (fun _ => false) tPrune ∧
      Ev.status "cancelled" ∉ deleteEmptyFolders true "r" (some 0) false
        (fun _ => false) tPrune) ∧
    (Ev.error "Failed to delete r/a" ∈ deleteEmptyFolders true "r" none
        false (fun _ => true) tPrune ∧
      (deleteEmptyFolders true "r" none false (fun _ => true)
        tPrune).getLast? = some Ev.done) := by decide

theorem getLast?_append_two (l : List Ev) (a b : Ev) :
    (l ++ [a, b]).getLast? = some b := by
  rw [show l ++ [a, b] = (l ++ [a]) ++ [b] from by simp]
  exact List.getLast?_concat _

/-- C8.  Corrected form.  The duplicate deleter follows the claimed
taxonomy: a missing database yields an error and a status error with no
done; otherwise the stream either ends with exactly one done and contains
no error events (per-item remove failures surface as log events), or -
when cancellation is observed - ends at a status cancelled event with no
done and no error.  The empty-folder pruner does not: apart from the
missing-directory error stream, every pruner stream terminates with
exactly one done, including cancelled runs (which emit the status
Cancelled by user. and then done), and failed rmdir calls yield
mid-stream error events. -/
theorem job_stream_termination_taxonomy :
    (∀ (dbPath : String) (dbExists : Bool) (cancelFrom : Option Nat)
      (resume dryRun : Bool) (db : DB) (fs : List String),
      (dbExists = false →
        (deleteDuplicates dbPath dbExists cancelFrom resume dryRun db
          fs).evs = [Ev.error ("Database not found: " ++ dbPath),
            Ev.status "error"]) ∧
      (dbExists = true →
        ((deleteDuplicates dbPath dbExists cancelFrom resume dryRun db
              fs).evs.getLast? = some Ev.done ∧
            doneCt (deleteDuplicates dbPath dbExists cancelFrom resume
              dryRun db fs).evs = 1 ∧
            errCt (deleteDuplicates dbPath dbExists cancelFrom resume
              dryRun db fs).evs = 0) ∨
          ((deleteDuplicates dbPath dbExists cancelFrom resume dryRun db
              fs).evs.getLast? = some (Ev.status "cancelled") ∧
            doneCt (deleteDuplicates dbPath dbExists cancelFrom resume
              dryRun db fs).evs = 0 ∧
            errCt (deleteDuplicates dbPath dbExists cancelFrom resume
              dryRun db fs).evs = 0))) ∧
    (∀ (startdir : String) (dirExists : Bool) (cancelFrom : Option Nat)
      (dryRun : Bool) (rmFail : List String → Bool) (t : DirTree),
      (dirExists = false →
        deleteEmptyFolders dirExists startdir cancelFrom dryRun rmFail
          t = [Ev.error ("Directory does not exist: " ++ startdir)]) ∧
      (dirExists = true →
        (deleteEmptyFolders dirExists startdir cancelFrom dryRun rmFail
            t).getLast? = some Ev.done ∧
          doneCt (deleteEmptyFolders dirExists startdir cancelFrom dryRun
            rmFail t) = 1)) := by
  constructor
  · intro dbPath dbExists cancelFrom resume dryRun db fs
    constructor
    · intro h
      subst h
      rfl
    · intro h
      subst h
      cases resume with
      | false =>
        have hu : deleteDuplicates dbPath true cancelFrom false dryRun
            db fs =
            if (delCandidates db.hashvalues).isEmpty then
              ⟨db, fs, [Ev.status "Preparing delete operation",
                Ev.log ("Opening DB: " ++ dbPath)] ++
                [Ev.log "No duplicate groups pending deletion.",
                  Ev.status "done", Ev.done], 0⟩
            else
              delLoop cancelFrom dryRun (delCandidates db.hashvalues) 0 0
                (delCandidates db.hashvalues).length false ""
                ⟨((((db.setS "operation_state"
                    "delete_duplicates").setS "last_operation"
                    "delete_duplicates").setS "del_last_hash" "").setN
                    "del_processed_count" 0).setN "del_total_groups"
                    (delCandidates db.hashvalues).length,
                  fs,
                  [Ev.status "Preparing delete operation",
                    Ev.log ("Opening DB: " ++ dbPath)] ++ [] ++
                    [Ev.status "Deleting duplicates"], 0⟩ := rfl
        rw [hu]
        by_cases hce : (delCandidates db.hashvalues).isEmpty
        · rw [if_pos hce]
          exact Or.inl ⟨rfl, rfl, rfl⟩
        · rw [if_neg hce]
          obtain ⟨s, hs, hcls⟩ := delLoop_evs_class cancelFrom dryRun
            (delCandidates db.hashvalues) 0 0
            (delCandidates db.hashvalues).length false ""
            ⟨((((db.setS "operation_state" "delete_duplicates").setS
                "last_operation" "delete_duplicates").setS
                "del_last_hash" "").setN "del_processed_count" 0).setN
                "del_total_groups" (delCandidates db.hashvalues).length,
              fs,
              [Ev.status "Preparing delete operation",
                Ev.log ("Opening DB: " ++ dbPath)] ++ [] ++
                [Ev.status "Deleting duplicates"], 0⟩
          rw [hs]
          have hd1 : doneCt [Ev.done] = 1 := rfl
          have he1 : errCt [Ev.done] = 0 := rfl
          have hd2 : doneCt [Ev.status "cancelled"] = 0 := rfl
          have he2 : errCt [Ev.status "cancelled"] = 0 := rfl
          have hdp : doneCt [Ev.status "Preparing delete operation",
            Ev.log ("Opening DB: " ++ dbPath)] = 0 := rfl
          have hep : errCt [Ev.status "Preparing delete operation",
            Ev.log ("Opening DB: " ++ dbPath)] = 0 := rfl
          have hds : doneCt [Ev.status "Deleting duplicates"] = 0 := rfl
          have hes : errCt [Ev.status "Deleting duplicates"] = 0 := rfl
          have hdn : doneCt ([] : List Ev) = 0 := rfl
          have hen : errCt ([] : List Ev) = 0 := rfl
          rcases hcls with ⟨mid, hm, hdm, hem⟩ | ⟨mid, hm, hdm, hem⟩
          · refine Or.inl ⟨?_, ?_, ?_⟩
            · rw [hm, ← List.append_assoc]
              exact List.getLast?_concat _
            · rw [hm]
              simp only [doneCt_append]
              omega
            · rw [hm]
              simp only [errCt_append]
              omega
          · refine Or.inr ⟨?_, ?_, ?_⟩
            · rw [hm, ← List.append_assoc]
              exact List.getLast?_concat _
            · rw [hm]
              simp only [doneCt_append]
              omega
            · rw [hm]
              simp only [errCt_append]
              omega
      | true =>
        have hu : deleteDuplicates dbPath true cancelFrom true dryRun
            db fs =
            if (delCandidates db.hashvalues).isEmpty then
              ⟨db, fs, [Ev.status "Preparing delete operation",
                Ev.log ("Opening DB: " ++ dbPath)] ++
                [Ev.log "No duplicate groups pending deletion.",
                  Ev.status "done", Ev.done], 0⟩
            else
              delLoop cancelFrom dryRun (delCandidates db.hashvalues) 0
                (min (db.getN "del_processed_count" 0)
                  (delCandidates db.hashvalues).length)
                (delCandidates db.hashvalues).length
                (true && !((db.getS "del_last_hash" "") == ""))
                (db.getS "del_last_hash" "")
                ⟨db, fs,
                  [Ev.status "Preparing delete operation",
                    Ev.log ("Opening DB: " ++ dbPath)] ++
                    [Ev.log (if (db.getS "del_last_hash" "") == "" then
                      "Resuming delete"
                      else "Resuming delete at hash: " ++
                        db.getS "del_last_hash" "")] ++
                    [Ev.status "Deleting duplicates"], 0⟩ := rfl
        rw [hu]
        by_cases hce : (delCandidates db.hashvalues).isEmpty
        · rw [if_pos hce]
          exact Or.inl ⟨rfl, rfl, rfl⟩
        · rw [if_neg hce]
          obtain ⟨s, hs, hcls⟩ := delLoop_evs_class cancelFrom dryRun
            (delCandidates db.hashvalues) 0
            (min (db.getN "del_processed_count" 0)
              (delCandidates db.hashvalues).length)
            (delCandidates db.hashvalues).length
            (true && !((db.getS "del_last_hash" "") == ""))
            (db.getS "del_last_hash" "")
            ⟨db, fs,
              [Ev.status "Preparing delete operation",
                Ev.log ("Opening DB: " ++ dbPath)] ++
                [Ev.log (if (db.getS "del_last_hash" "") == "" then
                  "Resuming delete"
                  else "Resuming delete at hash: " ++
                    db.getS "del_last_hash" "")] ++
                [Ev.status "Deleting duplicates"], 0⟩
          rw [hs]
          have hd1 : doneCt [Ev.done] = 1 := rfl
          have he1 : errCt [Ev.done] = 0 := rfl
          have hd2 : doneCt [Ev.status "cancelled"] = 0 := rfl
          have he2 : errCt [Ev.status "cancelled"] = 0 := rfl
          have hdp : doneCt [Ev.status "Preparing delete operation",
            Ev.log ("Opening DB: " ++ dbPath)] = 0 := rfl
          have hep : errCt [Ev.status "Preparing delete operation",
            Ev.log ("Opening DB: " ++ dbPath)] = 0 := rfl
          have hds : doneCt [Ev.status "Deleting duplicates"] = 0 := rfl
          have hes : errCt [Ev.status "Deleting duplicates"] = 0 := rfl
          have hdl : doneCt [Ev.log (if (db.getS "del_last_hash" "") ==
              "" then "Resuming delete"
              else "Resuming delete at hash: " ++
                db.getS "del_last_hash" "")] = 0 := by
            by_cases hl : (db.getS "del_last_hash" "") == ""
            · rw [if_pos hl]
              rfl
            · rw [if_neg hl]
              rfl
          have hel : errCt [Ev.log (if (db.getS "del_last_hash" "") ==
              "" then "Resuming delete"
              else "Resuming delete at hash: " ++
                db.getS "del_last_hash" "")] = 0 := by
            by_cases hl : (db.getS "del_last_hash" "") == ""
            · rw [if_pos hl]
              rfl
            · rw [if_neg hl]
              rfl
          rcases hcls with ⟨mid, hm, hdm, hem⟩ | ⟨mid, hm, hdm, hem⟩
          · refine Or.inl ⟨?_, ?_, ?_⟩
            · rw [hm, ← List.append_assoc]
              exact List.getLast?_concat _
            · rw [hm]
              simp only [doneCt_append]
              omega
            · rw [hm]
              simp only [errCt_append]
              omega
          · refine Or.inr ⟨?_, ?_, ?_⟩
            · rw [hm, ← List.append_assoc]
              exact List.getLast?_concat _
            · rw [hm]
              simp only [doneCt_append]
              omega
            · rw [hm]
              simp only [errCt_append]
              omega
  · intro startdir dirExists cancelFrom dryRun rmFail t
    constructor
    · intro h
      subst h
      rfl
    · intro h
      subst h
      by_cases hce : (cntT t == 0) = true
      · have hu : deleteEmptyFolders true startdir cancelFrom dryRun
            rmFail t = [Ev.status ("Scanning for empty folders under: "
              ++ startdir)] ++
            [Ev.status "No subdirectories found.", Ev.done] := by
          show (if (cntT t == 0) = true then _ else _) = _
          rw [if_pos hce]
        rw [hu]
        exact ⟨rfl, rfl⟩
      · have hu : deleteEmptyFolders true startdir cancelFrom dryRun
            rmFail t =
            (if (pruneRun cancelFrom dryRun rmFail (cntT t)
                (tuplesT [startdir] t)
                ⟨[], [Ev.status ("Scanning for empty folders under: " ++
                  startdir)] ++ [Ev.log ("Found " ++ toString (cntT t) ++
                    " directories to evaluate."),
                  Ev.status "Evaluating directories..."], 0, 0, 0,
                  false⟩).stopped = true then
              (pruneRun cancelFrom dryRun rmFail (cntT t)
                (tuplesT [startdir] t)
                ⟨[], [Ev.status ("Scanning for empty folders under: " ++
                  startdir)] ++ [Ev.log ("Found " ++ toString (cntT t) ++
                    " directories to evaluate."),
                  Ev.status "Evaluating directories..."], 0, 0, 0,
                  false⟩).evs
            else
              (pruneRun cancelFrom dryRun rmFail (cntT t)
                (tuplesT [startdir] t)
                ⟨[], [Ev.status ("Scanning for empty folders under: " ++
                  startdir)] ++ [Ev.log ("Found " ++ toString (cntT t) ++
                    " directories to evaluate."),
                  Ev.status "Evaluating directories..."], 0, 0, 0,
                  false⟩).evs ++
                [Ev.status ("Deletion complete. Removed " ++
                  toString (pruneRun cancelFrom dryRun rmFail (cntT t)
                    (tuplesT [startdir] t)
                    ⟨[], [Ev.status ("Scanning for empty folders under: "
                      ++ startdir)] ++ [Ev.log ("Found " ++
                        toString (cntT t) ++
                        " directories to evaluate."),
                      Ev.status "Evaluating directories..."], 0, 0, 0,
                      false⟩).cnt ++ " empty folders."), Ev.done]) := by
          show (if (cntT t == 0) = true then _ else _) = _
          rw [if_neg hce]
        rw [hu]
        obtain ⟨s, hs, hcls⟩ := pruneRun_class cancelFrom dryRun rmFail
          (cntT t) (tuplesT [startdir] t)
          ⟨[], [Ev.status ("Scanning for empty folders under: " ++
            startdir)] ++ [Ev.log ("Found " ++ toString (cntT t) ++
              " directories to evaluate."),
            Ev.status "Evaluating directories..."], 0, 0, 0, false⟩ rfl
        have hdp : doneCt [Ev.status ("Scanning for empty folders under: "
          ++ startdir)] = 0 := rfl
        have hdl : doneCt [Ev.log ("Found " ++ toString (cntT t) ++
          " directories to evaluate."),
          Ev.status "Evaluating directories..."] = 0 := rfl
        rcases hcls with ⟨hstp, hd⟩ | ⟨hstp, mid, hm, hdm⟩
        · rw [if_neg (by rw [hstp]; exact Bool.false_ne_true), hs]
          constructor
          · exact getLast?_append_two _ _ _
          · simp only [doneCt_append]
            have hend : doneCt [Ev.status ("Deletion complete. Removed "
              ++ toString (pruneRun cancelFrom dryRun rmFail
                (cntT t) (tuplesT [startdir] t)
                ⟨[], [Ev.status ("Scanning for empty folders under: "
                  ++ startdir)] ++ [Ev.log ("Found " ++
                    toString (cntT t) ++
                    " directories to evaluate."),
                  Ev.status "Evaluating directories..."], 0, 0, 0,
                  false⟩).cnt ++ " empty folders."), Ev.done] = 1 := rfl
            omega
        · rw [if_pos hstp, hs, hm]
          constructor
          · rw [← List.append_assoc]
            exact getLast?_append_two _ _ _
          · simp only [doneCt_append]
            have hend : doneCt [Ev.status "Cancelled by user.",
              Ev.done] = 1 := rfl
            omega

/-- Witness for C8 at concrete inputs: both missing-target streams. -/
theorem job_stream_termination_taxonomy_witness :
    (deleteDuplicates "x.db" false none false false ⟨[], [], []⟩ []).evs =
      [Ev.error ("Database not found: " ++ "x.db"),
        Ev.status "error"] ∧
    deleteEmptyFolders false "r" none false (fun _ => false)
      (DirTree.node SubList.nil []) =
      [Ev.error ("Directory does not exist: " ++ "r")] := by
  obtain ⟨hdel, hpr⟩ := job_stream_termination_taxonomy
  exact ⟨(hdel "x.db" false none false false ⟨[], [], []⟩ []).1 rfl,
    (hpr "r" false none false (fun _ => false)
      (DirTree.node SubList.nil [])).1 rfl⟩

/-- C3.  The skip-duplicates policy on a database holding no identity
record at all for the file's hash: the processing phase first inserts the
file's own identity record (insert_or_update_hashvalue, line 852) and
only then counts records with the hash (line 857), so the count is at
least 1 and the entry - whose hash is carried by no record other than its
own - is marked duplicate and skipped rather than copied, contradicting
the claimed behaviour. -/
theorem copier_skip_policy_self_match_bug :
    ((groupFiles true true "o" "d" "m" false false false none
        (fun c => c) ["o/a.txt"] ⟨[], [], []⟩
        [("o/a.txt", "CA")]).db.filegroups.get? 0 =
      some ⟨"o/a.txt", none, "a.txt", "dot txt", none, 0, some 1⟩) ∧
    Ev.skippedDup "o/a.txt" ∈ (groupFiles true true "o" "d" "m" false
      false false none (fun c => c) ["o/a.txt"] ⟨[], [], []⟩
      [("o/a.txt", "CA")]).evs ∧
    Ev.copied "o/a.txt" ∉ (groupFiles true true "o" "d" "m" false false
      false none (fun c => c) ["o/a.txt"] ⟨[], [], []⟩
      [("o/a.txt", "CA")]).evs := by decide

/-- C6 counterexample: entry 2 ends with copied=1 and hash B, but the
file at its destinationpath was copied there from entry 1 and has
content identity A: safe_copy with overwrite=False refuses the second
copy and the destination-exists fallback of line 905 adopts the entry as
copied anyway. -/
theorem copier_copied_hash_mismatch_counterexample :
    (groupFiles true true "o" "d" "m" false true false none (fun c => c)
        [] dbFgSeed fsFgSeed).db.filegroups.get? 1 =
      some ⟨"o/b/x.txt", some "d/dot txt/x.txt", "x.txt", "dot txt",
        some "B", 1, none⟩ ∧
    fsLookup (groupFiles true true "o" "d" "m" false true false none
      (fun c => c) [] dbFgSeed fsFgSeed).fs "d/dot txt/x.txt" =
      some "A" := by decide

theorem fsLookup_isSome_mem (fs : List (String × String)) (p : String)
    (h : (fsLookup fs p).isSome = true) : p ∈ fsPaths fs := by
  unfold fsLookup at h
  cases hf : fs.find? (fun pc => pc.1 == p) with
  | none => rw [hf] at h; cases h
  | some pc =>
    have hm := List.find?_some hf
    have hmem := List.mem_of_find?_eq_some hf
    simp only [beq_iff_eq] at hm
    rw [← hm]
    exact List.mem_map_of_mem Prod.fst hmem

theorem safeCopy_false (fs : List (String × String)) (src dst : String)
    (h : (safeCopy fs src dst).1 = false) :
    (safeCopy fs src dst).2 = fs := by
  unfold safeCopy at *
  by_cases h1 : (fsLookup fs dst).isSome
  · rw [if_pos h1]
  · rw [if_neg h1] at h ⊢
    cases hs : fsLookup fs src with
    | none => rfl
    | some c => rw [hs] at h; cases h

theorem safeCopy_true (fs : List (String × String)) (src dst : String)
    (h : (safeCopy fs src dst).1 = true) :
    dst ∈ fsPaths (safeCopy fs src dst).2 ∧
      ∀ p, p ∈ fsPaths fs → p ∈ fsPaths (safeCopy fs src dst).2 := by
  unfold safeCopy at *
  by_cases h1 : (fsLookup fs dst).isSome
  · rw [if_pos h1] at h; cases h
  · rw [if_neg h1] at h ⊢
    cases hs : fsLookup fs src with
    | none =>
      rw [hs] at h
      exact Bool.noConfusion h
    | some c =>
      constructor
      · show dst ∈ fsPaths (fs ++ [(dst, c)])
        unfold fsPaths
        rw [List.map_append]
        exact List.mem_append_right _ (by simp)
      · intro p hp
        show p ∈ fsPaths (fs ++ [(dst, c)])
        unfold fsPaths at hp ⊢
        rw [List.map_append]
        exact List.mem_append_left _ hp

theorem updateFilegroupCopied_get? (fg : List FGRow) (p d : String)
    (j : Nat) (r' : FGRow)
    (h : (updateFilegroupCopied fg p d).get? j = some r') :
    ∃ r0, fg.get? j = some r0 ∧
      (r' = r0 ∨ (r'.copied = 1 ∧ r'.destinationpath = some d)) := by
  unfold updateFilegroupCopied at h
  rw [List.get?_map] at h
  cases hj : fg.get? j with
  | none => rw [hj] at h; cases h
  | some r0 =>
    rw [hj] at h
    have h2 : (if (r0.originpath == p) = true then
        { r0 with copied := 1, destinationpath := some d } else r0) =
        r' := Option.some.inj h
    refine ⟨r0, rfl, ?_⟩
    by_cases hc : (r0.originpath == p) = true
    · rw [if_pos hc] at h2
      right
      rw [← h2]
      exact ⟨rfl, rfl⟩
    · rw [if_neg hc] at h2
      left
      exact h2.symm

theorem setFilegroupDuplicate_get? (fg : List FGRow) (p : String)
    (j : Nat) (r' : FGRow)
    (h : (setFilegroupDuplicate fg p).get? j = some r') :
    ∃ r0, fg.get? j = some r0 ∧ r'.copied = r0.copied ∧
      r'.destinationpath = r0.destinationpath := by
  unfold setFilegroupDuplicate at h
  rw [List.get?_map] at h
  cases hj : fg.get? j with
  | none => rw [hj] at h; cases h
  | some r0 =>
    rw [hj] at h
    have h2 : (if (r0.originpath == p) = true then
        { r0 with dup := some 1 } else r0) = r' := Option.some.inj h
    refine ⟨r0, rfl, ?_⟩
    by_cases hc : (r0.originpath == p) = true
    · rw [if_pos hc] at h2
      rw [← h2]
      exact ⟨rfl, rfl⟩
    · rw [if_neg hc] at h2
      rw [← h2]
      exact ⟨rfl, rfl⟩

theorem fgCopy_post (dryRun : Bool) (origin destpath : String)
    (fh : Option String) (procTotal : Nat) (db1 : DB) (st0 : FgSt) :
    (∀ p, p ∈ fsPaths st0.fs →
      p ∈ fsPaths (fgCopy dryRun origin destpath fh procTotal db1
        st0).fs) ∧
    (∀ j r', (fgCopy dryRun origin destpath fh procTotal db1
        st0).db.filegroups.get? j = some r' →
      (∃ r0, db1.filegroups.get? j = some r0 ∧
        r0.copied = r'.copied ∧
        r0.destinationpath = r'.destinationpath) ∨
      (r'.copied = 1 ∧ ∃ d, r'.destinationpath = some d ∧
        d ∈ fsPaths (fgCopy dryRun origin destpath fh procTotal db1
          st0).fs)) := by
  simp only [fgCopy]
  split
  next hdry =>
    split
    next hcp => exact absurd hcp (fun h => Bool.noConfusion h)
    next hcp =>
      split
      next hex =>
        constructor
        · intro p hp
          exact hp
        · intro j r' hj
          obtain ⟨r0, h0, hor⟩ := updateFilegroupCopied_get? _ _ _ j r' hj
          rcases hor with he | ⟨hc1, hd1⟩
          · exact Or.inl ⟨r0, h0, by rw [he], by rw [he]⟩
          · exact Or.inr ⟨hc1, _, hd1, fsLookup_isSome_mem _ _ hex⟩
      next hex =>
        constructor
        · intro p hp
          exact hp
        · intro j r' hj
          exact Or.inl ⟨r', hj, rfl, rfl⟩
  next hdry =>
    split
    next hcp =>
      obtain ⟨hin, hmono⟩ := safeCopy_true _ _ _ hcp
      constructor
      · intro p hp
        exact hmono p hp
      · intro j r' hj
        obtain ⟨r0, h0, hor⟩ := updateFilegroupCopied_get? _ _ _ j r' hj
        rcases hor with he | ⟨hc1, hd1⟩
        · exact Or.inl ⟨r0, h0, by rw [he], by rw [he]⟩
        · exact Or.inr ⟨hc1, _, hd1, hin⟩
    next hcp =>
      have hcp' : (safeCopy st0.fs origin destpath).1 = false := by
        revert hcp
        cases (safeCopy st0.fs origin destpath).1 <;> simp
      have h2 := safeCopy_false _ _ _ hcp'
      split
      next hex =>
        constructor
        · intro p hp
          rw [h2]
          exact hp
        · intro j r' hj
          obtain ⟨r0, h0, hor⟩ := updateFilegroupCopied_get? _ _ _ j r' hj
          rcases hor with he | ⟨hc1, hd1⟩
          · exact Or.inl ⟨r0, h0, by rw [he], by rw [he]⟩
          · exact Or.inr ⟨hc1, _, hd1, fsLookup_isSome_mem _ _ hex⟩
      next hex =>
        constructor
        · intro p hp
          rw [h2]
          exact hp
        · intro j r' hj
          exact Or.inl ⟨r', hj, rfl, rfl⟩

theorem fgCopy_post' (dryRun : Bool) (origin destpath : String)
    (fh : Option String) (procTotal : Nat) (db1 : DB) (st0 : FgSt)
    (fsO : List (String × String)) (fgO : List FGRow)
    (hfs : st0.fs = fsO) (hfg : db1.filegroups = fgO) :
    (∀ p, p ∈ fsPaths fsO →
      p ∈ fsPaths (fgCopy dryRun origin destpath fh procTotal db1
        st0).fs) ∧
    (∀ j r', (fgCopy dryRun origin destpath fh procTotal db1
        st0).db.filegroups.get? j = some r' →
      (∃ r0, fgO.get? j = some r0 ∧
        r0.copied = r'.copied ∧
        r0.destinationpath = r'.destinationpath) ∨
      (r'.copied = 1 ∧ ∃ d, r'.destinationpath = some d ∧
        d ∈ fsPaths (fgCopy dryRun origin destpath fh procTotal db1
          st0).fs)) := by
  subst hfs
  subst hfg
  exact fgCopy_post dryRun origin destpath fh procTotal db1 st0

theorem fgStep_post (md5 : String → String) (copyDups dryRun : Bool)
    (destDir : String) (processed total : Nat) (r : FGRow) (st : FgSt) :
    (∀ p, p ∈ fsPaths st.fs →
      p ∈ fsPaths (fgStep md5 copyDups dryRun destDir processed total r
        st).fs) ∧
    (∀ j r', (fgStep md5 copyDups dryRun destDir processed total r
        st).db.filegroups.get? j = some r' →
      (∃ r0, st.db.filegroups.get? j = some r0 ∧
        r0.copied = r'.copied ∧
        r0.destinationpath = r'.destinationpath) ∨
      (r'.copied = 1 ∧ ∃ d, r'.destinationpath = some d ∧
        d ∈ fsPaths (fgStep md5 copyDups dryRun destDir processed total r
          st).fs)) := by
  simp only [fgStep]
  split
  all_goals
    by_cases hcond : ((!pyFalsy (fgResolve md5 st.fs st.db.hashvalues
        r.originpath r.hash).1 && decide (0 < countHash (fgResolve md5
        st.fs st.db.hashvalues r.originpath r.hash).2 ((fgResolve md5
        st.fs st.db.hashvalues r.originpath r.hash).1.getD "")) &&
        !copyDups) = true)
    · simp only [if_pos hcond]
      constructor
      · intro p hp
        exact hp
      · intro j r' hj
        obtain ⟨r0, h0, hc, hd⟩ := setFilegroupDuplicate_get? _ _ j r' hj
        exact Or.inl ⟨r0, h0, hc.symm, hd.symm⟩
    · simp only [if_neg hcond]
      exact fgCopy_post' dryRun r.originpath _ _ _ _ _ st.fs
        st.db.filegroups rfl rfl

theorem fgLoop_inv (cancelFrom : Option Nat) (md5 : String → String)
    (copyDups dryRun : Bool) (destDir : String) (processed total : Nat)
    (init : List FGRow) :
    ∀ (rows : List FGRow) (i : Nat) (st : FgSt), fgInv init st →
      fgInv init (fgLoop cancelFrom md5 copyDups dryRun destDir processed
        total rows i st) := by
  intro rows
  induction rows with
  | nil => intro i st h; exact h
  | cons r rest ih =>
    intro i st hinv
    unfold fgLoop
    by_cases hc : cancelHit cancelFrom i
    · rw [if_pos hc]
      intro j r' hj hcp
      rcases hinv j r' hj hcp with h | h
      · exact Or.inl h
      · exact Or.inr h
    · rw [if_neg hc]
      refine ih (i + 1) _ ?_
      intro j r' hj hcp
      obtain ⟨hmono, hpost⟩ := fgStep_post md5 copyDups dryRun destDir
        processed total r st
      rcases hpost j r' hj with ⟨r0, h0, hc0, hd0⟩ | ⟨hc1, d, hd1, hdin⟩
      · rcases hinv j r0 h0 (by rw [hc0, hcp]) with h | ⟨d, hd, hin⟩
        · exact Or.inl h
        · refine Or.inr ⟨d, ?_, hmono d hin⟩
          rw [← hd0]
          exact hd
      · exact Or.inr ⟨d, hd1, hdin⟩

theorem fgScan_get? (cancelFrom : Option Nat) (mode : String) :
    ∀ (ps : List String) (i : Nat) (db : DB) (j : Nat) (r' : FGRow),
      (fgScan cancelFrom mode ps i db).1.filegroups.get? j = some r' →
      db.filegroups.get? j = some r' ∨ r'.copied = 0 := by
  intro ps
  induction ps with
  | nil => intro i db j r' h; exact Or.inl h
  | cons p rest ih =>
    intro i db j r' h
    unfold fgScan at h
    by_cases hc : cancelHit cancelFrom i
    · rw [if_pos hc] at h
      exact Or.inl h
    · rw [if_neg hc] at h
      rcases ih (i + 1) _ j r' h with h1 | h1
      · show db.filegroups.get? j = some r' ∨ r'.copied = 0
        have h2 : (insertFilegroupEntry db.filegroups p (basename p)
            (getExtensionVariant p mode)
            (if pyFalsy (getHashForPath db.hashvalues p) then none
              else getHashForPath db.hashvalues p)).get? j = some r' := h1
        unfold insertFilegroupEntry at h2
        by_cases hp : (db.filegroups.find? (fun r =>
            r.originpath == p)).isSome
        · rw [if_pos hp] at h2
          exact Or.inl h2
        · rw [if_neg hp] at h2
          by_cases hj : j < db.filegroups.length
          · rw [List.get?_append hj] at h2
            exact Or.inl h2
          · right
            rw [List.get?_append_right (Nat.le_of_not_lt hj)] at h2
            cases hd : j - db.filegroups.length with
            | zero =>
              rw [hd] at h2
              rw [← Option.some.inj h2]
            | succ n =>
              rw [hd] at h2
              cases h2
      · exact Or.inr h1

theorem fgMain_inv (cancelFrom : Option Nat) (md5 : String → String)
    (copyDups dryRun : Bool) (destDir : String) (resume : Bool)
    (db2 : DB) (evs0' : List Ev) (checkBase : Nat)
    (fs : List (String × String)) (init : List FGRow)
    (hini : ∀ j r, db2.filegroups.get? j = some r → r.copied = 1 →
      ∃ r0, init.get? j = some r0 ∧ r0.copied = 1) :
    fgInv init (fgMain cancelFrom md5 copyDups dryRun destDir resume db2
      evs0' checkBase fs) := by
  have hfin : ∀ (p t : Nat) (stF : FgSt), fgInv init stF →
      fgInv init (fgFinish p t stF) := by
    intro p t stF hstF
    unfold fgFinish
    by_cases hstp : stF.stopped = true
    · rw [if_pos hstp]
      exact hstF
    · rw [if_neg hstp]
      intro j r hj hcp
      rcases hstF j r hj hcp with h | h
      · exact Or.inl h
      · exact Or.inr h
  cases resume
  all_goals
    simp only [fgMain]
    split
    · intro j r hj hcp
      exact Or.inl (hini j r hj hcp)
    · apply hfin
      apply fgLoop_inv
      intro j r hj hcp
      exact Or.inl (hini j r hj hcp)

theorem groupFiles_inv (originIsDir destOk : Bool)
    (originDir destDir groupingMode : String)
    (copyDups resume dryRun : Bool) (cancelFrom : Option Nat)
    (md5 : String → String) (fileList : List String) (db : DB)
    (fs : List (String × String)) :
    fgInv db.filegroups (groupFiles originIsDir destOk originDir destDir
      groupingMode copyDups resume dryRun cancelFrom md5 fileList db
      fs) := by
  cases originIsDir with
  | false =>
    intro j r hj hcp
    exact Or.inl ⟨r, hj, hcp⟩
  | true =>
    cases destOk with
    | false =>
      intro j r hj hcp
      exact Or.inl ⟨r, hj, hcp⟩
    | true =>
      cases resume with
      | true =>
        show fgInv db.filegroups (fgMain cancelFrom md5 copyDups dryRun
          destDir true db [Ev.status "Preparing filegroup operation",
            Ev.log ("Origin: " ++ originDir ++ " -> Destination: " ++
              destDir)] 0 fs)
        exact fgMain_inv cancelFrom md5 copyDups dryRun destDir true db
          _ 0 fs db.filegroups
          (fun j r hj hcp => ⟨r, hj, hcp⟩)
      | false =>
        show fgInv db.filegroups
          (if (fgScan cancelFrom (if (groupingMode ==
                "Group by filename") = true then "filename"
              else if (groupingMode == "Group by Extension") = true then
                "ext"
              else "ext_with_dot") fileList 0 db).2.2 = true then
            ⟨(fgScan cancelFrom (if (groupingMode ==
                "Group by filename") = true then "filename"
              else if (groupingMode == "Group by Extension") = true then
                "ext"
              else "ext_with_dot") fileList 0 db).1, fs,
              ([Ev.status "Preparing filegroup operation",
                Ev.log ("Origin: " ++ originDir ++ " -> Destination: "
                  ++ destDir)] ++ [Ev.log ("Files found: " ++
                    toString fileList.length)]) ++
              [Ev.log "FileGrouper cancelled during build",
                Ev.status "cancelled"], 0, 0, 0, true⟩
          else
            fgMain cancelFrom md5 copyDups dryRun destDir false
              (((((fgScan cancelFrom (if (groupingMode ==
                    "Group by filename") = true then "filename"
                  else if (groupingMode == "Group by Extension") = true
                    then "ext"
                  else "ext_with_dot") fileList 0 db).1.setN
                "fg_total_files" fileList.length).setN
                "fg_processed_count" 0).setS "fg_last_path" "").setS
                "fg_operation_state" "ready")
              ([Ev.status "Preparing filegroup operation",
                Ev.log ("Origin: " ++ originDir ++ " -> Destination: "
                  ++ destDir)] ++ [Ev.log ("Files found: " ++
                    toString fileList.length)])
              (fgScan cancelFrom (if (groupingMode ==
                  "Group by filename") = true then "filename"
                else if (groupingMode == "Group by Extension") = true
                  then "ext"
                else "ext_with_dot") fileList 0 db).2.1 fs)
        by_cases hcanc : (fgScan cancelFrom (if (groupingMode ==
              "Group by filename") = true then "filename"
            else if (groupingMode == "Group by Extension") = true then
              "ext"
            else "ext_with_dot") fileList 0 db).2.2 = true
        · rw [if_pos hcanc]
          intro j r hj hcp
          rcases fgScan_get? cancelFrom _ fileList 0 db j r hj with h | h
          · exact Or.inl ⟨r, h, hcp⟩
          · rw [hcp] at h
            exact absurd h (by decide)
        · rw [if_neg hcanc]
          refine fgMain_inv cancelFrom md5 copyDups dryRun destDir false
            _ _ _ fs db.filegroups ?_
          intro j r hj hcp
          have hj' : (fgScan cancelFrom (if (groupingMode ==
                "Group by filename") = true then "filename"
              else if (groupingMode == "Group by Extension") = true then
                "ext"
              else "ext_with_dot") fileList 0
              db).1.filegroups.get? j = some r := hj
          rcases fgScan_get? cancelFrom _ fileList 0 db j r hj'
            with h | h
          · exact ⟨r, h, hcp⟩
          · rw [hcp] at h
            exact absurd h (by decide)

/-- C6.  Corrected form.  Every filegroups entry that a GroupingCopier
run turns from copied=0 to copied=1 names a destination path at which a
file exists when the run ends.  The stronger claim - that the file's
content identity equals the entry's hash - fails: safe_copy never
overwrites, and the fallback of line 905 adopts an entry as copied
whenever a file already exists at its destination, even one copied there
from a different origin with a different hash
(copier_copied_hash_mismatch_counterexample). -/
theorem copier_copied_entry_destination_exists
    (originIsDir destOk : Bool) (originDir destDir groupingMode : String)
    (copyDups resume dryRun : Bool) (cancelFrom : Option Nat)
    (md5 : String → String) (fileList : List String) (db : DB)
    (fs : List (String × String)) :
    ∀ j r, (groupFiles originIsDir destOk originDir destDir groupingMode
        copyDups resume dryRun cancelFrom md5 fileList db
        fs).db.filegroups.get? j = some r →
      r.copied = 1 →
      (∀ r0, db.filegroups.get? j = some r0 → r0.copied ≠ 1) →
      ∃ d, r.destinationpath = some d ∧
        d ∈ fsPaths (groupFiles originIsDir destOk originDir destDir
          groupingMode copyDups resume dryRun cancelFrom md5 fileList db
          fs).fs := by
  intro j r hj hcp hno
  rcases groupFiles_inv originIsDir destOk originDir destDir groupingMode
    copyDups resume dryRun cancelFrom md5 fileList db fs j r hj hcp
    with ⟨r0, h0, hc0⟩ | h
  · exact absurd hc0 (hno r0 h0)
  · exact h

/-- Witness for C6 on the dbFgSeed run: the adopted second entry's
destination file exists. -/
theorem copier_copied_entry_destination_exists_witness :
    ∃ d, (⟨"o/b/x.txt", some "d/dot txt/x.txt", "x.txt", "dot txt",
        some "B", 1, none⟩ : FGRow).destinationpath = some d ∧
      d ∈ fsPaths (groupFiles true true "o" "d" "m" false true false
        none (fun c => c) [] dbFgSeed fsFgSeed).fs := by
  refine copier_copied_entry_destination_exists true true "o" "d" "m"
    false true false none (fun c => c) [] dbFgSeed fsFgSeed 1
    ⟨"o/b/x.txt", some "d/dot txt/x.txt", "x.txt", "dot txt", some "B",
      1, none⟩ (by decide) rfl ?_
  intro r0 h
  rw [← Option.some.inj h]
  decide

theorem prefOf_append : ∀ (a b : List Char), prefOf a (a ++ b) = true := by
  intro a
  induction a with
  | nil => intro b; rfl
  | cons c cs ih =>
    intro b
    show (c == c && prefOf cs (cs ++ b)) = true
    rw [ih b]
    simp

/-- C10 counterexample: with a trailing separator on the origin string,
a destination inside the very directory the origin names is not refused
- the gate compares raw strings, so o/x does not start with o// and
differs from o/, and the copier is started. -/
theorem filegroup_gate_trailing_separator_counterexample :
    runFilegroupGate "o/" "o/x" = false ∧
    "o/" = "o" ++ "/" ∧ "o/x" = "o" ++ "/" ++ "x" ∧
    (runFilegroup true true "o/" "o/x" "m" false false false none
      (fun c => c) [] ⟨[], [], []⟩ []).isSome = true := by decide

/-- C10.  Corrected form.  The gate refuses - returning before any scan,
copy or database mutation - exactly when the destination string equals
the origin string or extends it past a path separator; in that case the
generator is never invoked.  Because the comparison is textual, a
destination nested inside the origin directory escapes the gate when the
origin is spelled with a trailing separator. -/
theorem filegroup_gate_refuses_equal_or_separator_nested
    (originIsDir destOk : Bool)
    (originDir destDir groupingMode : String)
    (copyDups resume dryRun : Bool) (cancelFrom : Option Nat)
    (md5 : String → String) (fileList : List String) (db : DB)
    (fs : List (String × String)) :
    destDir = originDir ∨ (∃ rest, destDir = originDir ++ "/" ++ rest) →
    runFilegroup originIsDir destOk originDir destDir groupingMode
      copyDups resume dryRun cancelFrom md5 fileList db fs = none := by
  intro h
  have hg : runFilegroupGate originDir destDir = true := by
    unfold runFilegroupGate
    rcases h with h | ⟨rest, h⟩
    · subst h
      simp
    · subst h
      have hsw : pyStartsWith (originDir ++ "/" ++ rest)
          (originDir ++ "/") = true := by
        unfold pyStartsWith
        rw [show (originDir ++ "/" ++ rest).data =
            (originDir ++ "/").data ++ rest.data from String.data_append
              (originDir ++ "/") rest]
        exact prefOf_append _ _
      rw [hsw]
      simp
  unfold runFilegroup
  rw [if_pos hg]

/-- Witness for C10: a destination directly below the origin is
refused. -/
theorem filegroup_gate_refuses_equal_or_separator_nested_witness :
    runFilegroup true true "o" "o/x" "m" false false false none
      (fun c => c) [] ⟨[], [], []⟩ [] = none :=
  filegroup_gate_refuses_equal_or_separator_nested true true "o" "o/x"
    "m" false false false none (fun c => c) [] ⟨[], [], []⟩ []
    (Or.inr ⟨"x", rfl⟩)
